import Mathlib

/-!
# klassenmischer: constrained random group formation

A shallow embedding of the algorithmic core of `src/main.go`:

* `isValidGroup`                   (main.go 264-295)
* `attemptToFormGroupsOfSize`      (main.go 300-349)
* `tryIntegrateIntoExistingGroup`  (main.go 354-388)
* `formTwoPersonGroups`, `formThreePersonGroups`, `formFourPersonGroups`
                                   (main.go 393-576)
* `checkSymmetricConstraints`      (main.go 583-624)
* the three retry loops of `main`  (main.go 664-686, 707-723, 744-760)

Go values are represented as follows.

* `[]string`, `[][]string` are `List String`, `List (List String)`.
* `map[string][]string` (the constraints) is the list of its entries, in the order in
  which `range` enumerates them; a lookup `constraints[k]` is `List.lookup`.  A Go map has
  pairwise different keys (`WellFormed`).
* `map[string]bool` (the used set) is only ever read through `usedStudents[s]`, which is
  `false` for an absent key, so it is the function `String → Bool`.
* `rand.Shuffle` is not code of the repository.  Each call of it takes the next `Shuffle`
  from the generator state `Rand`; a `Shuffle` is an arbitrary rearrangement of a list
  that is a permutation of it.  Functions that shuffle return the generator state they
  leave behind.
* Go `int` values that can be negative (`maxGroupedStudents2er`) are `Int`; lengths are `Nat`.
-/

set_option linter.unusedVariables false

namespace Klassenmischer

/-! ## Data model -/

/-- The Go type `map[string][]string`: the entries of the map in enumeration order. -/
abbrev Constraints := List (String × List String)

/-- The keys of a Go map are pairwise different. -/
def WellFormed (constraints : Constraints) : Prop :=
  (constraints.map Prod.fst).Nodup

instance (constraints : Constraints) : Decidable (WellFormed constraints) := by
  unfold WellFormed
  infer_instance

/-- The two-valued lookup `list, exists := constraints[k]`. -/
def Constraints.get (constraints : Constraints) (k : String) : Option (List String) :=
  List.lookup k constraints

/-- The one-valued lookup `constraints[k]`: the empty list for a key the map does not
hold. -/
def Constraints.forbidden (constraints : Constraints) (k : String) : List String :=
  (constraints.get k).getD []

/-- The Go type `map[string]bool` as it is read by `usedStudents[s]`. -/
abbrev UsedSet := String → Bool

/-- The fresh map `make(map[string]bool)`. -/
def UsedSet.empty : UsedSet := fun _ => false

/-- The assignment `usedStudents[s] = true`. -/
def UsedSet.mark (used : UsedSet) (s : String) : UsedSet :=
  fun x => if x = s then true else used x

/-- The loop `for _, s := range group { usedStudents[s] = true }`. -/
def UsedSet.markAll (used : UsedSet) (group : List String) : UsedSet :=
  group.foldl UsedSet.mark used

/-- One outcome of `rand.Shuffle`: a rearrangement of the elements of a slice. -/
structure Shuffle where
  /-- The slice after the shuffle. -/
  apply : {α : Type} → List α → List α
  /-- A shuffle only swaps elements. -/
  perm : ∀ {α : Type} (l : List α), (apply l).Perm l

/-- The state of the process-wide generator: the outcomes of the calls of `rand.Shuffle`
still to come. -/
abbrev Rand := Nat → Shuffle

/-- The outcome of the next call of `rand.Shuffle`. -/
def Rand.next (rand : Rand) : Shuffle := rand 0

/-- The generator after one call of `rand.Shuffle`. -/
def Rand.advance (rand : Rand) : Rand := fun n => rand (n + 1)

/-- The shuffle that leaves every slice as it is. -/
def Shuffle.identity : Shuffle where
  apply := fun l => l
  perm := fun l => List.Perm.refl l

/-- The shuffle that reverses every slice. -/
def Shuffle.reverse : Shuffle where
  apply := fun l => l.reverse
  perm := fun l => List.reverse_perm l

/-- The shuffle that moves the first element of a slice to its end. -/
def Shuffle.rotate : Shuffle where
  apply := fun l => l.rotate 1
  perm := fun l => List.rotate_perm l 1

/-- The generator whose first calls have the listed outcomes and that leaves every
later slice as it is. -/
def Rand.ofList (outcomes : List Shuffle) : Rand :=
  fun n => outcomes.getD n Shuffle.identity

/-! ## isValidGroup (main.go 264-295) -/

/-- The innermost loops `for _, forbiddenStudent := range list { if x == forbiddenStudent
{ return false } }`: whether the loop reaches its `return false`. -/
def occursIn (x : String) (list : List String) : Bool :=
  list.any (fun forbiddenStudent => x == forbiddenStudent)

/-- The body of the loop over `j, studentB` for a fixed `i, studentA` whose forbidden list
exists: `true` when the body reaches a `return false`. -/
def conflictAt (constraints : Constraints) (i : Nat) (studentA : String)
    (forbiddenList : List String) (j : Nat) (studentB : String) : Bool :=
  if i = j then false
  else if occursIn studentB forbiddenList then true
  else
    match constraints.get studentB with
    | some forbiddenListB => occursIn studentA forbiddenListB
    | none => false

/-- The body of the loop over `i, studentA`: `true` when it reaches a `return false`. -/
def conflictFrom (constraints : Constraints) (group : List String) (i : Nat)
    (studentA : String) : Bool :=
  match constraints.get studentA with
  | none => false
  | some forbiddenList =>
    group.enum.any (fun jb => conflictAt constraints i studentA forbiddenList jb.1 jb.2)

/-- The function `isValidGroup`: `false` as soon as some iteration returns `false`, `true`
when both loops run to their end. -/
def isValidGroup (group : List String) (constraints : Constraints) : Bool :=
  !(group.enum.any (fun ia => conflictFrom constraints group ia.1 ia.2))

/-- The body of the loop over `j, studentB` of `isValidGroup` with the lines 283-291 of main.go
removed: only the test whether `studentB` occurs in the list of `studentA` is left. -/
def conflictAtForward (i : Nat) (forbiddenList : List String) (j : Nat) (studentB : String) :
    Bool :=
  if i = j then false else occursIn studentB forbiddenList

/-- The body of the loop over `i, studentA` of `isValidGroup` with the lines 283-291 removed. -/
def conflictFromForward (constraints : Constraints) (group : List String) (i : Nat)
    (studentA : String) : Bool :=
  match constraints.get studentA with
  | none => false
  | some forbiddenList =>
    group.enum.any (fun jb => conflictAtForward i forbiddenList jb.1 jb.2)

/-- The simplified predicate: `isValidGroup` with the lines 283-291 of main.go removed, which
for every ordered pair of different positions only tests whether the student at the second
occurs in the list of the student at the first. -/
def isValidGroupForward (group : List String) (constraints : Constraints) : Bool :=
  !(group.enum.any (fun ia => conflictFromForward constraints group ia.1 ia.2))

/-! ## attemptToFormGroupsOfSize (main.go 300-349) -/

/-- The groups formed so far, the used set and the generator state: what the formation
routines hand to each other. -/
structure FormState where
  /-- The Go variable `groups` (`currentGroups`, `groupsCopy`). -/
  groups : List (List String)
  /-- The Go variable `usedStudents` (`currentUsedStudents`, `usedStudentsCopy`). -/
  usedStudents : UsedSet
  /-- The state of the generator. -/
  rand : Rand

/-- The loop `for { ... }` of `attemptToFormGroupsOfSize`, one call per iteration.  The
source only calls it with `targetSize` 2, 3 and 4; for `targetSize = 0` the Go loop appends
the empty group for ever, which the argument `hpos` excludes.  The recursion is on the number
of students of the pool that are not yet used. -/
def attemptLoop (targetSize : Nat) (hpos : 0 < targetSize) (studentsPool : List String)
    (constraints : Constraints) (currentGroups : List (List String))
    (currentUsedStudents : UsedSet) (rand : Rand) : FormState :=
  let availableStudents := studentsPool.filter (fun s => !currentUsedStudents s)
  if availableStudents.length < targetSize then
    ⟨currentGroups, currentUsedStudents, rand⟩
  else
    let shuffled := rand.next.apply availableStudents
    let potentialGroup := shuffled.take targetSize
    if isValidGroup potentialGroup constraints then
      attemptLoop targetSize hpos studentsPool constraints (currentGroups ++ [potentialGroup])
        (currentUsedStudents.markAll potentialGroup) rand.advance
    else
      ⟨currentGroups, currentUsedStudents, rand.advance⟩
termination_by (studentsPool.filter (fun s => !currentUsedStudents s)).length
decreasing_by
  rename_i hlen0 _
  have hlen : ¬ (studentsPool.filter (fun s => !currentUsedStudents s)).length < targetSize :=
    hlen0
  have hmark : ∀ (g : List String) (u : UsedSet) (s : String),
      (s ∈ g ∨ u s = true) → UsedSet.markAll u g s = true := by
    intro g
    induction g with
    | nil => intro u s h; simpa [UsedSet.markAll] using h
    | cons a l ih =>
      intro u s h
      simp only [UsedSet.markAll, List.foldl_cons]
      apply ih
      rcases h with h | h
      · rcases List.mem_cons.1 h with h | h
        · right; simp [UsedSet.mark, h]
        · left; exact h
      · right; simp [UsedSet.mark, h]
  have hperm := rand.next.perm (studentsPool.filter (fun s => !currentUsedStudents s))
  have hlen2 : targetSize ≤ (rand.next.apply
      (studentsPool.filter (fun s => !currentUsedStudents s))).length := by
    rw [hperm.length_eq]; omega
  cases hsh : rand.next.apply (studentsPool.filter (fun s => !currentUsedStudents s)) with
  | nil => rw [hsh] at hlen2; simp at hlen2; omega
  | cons x rest =>
    have hx : x ∈ studentsPool.filter (fun s => !currentUsedStudents s) := by
      apply hperm.subset
      rw [hsh]
      exact List.mem_cons_self x rest
    obtain ⟨k, hk⟩ : ∃ k, targetSize = k + 1 := ⟨targetSize - 1, by omega⟩
    have hxg : x ∈ List.take targetSize (x :: rest) := by
      rw [hk, List.take_succ_cons]
      exact List.mem_cons_self x _
    have hsub : studentsPool.filter
        (fun s => !UsedSet.markAll currentUsedStudents (List.take targetSize (x :: rest)) s)
        = (studentsPool.filter (fun s => !currentUsedStudents s)).filter
          (fun s => !UsedSet.markAll currentUsedStudents (List.take targetSize (x :: rest)) s) := by
      rw [List.filter_filter]
      apply List.filter_congr
      intro s _
      cases hu : currentUsedStudents s with
      | false => simp
      | true => simp [hmark _ _ s (Or.inr hu)]
    rw [hsub]
    apply List.length_filter_lt_length_iff_exists.2
    exact ⟨x, hx, by simp [hmark _ _ x (Or.inl hxg)]⟩

/-- The function `attemptToFormGroupsOfSize`: the copies of `existingGroups` and
`usedStudents` are the values themselves, then the loop runs. -/
def attemptToFormGroupsOfSize (targetSize : Nat) (hpos : 0 < targetSize)
    (studentsPool : List String) (usedStudents : UsedSet) (existingGroups : List (List String))
    (constraints : Constraints) (rand : Rand) : FormState :=
  attemptLoop targetSize hpos studentsPool constraints existingGroups usedStudents rand

/-- The loop `for { ... }` of `attemptToFormGroupsOfSize` for any `targetSize`, with a bound
on the number of iterations it may start: `none` when the bound is reached before the loop
ends. -/
def attemptLoopBounded (targetSize : Nat) (studentsPool : List String)
    (constraints : Constraints) :
    Nat → List (List String) → UsedSet → Rand → Option FormState
  | 0, _, _, _ => none
  | bound + 1, currentGroups, currentUsedStudents, rand =>
    let availableStudents := studentsPool.filter (fun s => !currentUsedStudents s)
    if availableStudents.length < targetSize then
      some ⟨currentGroups, currentUsedStudents, rand⟩
    else
      let shuffled := rand.next.apply availableStudents
      let potentialGroup := shuffled.take targetSize
      if isValidGroup potentialGroup constraints then
        attemptLoopBounded targetSize studentsPool constraints bound
          (currentGroups ++ [potentialGroup]) (currentUsedStudents.markAll potentialGroup)
          rand.advance
      else
        some ⟨currentGroups, currentUsedStudents, rand.advance⟩

/-! ## tryIntegrateIntoExistingGroup (main.go 354-388) -/

/-- The loop `for _, idx := range indices` of `tryIntegrateIntoExistingGroup`: the updated
`groupsCopy` at the first index that takes the student, `none` when the loop runs to its
end.  An index outside `groupsCopy` is skipped; the shuffled `indices` contain none. -/
def integrateLoop (lonelyStudent : String) (targetGroupSize : Nat)
    (groupsCopy : List (List String)) (constraints : Constraints) :
    List Nat → Option (List (List String))
  | [] => none
  | idx :: rest =>
    match groupsCopy[idx]? with
    | none => integrateLoop lonelyStudent targetGroupSize groupsCopy constraints rest
    | some group =>
      if group.length = targetGroupSize then
        let potentialNewGroup := group ++ [lonelyStudent]
        if isValidGroup potentialNewGroup constraints then
          some (groupsCopy.set idx potentialNewGroup)
        else integrateLoop lonelyStudent targetGroupSize groupsCopy constraints rest
      else integrateLoop lonelyStudent targetGroupSize groupsCopy constraints rest

/-- The function `tryIntegrateIntoExistingGroup`: the flag `integrated` and the groups, used
set and generator state after the call.  The argument `newGroupSize` is not read by the
source. -/
def tryIntegrateIntoExistingGroup (lonelyStudent : String) (targetGroupSize : Nat)
    (newGroupSize : Nat) (existingGroups : List (List String)) (usedStudents : UsedSet)
    (constraints : Constraints) (rand : Rand) : Bool × FormState :=
  let indices := rand.next.apply (List.range existingGroups.length)
  match integrateLoop lonelyStudent targetGroupSize existingGroups constraints indices with
  | some groupsCopy => (true, ⟨groupsCopy, usedStudents.mark lonelyStudent, rand.advance⟩)
  | none => (false, ⟨existingGroups, usedStudents, rand.advance⟩)

/-- The test of the loop of `tryIntegrateIntoExistingGroup` at the index `idx`: the group
there has the size to match and is valid with the student appended. -/
def takesStudent (lonelyStudent : String) (targetGroupSize : Nat)
    (groups : List (List String)) (constraints : Constraints) (idx : Nat) : Bool :=
  match groups[idx]? with
  | none => false
  | some group =>
    decide (group.length = targetGroupSize) &&
      isValidGroup (group ++ [lonelyStudent]) constraints

/-! ## formTwoPersonGroups, formThreePersonGroups, formFourPersonGroups (main.go 393-576) -/

/-- The pair `(groups, finalUngrouped)` a formation function returns, with the generator
state it leaves behind. -/
structure Formation where
  /-- The returned groups. -/
  groups : List (List String)
  /-- The returned `finalUngrouped`. -/
  ungrouped : List String
  /-- The state of the generator after the call. -/
  rand : Rand

/-- The closing loop of the three formation functions: the students of `allStudents` that
are not used, in the order of `allStudents`. -/
def finalUngrouped (allStudents : List String) (st : FormState) : Formation :=
  ⟨st.groups, allStudents.filter (fun student => !st.usedStudents student), st.rand⟩

/-- The function `formTwoPersonGroups`. -/
def formTwoPersonGroups (allStudents : List String) (constraints : Constraints)
    (rand : Rand) : Formation :=
  let studentsToGroup := rand.next.apply allStudents
  let main := attemptToFormGroupsOfSize 2 (by decide) studentsToGroup UsedSet.empty []
    constraints rand.advance
  let currentlyUngrouped := studentsToGroup.filter (fun student => !main.usedStudents student)
  match currentlyUngrouped with
  | [lonelyStudent] =>
    let r := tryIntegrateIntoExistingGroup lonelyStudent 2 3 main.groups main.usedStudents
      constraints main.rand
    if r.1 then finalUngrouped allStudents r.2
    else finalUngrouped allStudents ⟨main.groups, main.usedStudents, r.2.rand⟩
  | _ => finalUngrouped allStudents main

/-- The function `formThreePersonGroups`. -/
def formThreePersonGroups (allStudents : List String) (constraints : Constraints)
    (rand : Rand) : Formation :=
  let studentsToGroup := rand.next.apply allStudents
  let main := attemptToFormGroupsOfSize 3 (by decide) studentsToGroup UsedSet.empty []
    constraints rand.advance
  let currentlyUngrouped := studentsToGroup.filter (fun student => !main.usedStudents student)
  match currentlyUngrouped with
  | [lonelyStudent] =>
    let r := tryIntegrateIntoExistingGroup lonelyStudent 3 4 main.groups main.usedStudents
      constraints main.rand
    if r.1 then finalUngrouped allStudents r.2
    else finalUngrouped allStudents ⟨main.groups, main.usedStudents, r.2.rand⟩
  | [_, _] =>
    let potentialGroup := currentlyUngrouped
    if isValidGroup potentialGroup constraints then
      finalUngrouped allStudents
        ⟨main.groups ++ [potentialGroup], main.usedStudents.markAll potentialGroup, main.rand⟩
    else finalUngrouped allStudents main
  | _ => finalUngrouped allStudents main

/-- The function `formFourPersonGroups`. -/
def formFourPersonGroups (allStudents : List String) (constraints : Constraints)
    (rand : Rand) : Formation :=
  let studentsToGroup := rand.next.apply allStudents
  let main := attemptToFormGroupsOfSize 4 (by decide) studentsToGroup UsedSet.empty []
    constraints rand.advance
  let currentlyUngrouped := studentsToGroup.filter (fun student => !main.usedStudents student)
  match currentlyUngrouped with
  | [lonelyStudent] =>
    let r := tryIntegrateIntoExistingGroup lonelyStudent 4 5 main.groups main.usedStudents
      constraints main.rand
    if r.1 then finalUngrouped allStudents r.2
    else finalUngrouped allStudents ⟨main.groups, main.usedStudents, r.2.rand⟩
  | [lonelyStudent1, lonelyStudent2] =>
    let r1 := tryIntegrateIntoExistingGroup lonelyStudent1 4 5 main.groups main.usedStudents
      constraints main.rand
    if r1.1 then
      let r2 := tryIntegrateIntoExistingGroup lonelyStudent2 4 5 r1.2.groups
        r1.2.usedStudents constraints r1.2.rand
      if r2.1 then finalUngrouped allStudents r2.2
      else finalUngrouped allStudents ⟨r1.2.groups, r1.2.usedStudents, r2.2.rand⟩
    else finalUngrouped allStudents ⟨main.groups, main.usedStudents, r1.2.rand⟩
  | [_, _, _] =>
    let potentialGroup := currentlyUngrouped
    if isValidGroup potentialGroup constraints then
      finalUngrouped allStudents
        ⟨main.groups ++ [potentialGroup], main.usedStudents.markAll potentialGroup, main.rand⟩
    else finalUngrouped allStudents main
  | _ => finalUngrouped allStudents main

/-- The state of a formation function after its call of `attemptToFormGroupsOfSize`: main
formation on the shuffled roster, started without groups and with nobody used. -/
def mainFormation (targetSize : Nat) (hpos : 0 < targetSize) (allStudents : List String)
    (constraints : Constraints) (rand : Rand) : FormState :=
  attemptToFormGroupsOfSize targetSize hpos (rand.next.apply allStudents) UsedSet.empty []
    constraints rand.advance

/-- The slice `currentlyUngrouped` of a formation function before its special cases: the
students of the shuffled roster that main formation did not use. -/
def currentlyUngrouped (targetSize : Nat) (hpos : 0 < targetSize) (allStudents : List String)
    (constraints : Constraints) (rand : Rand) : List String :=
  (rand.next.apply allStudents).filter
    (fun student => !(mainFormation targetSize hpos allStudents constraints rand).usedStudents
      student)

/-! ## checkSymmetricConstraints (main.go 583-624) -/

/-- One entry of `asymmetricIssues`: which of the two messages it is, and for which
`studentA` and `studentB`. -/
inductive Asymmetry where
  /-- The message for a `studentB` that is no key of the map. -/
  | noConstraints (studentA studentB : String)
  /-- The message for a `studentB` whose list does not hold `studentA`. -/
  | notForbidden (studentA studentB : String)
deriving DecidableEq, Repr

/-- The text `fmt.Sprintf` gives the entry. -/
def Asymmetry.message : Asymmetry → String
  | .noConstraints studentA studentB =>
    "Asymmetrie gefunden: '" ++ studentA ++ "' kann nicht mit '" ++ studentB
      ++ "' arbeiten, aber '" ++ studentB ++ "' hat keine Constraints."
  | .notForbidden studentA studentB =>
    "Asymmetrie gefunden: '" ++ studentA ++ "' kann nicht mit '" ++ studentB
      ++ "' arbeiten, aber '" ++ studentB ++ "' kann mit '" ++ studentA ++ "' arbeiten."

/-- The call `sort.Strings`: the list in ascending order. -/
def sortStrings (list : List String) : List String :=
  list.insertionSort (fun a b => a ≤ b)

/-- The body of the loop over `studentB`: the entries it appends to `asymmetricIssues`. -/
def issuesAt (constraints : Constraints) (studentA studentB : String) : List Asymmetry :=
  match constraints.get studentB with
  | none => [Asymmetry.noConstraints studentA studentB]
  | some forbiddenByB =>
    let foundAInB := forbiddenByB.any (fun s => s == studentA)
    if !foundAInB then [Asymmetry.notForbidden studentA studentB] else []

/-- The body of the loop over `studentA, forbiddenByA`: the entries it appends. -/
def issuesFrom (constraints : Constraints) (studentA : String) (forbiddenByA : List String) :
    List Asymmetry :=
  let sortedForbiddenByA := sortStrings forbiddenByA
  sortedForbiddenByA.flatMap (fun studentB => issuesAt constraints studentA studentB)

/-- The slice `asymmetricIssues` when both loops of `checkSymmetricConstraints` have run. -/
def asymmetricIssues (constraints : Constraints) : List Asymmetry :=
  constraints.flatMap (fun entry => issuesFrom constraints entry.1 entry.2)

/-- The function `checkSymmetricConstraints`: `none` for the Go result `nil`, otherwise the
text of the returned error. -/
def checkSymmetricConstraints (constraints : Constraints) : Option String :=
  let issues := asymmetricIssues constraints
  if issues.length > 0 then
    some ("Inkonsistenzen in den Constraints gefunden:\n"
      ++ "\n".intercalate (issues.map Asymmetry.message))
  else none

/-- The `studentA` of an entry of `asymmetricIssues`: the key the finding is about. -/
def Asymmetry.studentA : Asymmetry → String
  | .noConstraints studentA _ => studentA
  | .notForbidden studentA _ => studentA

/-- The `studentB` of an entry of `asymmetricIssues`: the forbidden partner of the finding. -/
def Asymmetry.studentB : Asymmetry → String
  | .noConstraints _ studentB => studentB
  | .notForbidden _ studentB => studentB

/-- The lines 589-591 of main.go: the slices `forbiddenByA` and `sortedForbiddenByA` after
`make`, `copy` and `sort.Strings(sortedForbiddenByA)`.  The copy has a backing array of its
own, so the call of `sort.Strings` writes to the copy only. -/
def sortedCopy (forbiddenByA : List String) : List String × List String :=
  (forbiddenByA, sortStrings forbiddenByA)

/-! ## The retry loops of main (main.go 664-686, 707-723, 744-760) -/

/-- The constant `attempts` of `main`. -/
def attempts : Nat := 1000

/-- The variables of one retry loop of `main`, `bestGroups2er`, `bestUngrouped2er` and
`maxGroupedStudents2er` for the first one, with the state of the generator.  The field
`history` is no variable of the source: it records the results of the attempts the loop has
run, in the order in which it ran them. -/
structure RetryState where
  /-- The Go variable `bestGroups2er` (`bestGroups3er`, `bestGroups4er`). -/
  bestGroups : List (List String)
  /-- The Go variable `bestUngrouped2er` (`bestUngrouped3er`, `bestUngrouped4er`). -/
  bestUngrouped : List String
  /-- The Go variable `maxGroupedStudents2er` (`maxGroupedStudents3er`,
  `maxGroupedStudents4er`). -/
  maxGroupedStudents : Int
  /-- The state of the generator. -/
  rand : Rand
  /-- The results of the attempts run so far. -/
  history : List Formation

/-- The variables of a retry loop before its first iteration. -/
def RetryState.initial (rand : Rand) : RetryState :=
  ⟨[], [], -1, rand, []⟩

/-- The value `currentGroupedStudents` of an attempt: the size of the roster minus the number
of students the attempt left over. -/
def groupedCount (schuelerliste : List String) (current : Formation) : Int :=
  (schuelerliste.length : Int) - (current.ungrouped.length : Int)

/-- The loop `for i := 0; i < attempts; i++ { ... }` of `main` with `remaining` iterations
still to go, for the formation function `form` that the loop calls. -/
def retryLoop (form : List String → Constraints → Rand → Formation)
    (schuelerliste : List String) (constraints : Constraints) : Nat → RetryState → RetryState
  | 0, st => st
  | remaining + 1, st =>
    let current := form schuelerliste constraints st.rand
    let currentGroupedStudents := groupedCount schuelerliste current
    if currentGroupedStudents > st.maxGroupedStudents then
      if current.ungrouped.length = 0 then
        ⟨current.groups, current.ungrouped, currentGroupedStudents, current.rand,
          st.history ++ [current]⟩
      else
        retryLoop form schuelerliste constraints remaining
          ⟨current.groups, current.ungrouped, currentGroupedStudents, current.rand,
            st.history ++ [current]⟩
    else
      retryLoop form schuelerliste constraints remaining
        ⟨st.bestGroups, st.bestUngrouped, st.maxGroupedStudents, current.rand,
          st.history ++ [current]⟩

/-- One retry loop of `main` from its first iteration to its end. -/
def bestFormation (form : List String → Constraints → Rand → Formation)
    (schuelerliste : List String) (constraints : Constraints) (rand : Rand) : RetryState :=
  retryLoop form schuelerliste constraints attempts (RetryState.initial rand)

/-- The results of `k` attempts made one after the other, each with the generator state the
one before left behind. -/
def attemptChain (form : List String → Constraints → Rand → Formation)
    (schuelerliste : List String) (constraints : Constraints) : Nat → Rand → List Formation
  | 0, _ => []
  | k + 1, rand =>
    form schuelerliste constraints rand ::
      attemptChain form schuelerliste constraints k (form schuelerliste constraints rand).rand

/-! ## Conditions on the input that the statements use -/

/-- The constraint relation is symmetric: for every key `a` and every `b` in
`constraints[a]`, `b` is a key as well and `a` occurs in `constraints[b]`. -/
def SymmetricConstraints (constraints : Constraints) : Prop :=
  ∀ a la, constraints.get a = some la →
    ∀ b ∈ la, ∃ lb, constraints.get b = some lb ∧ a ∈ lb

/-- The roster's students are forbidden to each other two by two, in at least one declared
direction. -/
def AllForbidden (allStudents : List String) (constraints : Constraints) : Prop :=
  ∀ a ∈ allStudents, ∀ b ∈ allStudents, a ≠ b →
    b ∈ constraints.forbidden a ∨ a ∈ constraints.forbidden b

/-- The constraint relation is empty: nobody has a forbidden partner, because the map has
no key or because all its lists are empty. -/
def NoConstraints (constraints : Constraints) : Prop :=
  ∀ a, constraints.forbidden a = []

/-- The function called by a retry loop of `main` is one of the three formation functions. -/
def IsFormationFunction (form : List String → Constraints → Rand → Formation) : Prop :=
  form = formTwoPersonGroups ∨ form = formThreePersonGroups ∨ form = formFourPersonGroups

/-- Two maps have the same keys in the same enumeration order, and the list of each key in
the one is a permutation of its list in the other. -/
def SameListsUpToOrder (constraints constraints2 : Constraints) : Prop :=
  List.Forall₂ (fun entry entry2 => entry.1 = entry2.1 ∧ entry.2.Perm entry2.2)
    constraints constraints2

/-! ## The invariant of group formation -/

/-- What the groups and the used set of a formation satisfy at every point of it, for a pool
of students: every group is valid, the used students are exactly the members of the groups,
these come from the pool, and no student of a duplicate-free pool is placed twice. -/
structure Good (pool : List String) (constraints : Constraints) (groups : List (List String))
    (used : UsedSet) : Prop where
  /-- Every group passes `isValidGroup`. -/
  valid : ∀ g ∈ groups, isValidGroup g constraints = true
  /-- The used students are the members of the groups. -/
  used_iff : ∀ s, used s = true ↔ s ∈ groups.flatten
  /-- The members of the groups are students of the pool. -/
  sub : ∀ s ∈ groups.flatten, s ∈ pool
  /-- In a duplicate-free pool nobody is in two groups or twice in one. -/
  nodup : pool.Nodup → groups.flatten.Nodup

/-- What the three formation functions have in common when they return: the groups and
some used set satisfy the invariant for the roster, and the leftover list holds the students
of the roster that are not used. -/
def FormsWell (allStudents : List String) (constraints : Constraints) (r : Formation) :
    Prop :=
  ∃ used : UsedSet, Good allStudents constraints r.groups used ∧
    r.ungrouped = allStudents.filter (fun s => !used s)

/-- The retained result of a retry loop is that of the earliest of the attempts run so far
whose grouped count is the greatest: an attempt of the history at some index `i` gave the
retained groups and leftover, its grouped count is the retained maximum, every earlier attempt
has a smaller grouped count and no attempt has a greater one. -/
def RetainsFirstBest (schuelerliste : List String) (st : RetryState) : Prop :=
  ∃ (i : Nat) (a : Formation), st.history[i]? = some a ∧
    st.bestGroups = a.groups ∧ st.bestUngrouped = a.ungrouped ∧
    groupedCount schuelerliste a = st.maxGroupedStudents ∧
    (∀ (j : Nat) (b : Formation), j < i → st.history[j]? = some b →
      groupedCount schuelerliste b < st.maxGroupedStudents) ∧
    (∀ b ∈ st.history, groupedCount schuelerliste b ≤ st.maxGroupedStudents)

/-! ## Lemmas -/

/-- The innermost loop of `isValidGroup` finds `x` exactly when `x` is in the list. -/
theorem occursIn_iff (x : String) (list : List String) : occursIn x list = true ↔ x ∈ list := by
  unfold occursIn
  rw [List.any_eq_true]
  constructor
  · rintro ⟨y, hy, hxy⟩
    rw [beq_iff_eq] at hxy
    exact hxy ▸ hy
  · intro h
    exact ⟨x, h, by simp⟩

/-- A student is in `constraints[a]` exactly when `a` is a key whose list holds the student. -/
theorem mem_forbidden_iff (c : Constraints) (a b : String) :
    b ∈ c.forbidden a ↔ ∃ la, c.get a = some la ∧ b ∈ la := by
  unfold Constraints.forbidden
  cases h : c.get a <;> simp

/-- The body of the inner loop of `isValidGroup` returns `false` for the positions `i`, `j`
exactly when they differ and one of the two students is in the list of the other. -/
theorem conflictAt_iff (c : Constraints) (i j : Nat) (a b : String) (la : List String) :
    conflictAt c i a la j b = true ↔ i ≠ j ∧ (b ∈ la ∨ a ∈ c.forbidden b) := by
  unfold conflictAt
  by_cases hij : i = j
  · simp [hij]
  · by_cases hb : b ∈ la
    · simp [hij, (occursIn_iff b la).2 hb, hb]
    · have hb2 : occursIn b la = false := by
        cases h : occursIn b la
        · rfl
        · exact absurd ((occursIn_iff b la).1 h) hb
      simp only [hij, hb2, if_false, hb, false_or, ne_eq, not_false_eq_true, true_and]
      cases hg : c.get b with
      | none => simp [Constraints.forbidden, hg]
      | some lb => simp [Constraints.forbidden, hg, occursIn_iff]

/-- The body of the outer loop of `isValidGroup` returns `false` at position `i` exactly when
`studentA` is a key and some other position conflicts with it. -/
theorem conflictFrom_iff (c : Constraints) (g : List String) (i : Nat) (a : String) :
    conflictFrom c g i a = true ↔
      ∃ la, c.get a = some la ∧
        ∃ j b, g[j]? = some b ∧ i ≠ j ∧ (b ∈ la ∨ a ∈ c.forbidden b) := by
  unfold conflictFrom
  cases hg : c.get a with
  | none => simp
  | some la =>
    simp only [List.any_eq_true, Option.some.injEq, exists_eq_left', Prod.exists,
      List.mk_mem_enum_iff_getElem?, conflictAt_iff]

/-- The function `isValidGroup` returns `false` exactly when two different positions hold
students `a`, `b` with `b` in `constraints[a]`. -/
theorem isValidGroup_eq_false_iff (g : List String) (c : Constraints) :
    isValidGroup g c = false ↔
      ∃ (i j : Nat) (a b : String),
        i ≠ j ∧ g[i]? = some a ∧ g[j]? = some b ∧ b ∈ c.forbidden a := by
  unfold isValidGroup
  simp only [Bool.not_eq_false', List.any_eq_true, Prod.exists, List.mk_mem_enum_iff_getElem?,
    conflictFrom_iff]
  constructor
  · rintro ⟨i, a, hi, la, hla, j, b, hj, hij, h | h⟩
    · exact ⟨i, j, a, b, hij, hi, hj, (mem_forbidden_iff c a b).2 ⟨la, hla, h⟩⟩
    · exact ⟨j, i, b, a, fun e => hij e.symm, hj, hi, h⟩
  · rintro ⟨i, j, a, b, hij, hi, hj, h⟩
    obtain ⟨la, hla, hb⟩ := (mem_forbidden_iff c a b).1 h
    exact ⟨i, a, hi, la, hla, j, b, hj, hij, Or.inl hb⟩

/-- The function `isValidGroup` returns `true` exactly when no two different positions hold
students `a`, `b` with `b` in `constraints[a]`. -/
theorem isValidGroup_eq_true_iff (g : List String) (c : Constraints) :
    isValidGroup g c = true ↔
      ∀ (i j : Nat) (a b : String),
        i ≠ j → g[i]? = some a → g[j]? = some b → b ∉ c.forbidden a := by
  rw [← Bool.not_eq_false, isValidGroup_eq_false_iff]
  push_neg
  rfl

/-- Reading the used set after `usedStudents[x] = true`. -/
theorem mark_apply (used : UsedSet) (x s : String) :
    used.mark x s = (decide (s = x) || used s) := by
  unfold UsedSet.mark
  by_cases h : s = x <;> simp [h]

/-- Reading the used set after the members of a group were marked. -/
theorem markAll_apply (used : UsedSet) (g : List String) (s : String) :
    used.markAll g s = (decide (s ∈ g) || used s) := by
  induction g generalizing used with
  | nil => simp [UsedSet.markAll]
  | cons a l ih =>
    have h : UsedSet.markAll used (a :: l) = UsedSet.markAll (used.mark a) l := rfl
    rw [h, ih, mark_apply]
    by_cases hs : s = a <;> by_cases hl : s ∈ l <;> simp [hs, hl]

/-- Invariant rule for the loop of `attemptToFormGroupsOfSize`: what holds before the loop and
is kept by appending a valid candidate, cut from a permutation of the unused students, holds
for the result. -/
theorem attemptLoop_invariant (t : Nat) (hpos : 0 < t) (pool : List String) (c : Constraints)
    (P : List (List String) → UsedSet → Prop)
    (hstep : ∀ (groups : List (List String)) (used : UsedSet) (sh : List String),
      P groups used → sh.Perm (pool.filter (fun s => !used s)) → t ≤ sh.length →
      isValidGroup (sh.take t) c = true → P (groups ++ [sh.take t]) (used.markAll (sh.take t)))
    (groups : List (List String)) (used : UsedSet) (rand : Rand) (h0 : P groups used) :
    P (attemptLoop t hpos pool c groups used rand).groups
      (attemptLoop t hpos pool c groups used rand).usedStudents := by
  induction groups, used, rand using attemptLoop.induct t hpos pool c with
  | case1 groups used rand av hlt =>
    rw [attemptLoop, if_pos hlt]
    exact h0
  | case2 groups used rand av hge sh pg hvalid ih =>
    rw [attemptLoop, if_neg hge]
    simp only []
    rw [if_pos hvalid]
    apply ih
    have hperm := rand.next.perm av
    exact hstep groups used sh h0 hperm (by rw [hperm.length_eq]; omega) hvalid
  | case3 groups used rand av hge sh pg hinvalid =>
    rw [attemptLoop, if_neg hge]
    simp only []
    rw [if_neg hinvalid]
    exact h0

/-- When every candidate is valid, the loop of `attemptToFormGroupsOfSize` only stops with
fewer than `targetSize` unused students. -/
theorem attemptLoop_exit (t : Nat) (hpos : 0 < t) (pool : List String) (c : Constraints)
    (hall : ∀ g, isValidGroup g c = true)
    (groups : List (List String)) (used : UsedSet) (rand : Rand) :
    (pool.filter
      (fun s => !(attemptLoop t hpos pool c groups used rand).usedStudents s)).length < t := by
  induction groups, used, rand using attemptLoop.induct t hpos pool c with
  | case1 groups used rand av hlt =>
    rw [attemptLoop, if_pos hlt]
    exact hlt
  | case2 groups used rand av hge sh pg hvalid ih =>
    rw [attemptLoop, if_neg hge]
    simp only []
    rw [if_pos hvalid]
    exact ih
  | case3 groups used rand av hge sh pg hinvalid =>
    exact absurd (hall _) hinvalid

/-- The invariant holds before any group is formed. -/
theorem good_init (pool : List String) (c : Constraints) : Good pool c [] UsedSet.empty where
  valid := by simp
  used_iff := by simp [UsedSet.empty]
  sub := by simp
  nodup := by simp

/-- The invariant does not depend on the order of the pool. -/
theorem good_of_perm {pool pool2 : List String} {c : Constraints} {groups : List (List String)}
    {used : UsedSet} (h : Good pool c groups used) (hp : pool.Perm pool2) :
    Good pool2 c groups used where
  valid := h.valid
  used_iff := h.used_iff
  sub := fun s hs => hp.subset (h.sub s hs)
  nodup := fun hn => h.nodup (hp.nodup_iff.2 hn)

/-- Appending a valid group of unused students of the pool, and marking them, keeps the
invariant. -/
theorem good_add {pool : List String} {c : Constraints} {groups : List (List String)}
    {used : UsedSet} (h : Good pool c groups used) (g : List String)
    (hvalid : isValidGroup g c = true)
    (hmem : ∀ s ∈ g, s ∈ pool ∧ used s = false) (hnd : pool.Nodup → g.Nodup) :
    Good pool c (groups ++ [g]) (used.markAll g) where
  valid := by
    intro g2 hg2
    rcases List.mem_append.1 hg2 with h2 | h2
    · exact h.valid g2 h2
    · rw [List.mem_singleton] at h2
      rw [h2]; exact hvalid
  used_iff := by
    intro s
    rw [markAll_apply]
    simp [h.used_iff s, or_comm]
  sub := by
    intro s hs
    simp only [List.flatten_append, List.flatten_cons, List.flatten_nil, List.append_nil,
      List.mem_append] at hs
    rcases hs with hs | hs
    · exact h.sub s hs
    · exact (hmem s hs).1
  nodup := by
    intro hn
    simp only [List.flatten_append, List.flatten_cons, List.flatten_nil, List.append_nil]
    refine List.Nodup.append (h.nodup hn) (hnd hn) ?_
    intro s hs1 hs2
    have h1 := (h.used_iff s).2 hs1
    rw [(hmem s hs2).2] at h1
    exact Bool.noConfusion h1

/-- A candidate cut from a permutation of the unused students consists of unused students of
the pool, without repetition when the pool has none. -/
theorem take_of_perm_filter {pool sh : List String} {used : UsedSet} (t : Nat)
    (hp : sh.Perm (pool.filter (fun s => !used s))) :
    (∀ s ∈ sh.take t, s ∈ pool ∧ used s = false) ∧
    (pool.Nodup → (sh.take t).Nodup) := by
  constructor
  · intro s hs
    have h1 := hp.subset (List.mem_of_mem_take hs)
    simpa using h1
  · intro hn
    exact ((hp.nodup_iff.2 (hn.filter _)).sublist (List.take_sublist t sh))

/-- Main formation keeps the invariant. -/
theorem attemptLoop_good (t : Nat) (hpos : 0 < t) (pool : List String) (c : Constraints)
    (groups : List (List String)) (used : UsedSet) (rand : Rand) (h : Good pool c groups used) :
    Good pool c (attemptLoop t hpos pool c groups used rand).groups
      (attemptLoop t hpos pool c groups used rand).usedStudents := by
  refine attemptLoop_invariant t hpos pool c (Good pool c) ?_ groups used rand h
  intro groups used sh hg hp _ hvalid
  exact good_add hg _ hvalid (take_of_perm_filter t hp).1 (take_of_perm_filter t hp).2

/-- The members of the groups after one group took `x` are `x` and the members before. -/
theorem flatten_set_perm (groups : List (List String)) (idx : Nat) (group : List String)
    (x : String) (h : groups[idx]? = some group) :
    (groups.set idx (group ++ [x])).flatten.Perm (x :: groups.flatten) := by
  induction groups generalizing idx with
  | nil => simp at h
  | cons g rest ih =>
    cases idx with
    | zero =>
      simp only [List.getElem?_cons_zero, Option.some.injEq] at h
      subst h
      simp only [List.set_cons_zero, List.flatten_cons, List.append_assoc]
      exact (List.perm_middle).trans (List.Perm.refl _) |>.trans (by simp)
    | succ n =>
      simp only [List.getElem?_cons_succ] at h
      simp only [List.set_cons_succ, List.flatten_cons]
      exact ((ih n h).append_left g).trans List.perm_middle

/-- Enlarging one group by a student of the pool, valid afterwards, and marking the student
keeps the invariant; the student has to be unused when the pool is duplicate-free. -/
theorem good_fold {pool : List String} {c : Constraints} {groups : List (List String)}
    {used : UsedSet} (h : Good pool c groups used) (idx : Nat) (group : List String)
    (x : String) (hidx : groups[idx]? = some group)
    (hvalid : isValidGroup (group ++ [x]) c = true) (hx : x ∈ pool)
    (hux : pool.Nodup → used x = false) :
    Good pool c (groups.set idx (group ++ [x])) (used.mark x) where
  valid := by
    intro g2 hg2
    rcases List.mem_or_eq_of_mem_set hg2 with h2 | h2
    · exact h.valid g2 h2
    · rw [h2]; exact hvalid
  used_iff := by
    intro s
    rw [mark_apply, (flatten_set_perm groups idx group x hidx).mem_iff]
    simp [h.used_iff s]
  sub := by
    intro s hs
    rw [(flatten_set_perm groups idx group x hidx).mem_iff] at hs
    rcases List.mem_cons.1 hs with hs | hs
    · rw [hs]; exact hx
    · exact h.sub s hs
  nodup := by
    intro hn
    rw [(flatten_set_perm groups idx group x hidx).nodup_iff]
    refine List.nodup_cons.2 ⟨?_, h.nodup hn⟩
    intro hmem
    have h1 := (h.used_iff x).2 hmem
    rw [hux hn] at h1
    exact Bool.noConfusion h1

/-- When the loop of `tryIntegrateIntoExistingGroup` succeeds, it enlarged a group of the size
to match, at one of the visited indices, and the enlarged group is valid. -/
theorem integrateLoop_eq_some {x : String} {t : Nat} {groups : List (List String)}
    {c : Constraints} {idxs : List Nat} {gs : List (List String)}
    (h : integrateLoop x t groups c idxs = some gs) :
    ∃ idx group, idx ∈ idxs ∧ groups[idx]? = some group ∧ group.length = t ∧
      isValidGroup (group ++ [x]) c = true ∧ gs = groups.set idx (group ++ [x]) := by
  induction idxs with
  | nil => simp [integrateLoop] at h
  | cons idx rest ih =>
    rw [integrateLoop] at h
    split at h
    · obtain ⟨i, g, hi, hr⟩ := ih h
      exact ⟨i, g, List.mem_cons_of_mem _ hi, hr⟩
    · rename_i group hgrp
      by_cases hlen : group.length = t
      · rw [if_pos hlen] at h
        simp only [] at h
        by_cases hv : isValidGroup (group ++ [x]) c = true
        · rw [if_pos hv] at h
          exact ⟨idx, group, List.mem_cons_self _ _, hgrp, hlen, hv, (Option.some.inj h).symm⟩
        · rw [if_neg hv] at h
          obtain ⟨i, g, hi, hr⟩ := ih h
          exact ⟨i, g, List.mem_cons_of_mem _ hi, hr⟩
      · rw [if_neg hlen] at h
        obtain ⟨i, g, hi, hr⟩ := ih h
        exact ⟨i, g, List.mem_cons_of_mem _ hi, hr⟩

/-- The loop of `tryIntegrateIntoExistingGroup` fails exactly when no visited group of the size
to match stays valid with the student appended. -/
theorem integrateLoop_eq_none_iff (x : String) (t : Nat) (groups : List (List String))
    (c : Constraints) (idxs : List Nat) :
    integrateLoop x t groups c idxs = none ↔
      ∀ idx ∈ idxs, ∀ group, groups[idx]? = some group → group.length = t →
        isValidGroup (group ++ [x]) c = false := by
  induction idxs with
  | nil => simp [integrateLoop]
  | cons idx rest ih =>
    rw [integrateLoop]
    simp only [List.mem_cons, forall_eq_or_imp]
    cases hgrp : groups[idx]? with
    | none => simp [ih]
    | some group =>
      simp only [Option.some.injEq, forall_eq']
      by_cases hlen : group.length = t
      · by_cases hv : isValidGroup (group ++ [x]) c = true
        · simp [hlen, hv]
        · have hv2 : isValidGroup (group ++ [x]) c = false := by simpa using hv
          simp [hlen, hv2, ih]
      · simp [hlen, ih]

/-- A fold keeps the invariant, whether it succeeds or not. -/
theorem tryIntegrate_good {pool : List String} {c : Constraints} {groups : List (List String)}
    {used : UsedSet} (h : Good pool c groups used) (x : String) (t n : Nat) (rand : Rand)
    (hx : x ∈ pool) (hux : pool.Nodup → used x = false) :
    Good pool c (tryIntegrateIntoExistingGroup x t n groups used c rand).2.groups
      (tryIntegrateIntoExistingGroup x t n groups used c rand).2.usedStudents := by
  unfold tryIntegrateIntoExistingGroup
  simp only []
  split
  · rename_i gs hgs
    obtain ⟨idx, group, _, hidx, _, hv, rfl⟩ := integrateLoop_eq_some hgs
    exact good_fold h idx group x hidx hv hx hux
  · exact h

/-- A fold that reports no integration returns the groups and the used set unchanged. -/
theorem tryIntegrate_false {c : Constraints} {groups : List (List String)}
    {used : UsedSet} (x : String) (t n : Nat) (rand : Rand)
    (h : (tryIntegrateIntoExistingGroup x t n groups used c rand).1 = false) :
    (tryIntegrateIntoExistingGroup x t n groups used c rand).2.groups = groups ∧
    (tryIntegrateIntoExistingGroup x t n groups used c rand).2.usedStudents = used := by
  unfold tryIntegrateIntoExistingGroup at h ⊢
  simp only [] at h ⊢
  split
  · rename_i gs hgs
    rw [hgs] at h
    simp at h
  · exact ⟨rfl, rfl⟩

/-- The closing loop turns a state satisfying the invariant for the shuffled roster into a
well-formed result for the roster. -/
theorem formsWell_final {allStudents pool : List String} {c : Constraints} {st : FormState}
    (hp : pool.Perm allStudents) (h : Good pool c st.groups st.usedStudents) :
    FormsWell allStudents c (finalUngrouped allStudents st) :=
  ⟨st.usedStudents, good_of_perm h hp, rfl⟩

/-- The special case of one remaining student: folding the student gives a well-formed result.
-/
theorem formsWell_fold {allStudents pool : List String} {c : Constraints}
    {groups : List (List String)} {used : UsedSet}
    (hp : pool.Perm allStudents) (h : Good pool c groups used) (x : String) (t n : Nat)
    (rand : Rand) (hx : x ∈ pool) (hux : pool.Nodup → used x = false) :
    FormsWell allStudents c
      (if (tryIntegrateIntoExistingGroup x t n groups used c rand).1 then
        finalUngrouped allStudents (tryIntegrateIntoExistingGroup x t n groups used c rand).2
      else finalUngrouped allStudents
        ⟨groups, used, (tryIntegrateIntoExistingGroup x t n groups used c rand).2.rand⟩) := by
  split
  · exact formsWell_final hp (tryIntegrate_good h x t n rand hx hux)
  · exact formsWell_final hp h

/-- The first of the remaining students is an unused student of the pool. -/
theorem mem_of_filter_eq_cons {pool : List String} {used : UsedSet} {x : String}
    {rest : List String} (h : pool.filter (fun s => !used s) = x :: rest) :
    x ∈ pool ∧ used x = false := by
  have hx : x ∈ pool.filter (fun s => !used s) := by rw [h]; exact List.mem_cons_self x rest
  simpa using hx

/-- After a fold the used set is the old one, with or without the folded student. -/
theorem tryIntegrate_used (x : String) (t n : Nat) (groups : List (List String))
    (used : UsedSet) (c : Constraints) (rand : Rand) :
    (tryIntegrateIntoExistingGroup x t n groups used c rand).2.usedStudents = used.mark x ∨
    (tryIntegrateIntoExistingGroup x t n groups used c rand).2.usedStudents = used := by
  unfold tryIntegrateIntoExistingGroup
  simp only []
  split
  · exact Or.inl rfl
  · exact Or.inr rfl

/-- The special case of a standalone remainder group: making the remaining students a group
when they are jointly valid gives a well-formed result. -/
theorem formsWell_standalone {allStudents pool : List String} {c : Constraints}
    {groups : List (List String)} {used : UsedSet}
    (hp : pool.Perm allStudents) (h : Good pool c groups used) (rand : Rand) :
    FormsWell allStudents c
      (if isValidGroup (pool.filter (fun s => !used s)) c = true then
        finalUngrouped allStudents ⟨groups ++ [pool.filter (fun s => !used s)],
          used.markAll (pool.filter (fun s => !used s)), rand⟩
      else finalUngrouped allStudents ⟨groups, used, rand⟩) := by
  split
  · rename_i hv
    refine formsWell_final hp (good_add h _ hv ?_ ?_)
    · intro s hs
      simpa using hs
    · intro hn
      exact hn.filter _
  · exact formsWell_final hp h

/-- The result of `formTwoPersonGroups` is well formed. -/
theorem formTwoPersonGroups_formsWell (allStudents : List String) (c : Constraints)
    (rand : Rand) : FormsWell allStudents c (formTwoPersonGroups allStudents c rand) := by
  have hp := rand.next.perm allStudents
  have hmain := attemptLoop_good 2 (by decide) (rand.next.apply allStudents) c []
    UsedSet.empty rand.advance (good_init _ c)
  unfold formTwoPersonGroups attemptToFormGroupsOfSize
  simp only []
  split
  · rename_i x heq
    exact formsWell_fold hp hmain x 2 3 _ (mem_of_filter_eq_cons heq).1
      (fun _ => (mem_of_filter_eq_cons heq).2)
  · exact formsWell_final hp hmain

/-- The result of `formThreePersonGroups` is well formed. -/
theorem formThreePersonGroups_formsWell (allStudents : List String) (c : Constraints)
    (rand : Rand) : FormsWell allStudents c (formThreePersonGroups allStudents c rand) := by
  have hp := rand.next.perm allStudents
  have hmain := attemptLoop_good 3 (by decide) (rand.next.apply allStudents) c []
    UsedSet.empty rand.advance (good_init _ c)
  unfold formThreePersonGroups attemptToFormGroupsOfSize
  simp only []
  split
  · rename_i x heq
    exact formsWell_fold hp hmain x 3 4 _ (mem_of_filter_eq_cons heq).1
      (fun _ => (mem_of_filter_eq_cons heq).2)
  · exact formsWell_standalone hp hmain _
  · exact formsWell_final hp hmain

/-- The result of `formFourPersonGroups` is well formed. -/
theorem formFourPersonGroups_formsWell (allStudents : List String) (c : Constraints)
    (rand : Rand) : FormsWell allStudents c (formFourPersonGroups allStudents c rand) := by
  have hp := rand.next.perm allStudents
  have hmain := attemptLoop_good 4 (by decide) (rand.next.apply allStudents) c []
    UsedSet.empty rand.advance (good_init _ c)
  unfold formFourPersonGroups attemptToFormGroupsOfSize
  simp only []
  split
  · rename_i x heq
    exact formsWell_fold hp hmain x 4 5 _ (mem_of_filter_eq_cons heq).1
      (fun _ => (mem_of_filter_eq_cons heq).2)
  · rename_i x y heq
    have hx := mem_of_filter_eq_cons heq
    have hy : y ∈ rand.next.apply allStudents ∧
        (attemptLoop 4 (by decide) (rand.next.apply allStudents) c [] UsedSet.empty
          rand.advance).usedStudents y = false := by
      have hy0 : y ∈ (rand.next.apply allStudents).filter (fun s =>
          !(attemptLoop 4 (by decide) (rand.next.apply allStudents) c [] UsedSet.empty
            rand.advance).usedStudents s) := by
        rw [heq]; simp
      simpa using hy0
    split
    · refine formsWell_fold hp (tryIntegrate_good hmain x 4 5 _ hx.1 (fun _ => hx.2)) y 4 5 _
        hy.1 ?_
      intro hn
      have hxy : y ≠ x := by
        have hnd : (x :: [y]).Nodup := heq ▸ hn.filter _
        intro e
        rw [e] at hnd
        simp at hnd
      rcases tryIntegrate_used x 4 5 _ _ c _ with hu | hu
      · rw [hu, mark_apply, hy.2]
        simp [hxy]
      · rw [hu]; exact hy.2
    · exact formsWell_final hp hmain
  · exact formsWell_standalone hp hmain _
  · exact formsWell_final hp hmain

/-- In a well-formed result for a duplicate-free roster, the members of the groups followed by
the leftover list are a permutation of the roster. -/
theorem formsWell_perm {allStudents : List String} {c : Constraints} {r : Formation}
    (h : FormsWell allStudents c r) (hn : allStudents.Nodup) :
    (r.groups.flatten ++ r.ungrouped).Perm allStudents := by
  obtain ⟨used, hg, hu⟩ := h
  rw [hu]
  have hnd : (r.groups.flatten ++ allStudents.filter (fun s => !used s)).Nodup := by
    refine List.Nodup.append (hg.nodup hn) (hn.filter _) ?_
    intro s hs1 hs2
    have h1 := (hg.used_iff s).2 hs1
    have h2 : s ∈ allStudents ∧ used s = false := by simpa using hs2
    rw [h2.2] at h1
    exact Bool.noConfusion h1
  refine (List.perm_ext_iff_of_nodup hnd hn).2 ?_
  intro s
  constructor
  · intro hs
    rcases List.mem_append.1 hs with hs | hs
    · exact hg.sub s hs
    · exact List.mem_of_mem_filter hs
  · intro hs
    cases hus : used s with
    | true => exact List.mem_append_left _ ((hg.used_iff s).1 hus)
    | false => exact List.mem_append_right _ (by simp [hs, hus])

/-- In a well-formed result for a duplicate-free roster, every student of the roster occurs
once among the members of the groups and the leftover list. -/
theorem formsWell_count {allStudents : List String} {c : Constraints} {r : Formation}
    (h : FormsWell allStudents c r) (hn : allStudents.Nodup) (s : String)
    (hs : s ∈ allStudents) : (r.groups.flatten ++ r.ungrouped).count s = 1 := by
  rw [(formsWell_perm h hn).count_eq]
  exact List.count_eq_one_of_mem hn hs

/-- In a well-formed result the leftover list is the roster without the members of the groups.
-/
theorem formsWell_ungrouped {allStudents : List String} {c : Constraints} {r : Formation}
    (h : FormsWell allStudents c r) :
    r.ungrouped = allStudents.filter (fun s => !decide (s ∈ r.groups.flatten)) := by
  obtain ⟨used, hg, hu⟩ := h
  rw [hu]
  apply List.filter_congr
  intro s _
  cases hus : used s with
  | true => simp [(hg.used_iff s).1 hus]
  | false =>
    have : s ∉ r.groups.flatten := fun hm => by
      rw [(hg.used_iff s).2 hm] at hus
      exact Bool.noConfusion hus
    simp [this]

/-- In a map with pairwise different keys an entry is found by the lookup of its key. -/
theorem get_of_mem {c : Constraints} (hwf : WellFormed c) {a : String} {la : List String}
    (h : (a, la) ∈ c) : c.get a = some la := by
  unfold Constraints.get
  induction c with
  | nil => simp at h
  | cons e rest ih =>
    obtain ⟨k, lk⟩ := e
    have hwf2 : k ∉ rest.map Prod.fst ∧ WellFormed rest := by
      simpa [WellFormed] using hwf
    rcases List.mem_cons.1 h with h | h
    · cases h
      simp [List.lookup]
    · have hne : a ≠ k := by
        intro e
        apply hwf2.1
        rw [← e]
        exact List.mem_map_of_mem Prod.fst h
      have hbeq : (a == k) = false := by simpa using hne
      simp only [List.lookup, hbeq]
      exact ih hwf2.2 h

/-- What a lookup finds is an entry of the map. -/
theorem mem_of_get {c : Constraints} {a : String} {la : List String}
    (h : c.get a = some la) : (a, la) ∈ c := by
  unfold Constraints.get at h
  induction c with
  | nil => simp at h
  | cons e rest ih =>
    obtain ⟨k, lk⟩ := e
    by_cases hk : a = k
    · subst hk
      simp [List.lookup] at h
      simp [h]
    · have hbeq : (a == k) = false := by simpa using hk
      simp only [List.lookup, hbeq] at h
      exact List.mem_cons_of_mem _ (ih h)

/-- The validator records nothing for `a` and `b` exactly when `a` is in `constraints[b]`. -/
theorem issuesAt_eq_nil_iff (c : Constraints) (a b : String) :
    issuesAt c a b = [] ↔ a ∈ c.forbidden b := by
  unfold issuesAt Constraints.forbidden
  cases hg : c.get b with
  | none => simp
  | some lb =>
    by_cases ha : a ∈ lb
    · simp [ha]
    · simp [ha]

/-- The validator records no finding exactly when every declared pair has its reverse declared.
-/
theorem asymmetricIssues_eq_nil_iff (c : Constraints) (hwf : WellFormed c) :
    asymmetricIssues c = [] ↔ ∀ a b, b ∈ c.forbidden a → a ∈ c.forbidden b := by
  unfold asymmetricIssues issuesFrom sortStrings
  simp only [List.flatMap_eq_nil_iff, List.mem_insertionSort, issuesAt_eq_nil_iff]
  constructor
  · intro h a b hb
    obtain ⟨la, hla, hbla⟩ := (mem_forbidden_iff c a b).1 hb
    exact h (a, la) (mem_of_get hla) b hbla
  · intro h e he b hb
    apply h e.1 b
    exact (mem_forbidden_iff c e.1 b).2 ⟨e.2, get_of_mem hwf he, hb⟩

/-- Counting one finding over the loop on the forbidden list of `a2`, before sorting. -/
theorem count_flatMap_issuesAt (c : Constraints) (x : Asymmetry) (a b : String) (cond : Prop)
    [Decidable cond]
    (hAt : ∀ a2 b2, (issuesAt c a2 b2).count x = if a2 = a ∧ b2 = b ∧ cond then 1 else 0)
    (a2 : String) (la : List String) :
    (la.flatMap (fun b2 => issuesAt c a2 b2)).count x
      = if a2 = a ∧ cond then la.count b else 0 := by
  induction la with
  | nil => simp
  | cons y rest ih =>
    rw [List.flatMap_cons, List.count_append, ih, hAt, List.count_cons]
    by_cases h1 : a2 = a <;> by_cases h2 : cond <;> by_cases h3 : y = b <;>
      simp [h1, h2, h3, Nat.add_comm]

/-- Counting one finding over the loop on the sorted forbidden list of `a2`: sorting does not
change the count. -/
theorem count_issuesFrom (c : Constraints) (x : Asymmetry) (a b : String) (cond : Prop)
    [Decidable cond]
    (hAt : ∀ a2 b2, (issuesAt c a2 b2).count x = if a2 = a ∧ b2 = b ∧ cond then 1 else 0)
    (a2 : String) (la : List String) :
    (issuesFrom c a2 la).count x = if a2 = a ∧ cond then la.count b else 0 := by
  unfold issuesFrom sortStrings
  simp only []
  rw [((List.perm_insertionSort _ la).flatMap_right _).count_eq,
    count_flatMap_issuesAt c x a b cond hAt]

/-- The lookup in a map with one more entry in front. -/
theorem get_cons (k : String) (lk : List String) (rest : Constraints) (a : String) :
    Constraints.get ((k, lk) :: rest) a = if a = k then some lk else Constraints.get rest a := by
  unfold Constraints.get
  by_cases h : a = k
  · subst h
    simp [List.lookup]
  · have hbeq : (a == k) = false := by simpa using h
    simp only [List.lookup, hbeq, if_neg h]

/-- The lookup of a string that is no key finds nothing. -/
theorem get_eq_none_of_not_mem {c : Constraints} {a : String}
    (h : a ∉ c.map Prod.fst) : c.get a = none := by
  induction c with
  | nil => rfl
  | cons e rest ih =>
    obtain ⟨k, lk⟩ := e
    have h2 : a ≠ k ∧ a ∉ rest.map Prod.fst := by
      constructor
      · intro e
        apply h
        simp [e]
      · intro hm
        apply h
        simp only [List.map_cons, List.mem_cons]
        exact Or.inr hm
    rw [get_cons, if_neg h2.1]
    exact ih h2.2

/-- Counting one finding over the loop on the entries of a map with pairwise different keys. -/
theorem count_entries (c : Constraints) (x : Asymmetry) (a b : String) (cond : Prop)
    [Decidable cond]
    (hAt : ∀ a2 b2, (issuesAt c a2 b2).count x = if a2 = a ∧ b2 = b ∧ cond then 1 else 0)
    (entries : Constraints) (hwf : WellFormed entries) :
    (entries.flatMap (fun entry => issuesFrom c entry.1 entry.2)).count x
      = if cond then (entries.forbidden a).count b else 0 := by
  induction entries with
  | nil => simp [Constraints.forbidden, Constraints.get]
  | cons e rest ih =>
    obtain ⟨k, lk⟩ := e
    have hwf2 : k ∉ rest.map Prod.fst ∧ WellFormed rest := by
      simpa [WellFormed] using hwf
    rw [List.flatMap_cons, List.count_append, ih hwf2.2, count_issuesFrom c x a b cond hAt]
    unfold Constraints.forbidden
    rw [get_cons]
    by_cases hk : k = a
    · subst hk
      rw [get_eq_none_of_not_mem hwf2.1]
      by_cases h2 : cond <;> simp [h2]
    · have hk2 : ¬ a = k := fun e => hk e.symm
      by_cases h2 : cond <;> simp [hk, hk2, h2]

/-- The finding recorded for a `b` that is no key. -/
theorem issuesAt_none {c : Constraints} {b : String} (h : c.get b = none) (a : String) :
    issuesAt c a b = [Asymmetry.noConstraints a b] := by
  unfold issuesAt
  rw [h]

/-- The finding recorded for a `b` that is a key. -/
theorem issuesAt_some {c : Constraints} {b : String} {lb : List String}
    (h : c.get b = some lb) (a : String) :
    issuesAt c a b = if a ∈ lb then [] else [Asymmetry.notForbidden a b] := by
  unfold issuesAt
  rw [h]
  by_cases ha : a ∈ lb
  · have : lb.any (fun s => s == a) = true := List.any_eq_true.2 ⟨a, ha, by simp⟩
    simp [this, ha]
  · have : lb.any (fun s => s == a) = false := by
      cases hany : lb.any (fun s => s == a) with
      | false => rfl
      | true =>
        obtain ⟨y, hy, hya⟩ := List.any_eq_true.1 hany
        rw [beq_iff_eq] at hya
        exact absurd (hya ▸ hy) ha
    simp [this, ha]

/-- How often one iteration records a given finding of the first kind. -/
theorem count_noConstraints_issuesAt (c : Constraints) (a b a2 b2 : String) :
    (issuesAt c a2 b2).count (Asymmetry.noConstraints a b)
      = if a2 = a ∧ b2 = b ∧ c.get b = none then 1 else 0 := by
  cases hg : c.get b2 with
  | none =>
    rw [issuesAt_none hg]
    by_cases hb : b2 = b
    · subst hb
      by_cases ha : a2 = a <;> simp [ha, hg, List.count_cons]
    · simp [hb, List.count_cons]
  | some lb =>
    rw [issuesAt_some hg]
    by_cases hb : b2 = b
    · subst hb
      by_cases hm : a2 ∈ lb <;> simp [hm, hg, List.count_cons]
    · by_cases hm : a2 ∈ lb <;> simp [hm, hb, List.count_cons]

/-- How often one iteration records a given finding of the second kind. -/
theorem count_notForbidden_issuesAt (c : Constraints) (a b a2 b2 : String) :
    (issuesAt c a2 b2).count (Asymmetry.notForbidden a b)
      = if a2 = a ∧ b2 = b ∧ (c.get b ≠ none ∧ a ∉ c.forbidden b) then 1 else 0 := by
  cases hg : c.get b2 with
  | none =>
    rw [issuesAt_none hg]
    by_cases hb : b2 = b
    · subst hb
      simp [hg, List.count_cons]
    · simp [hb, List.count_cons]
  | some lb =>
    rw [issuesAt_some hg]
    by_cases hb : b2 = b
    · subst hb
      by_cases ha : a2 = a
      · subst ha
        by_cases hm : a2 ∈ lb <;> simp [hm, hg, List.count_cons, Constraints.forbidden]
      · by_cases hm : a2 ∈ lb <;> simp [hm, ha, hg, List.count_cons, Constraints.forbidden]
    · by_cases hm : a2 ∈ lb <;> simp [hm, hb, List.count_cons]

/-- The function `checkSymmetricConstraints` returns `nil` exactly when no finding was
recorded. -/
theorem checkSymmetricConstraints_eq_none_iff (c : Constraints) :
    checkSymmetricConstraints c = none ↔ asymmetricIssues c = [] := by
  unfold checkSymmetricConstraints
  simp only []
  cases h : asymmetricIssues c with
  | nil => simp
  | cons x rest => simp

/-- With an empty constraint relation every group is valid. -/
theorem isValidGroup_of_noConstraints {c : Constraints} (h : NoConstraints c)
    (g : List String) : isValidGroup g c = true := by
  rw [isValidGroup_eq_true_iff]
  intro i j a b _ _ _
  rw [h a]
  exact List.not_mem_nil b

/-- The map without keys is an empty constraint relation. -/
theorem noConstraints_nil : NoConstraints [] := fun _ => rfl

/-- Under the invariant for a duplicate-free pool, the members of the groups followed by the
unused students of the pool are a permutation of the pool. -/
theorem good_perm {pool : List String} {c : Constraints} {groups : List (List String)}
    {used : UsedSet} (hg : Good pool c groups used) (hn : pool.Nodup) :
    (groups.flatten ++ pool.filter (fun s => !used s)).Perm pool := by
  have h : FormsWell pool c
      ⟨groups, pool.filter (fun s => !used s), fun _ => Shuffle.identity⟩ := ⟨used, hg, rfl⟩
  exact formsWell_perm h hn

/-- Groups of `t` members each have `t` times their number of members in all. -/
theorem length_flatten_of_forall_length {groups : List (List String)} {t : Nat}
    (h : ∀ g ∈ groups, g.length = t) : groups.flatten.length = t * groups.length := by
  induction groups with
  | nil => simp
  | cons g rest ih =>
    rw [List.flatten_cons, List.length_append, h g (List.mem_cons_self g rest),
      ih (fun g2 hg2 => h g2 (List.mem_cons_of_mem g hg2)), List.length_cons, Nat.mul_succ,
      Nat.add_comm]

/-- Main formation only appends groups of the target size. -/
theorem attemptLoop_sizes (t : Nat) (hpos : 0 < t) (pool : List String) (c : Constraints)
    (groups : List (List String)) (used : UsedSet) (rand : Rand)
    (h : ∀ g ∈ groups, g.length = t) :
    ∀ g ∈ (attemptLoop t hpos pool c groups used rand).groups, g.length = t := by
  refine attemptLoop_invariant t hpos pool c (fun groups _ => ∀ g ∈ groups, g.length = t) ?_
    groups used rand h
  intro groups used sh hg _ hlen _ g hmem
  rcases List.mem_append.1 hmem with hm | hm
  · exact hg g hm
  · rw [List.mem_singleton] at hm
    rw [hm, List.length_take]
    omega

/-- Main formation without constraints on a duplicate-free pool: every group has the target
size, there are `pool.length / t` of them and `pool.length % t` students stay unused. -/
theorem main_formation_no_constraints (t : Nat) (hpos : 0 < t) (pool : List String)
    (c : Constraints) (rand : Rand) (hn : pool.Nodup) (hc : NoConstraints c) :
    Good pool c (attemptLoop t hpos pool c [] UsedSet.empty rand).groups
      (attemptLoop t hpos pool c [] UsedSet.empty rand).usedStudents ∧
    (∀ g ∈ (attemptLoop t hpos pool c [] UsedSet.empty rand).groups, g.length = t) ∧
    (attemptLoop t hpos pool c [] UsedSet.empty rand).groups.length = pool.length / t ∧
    (pool.filter (fun s =>
      !(attemptLoop t hpos pool c [] UsedSet.empty rand).usedStudents s)).length
        = pool.length % t := by
  have hgood := attemptLoop_good t hpos pool c [] UsedSet.empty rand (good_init pool c)
  have hsizes := attemptLoop_sizes t hpos pool c [] UsedSet.empty rand (by simp)
  have hexit := attemptLoop_exit t hpos pool c (isValidGroup_of_noConstraints hc) []
    UsedSet.empty rand
  have hlen := (good_perm hgood hn).length_eq
  rw [List.length_append, length_flatten_of_forall_length hsizes] at hlen
  have hdm := (Nat.div_mod_unique hpos).2 ⟨(Nat.add_comm _ _).trans hlen, hexit⟩
  exact ⟨hgood, hsizes, hdm.1.symm, hdm.2.symm⟩

/-- A permutation of a list has as many elements passing a test as the list. -/
theorem filter_length_of_perm {l1 l2 : List String} (h : l1.Perm l2) (p : String → Bool) :
    (l1.filter p).length = (l2.filter p).length :=
  (h.filter p).length_eq

/-- The loop of `tryIntegrateIntoExistingGroup` stops at the first visited index when the group
there has the size to match and stays valid. -/
theorem integrateLoop_first {x : String} {t : Nat} {groups : List (List String)}
    {c : Constraints} (idx : Nat) (rest : List Nat) (group : List String)
    (hidx : groups[idx]? = some group) (hlen : group.length = t)
    (hv : isValidGroup (group ++ [x]) c = true) :
    integrateLoop x t groups c (idx :: rest) = some (groups.set idx (group ++ [x])) := by
  rw [integrateLoop, hidx]
  simp only []
  rw [if_pos hlen, if_pos hv]

/-- A fold into groups that all have the size to match and all stay valid succeeds as soon as
there is a group. -/
theorem tryIntegrate_success (x : String) (t n : Nat) (groups : List (List String))
    (used : UsedSet) (c : Constraints) (rand : Rand) (hne : groups ≠ [])
    (hsizes : ∀ g ∈ groups, g.length = t) (hall : ∀ g, isValidGroup g c = true) :
    ∃ idx group, groups[idx]? = some group ∧
      tryIntegrateIntoExistingGroup x t n groups used c rand
        = (true, ⟨groups.set idx (group ++ [x]), used.mark x, rand.advance⟩) := by
  have hperm := rand.next.perm (List.range groups.length)
  cases hidxs : rand.next.apply (List.range groups.length) with
  | nil =>
    rw [hidxs] at hperm
    have := hperm.length_eq
    simp only [List.length_nil, List.length_range] at this
    exact absurd (List.length_eq_zero.1 this.symm) hne
  | cons idx rest =>
    have hmem : idx ∈ List.range groups.length := by
      apply hperm.subset
      rw [hidxs]
      exact List.mem_cons_self idx rest
    have hlt : idx < groups.length := List.mem_range.1 hmem
    refine ⟨idx, groups[idx], List.getElem?_eq_getElem hlt, ?_⟩
    unfold tryIntegrateIntoExistingGroup
    simp only []
    rw [hidxs, integrateLoop_first idx rest groups[idx] (List.getElem?_eq_getElem hlt)
      (hsizes _ (List.getElem_mem hlt)) (hall _)]

/-- Replacing the group at an index of the list, written with the groups before and after it.
-/
theorem set_eq_take_cons_drop (groups : List (List String)) (idx : Nat) (group g2 : List String)
    (h : groups[idx]? = some group) :
    groups.set idx g2 = groups.take idx ++ g2 :: groups.drop (idx + 1) ∧ idx < groups.length := by
  have hlt : idx < groups.length := (List.getElem?_eq_some_iff.1 h).1
  rw [List.set_eq_take_append_cons_drop, if_pos hlt]
  exact ⟨rfl, hlt⟩

/-- The sizes after one group of a list of groups of size `t` took one more student. -/
theorem sizes_after_fold (groups : List (List String)) (t idx : Nat) (group : List String)
    (x : String) (h : groups[idx]? = some group) (hsizes : ∀ g ∈ groups, g.length = t) :
    (groups.set idx (group ++ [x])).length = groups.length ∧
    (groups.set idx (group ++ [x])).countP (fun g => g.length = t) = groups.length - 1 ∧
    (groups.set idx (group ++ [x])).countP (fun g => g.length = t + 1) = 1 := by
  obtain ⟨heq, hlt⟩ := set_eq_take_cons_drop groups idx group (group ++ [x]) h
  have hgl : group.length = t := hsizes group (List.mem_iff_getElem?.2 ⟨idx, h⟩)
  have htake : ∀ g ∈ groups.take idx, g.length = t :=
    fun g hg => hsizes g (List.mem_of_mem_take hg)
  have hdrop : ∀ g ∈ groups.drop (idx + 1), g.length = t :=
    fun g hg => hsizes g (List.mem_of_mem_drop hg)
  refine ⟨List.length_set _ _ _, ?_, ?_⟩
  · rw [heq, List.countP_append, List.countP_cons]
    have h1 : (groups.take idx).countP (fun g => g.length = t) = (groups.take idx).length :=
      List.countP_eq_length.2 (fun g hg => by simpa using htake g hg)
    have h2 : (groups.drop (idx + 1)).countP (fun g => g.length = t)
        = (groups.drop (idx + 1)).length :=
      List.countP_eq_length.2 (fun g hg => by simpa using hdrop g hg)
    rw [h1, h2, List.length_take, List.length_drop]
    simp [hgl]
    omega
  · rw [heq, List.countP_append, List.countP_cons]
    have h1 : (groups.take idx).countP (fun g => g.length = t + 1) = 0 :=
      List.countP_eq_zero.2 (fun g hg => by simp [htake g hg])
    have h2 : (groups.drop (idx + 1)).countP (fun g => g.length = t + 1) = 0 :=
      List.countP_eq_zero.2 (fun g hg => by simp [hdrop g hg])
    rw [h1, h2]
    simp [hgl]

/-- When all students of the roster are forbidden to each other, a duplicate-free group of two
or more of them is invalid. -/
theorem isValidGroup_false_of_allForbidden {roster : List String} {c : Constraints}
    (hforb : AllForbidden roster c) (g : List String) (hnd : g.Nodup) (hlen : 2 ≤ g.length)
    (hsub : ∀ s ∈ g, s ∈ roster) : isValidGroup g c = false := by
  match g, hnd, hlen, hsub with
  | a :: b :: rest, hnd, _, hsub =>
    have hab : a ≠ b := by
      intro e
      rw [e] at hnd
      simp at hnd
    rw [isValidGroup_eq_false_iff]
    rcases hforb a (hsub a (by simp)) b (hsub b (by simp)) hab with h | h
    · exact ⟨0, 1, a, b, by decide, by simp, by simp, h⟩
    · exact ⟨1, 0, b, a, by decide, by simp, by simp, h⟩

/-- With the fresh used set every student of the pool is unused. -/
theorem filter_empty_used (pool : List String) :
    pool.filter (fun s => !UsedSet.empty s) = pool := by
  simp [UsedSet.empty]

/-- Main formation when all students are forbidden to each other: no group is formed and
nobody is marked used. -/
theorem main_formation_allForbidden (t : Nat) (hpos : 0 < t) (ht : 2 ≤ t) (pool : List String)
    (c : Constraints) (rand : Rand) (hn : pool.Nodup) (hforb : AllForbidden pool c) :
    ∃ rand2,
      attemptLoop t hpos pool c [] UsedSet.empty rand = ⟨[], UsedSet.empty, rand2⟩ := by
  rw [attemptLoop]
  by_cases hlt : (pool.filter (fun s => !UsedSet.empty s)).length < t
  · rw [if_pos hlt]
    exact ⟨rand, rfl⟩
  · rw [if_neg hlt]
    simp only []
    have hperm := rand.next.perm (pool.filter (fun s => !UsedSet.empty s))
    have htake := take_of_perm_filter t hperm
    have hinv : isValidGroup
        ((rand.next.apply (pool.filter (fun s => !UsedSet.empty s))).take t) c = false := by
      apply isValidGroup_false_of_allForbidden hforb _ (htake.2 hn)
      · rw [List.length_take, hperm.length_eq]
        omega
      · intro s hs
        exact (htake.1 s hs).1
    rw [hinv]
    exact ⟨rand.advance, rfl⟩

/-- A fold into no groups reports no integration. -/
theorem tryIntegrate_nil (x : String) (t n : Nat) (used : UsedSet) (c : Constraints)
    (rand : Rand) :
    tryIntegrateIntoExistingGroup x t n [] used c rand = (false, ⟨[], used, rand.advance⟩) := by
  unfold tryIntegrateIntoExistingGroup
  have h : rand.next.apply (List.range ([] : List (List String)).length) = [] :=
    List.perm_nil.1 (rand.next.perm _)
  simp only []
  rw [h]
  rfl

/-- The closing loop after nothing was formed: no groups, the whole roster left over. -/
theorem finalUngrouped_empty (allStudents : List String) (rand : Rand) :
    (finalUngrouped allStudents ⟨[], UsedSet.empty, rand⟩).groups = [] ∧
    (finalUngrouped allStudents ⟨[], UsedSet.empty, rand⟩).ungrouped = allStudents :=
  ⟨rfl, filter_empty_used allStudents⟩

/-- Being forbidden to each other does not depend on the order of the roster. -/
theorem allForbidden_of_perm {l1 l2 : List String} {c : Constraints}
    (h : AllForbidden l1 c) (hp : l2.Perm l1) : AllForbidden l2 c :=
  fun a ha b hb hab => h a (hp.subset ha) b (hp.subset hb) hab

/-- A group holding two different students, one of them in the list of the other, is invalid.
-/
theorem isValidGroup_false_of_mem {g : List String} {c : Constraints} {a b : String}
    (ha : a ∈ g) (hb : b ∈ g) (hab : a ≠ b) (hf : b ∈ c.forbidden a) :
    isValidGroup g c = false := by
  rw [isValidGroup_eq_false_iff]
  obtain ⟨i, hi⟩ := List.mem_iff_getElem?.1 ha
  obtain ⟨j, hj⟩ := List.mem_iff_getElem?.1 hb
  refine ⟨i, j, a, b, ?_, hi, hj, hf⟩
  intro hij
  rw [hij, hj] at hi
  exact hab (Option.some.inj hi).symm

/-- The loop of `attemptToFormGroupsOfSize` stops at once when fewer than `targetSize` students
are unused. -/
theorem attemptLoop_short (t : Nat) (hpos : 0 < t) (pool : List String) (c : Constraints)
    (groups : List (List String)) (used : UsedSet) (rand : Rand)
    (h : (pool.filter (fun s => !used s)).length < t) :
    attemptLoop t hpos pool c groups used rand = ⟨groups, used, rand⟩ := by
  rw [attemptLoop, if_pos h]

/-- Main formation on a pool with fewer than `targetSize` students forms nothing. -/
theorem main_formation_small (t : Nat) (hpos : 0 < t) (pool : List String) (c : Constraints)
    (rand : Rand) (h : pool.length < t) :
    attemptLoop t hpos pool c [] UsedSet.empty rand = ⟨[], UsedSet.empty, rand⟩ := by
  apply attemptLoop_short
  rw [filter_empty_used]
  exact h

/-- The closing loop after all students of the roster were marked: nobody is left over. -/
theorem filter_markAll_of_perm {pool allStudents : List String} (hp : pool.Perm allStudents)
    (used : UsedSet) : allStudents.filter (fun s => !used.markAll pool s) = [] := by
  apply List.filter_eq_nil_iff.2
  intro s hs
  rw [markAll_apply]
  simp [hp.mem_iff.2 hs]
/-- The result of `isValidGroup` only depends on the one-valued lookups `constraints[k]`. -/
theorem isValidGroup_congr (g : List String) (c c2 : Constraints)
    (h : ∀ k, c2.forbidden k = c.forbidden k) : isValidGroup g c2 = isValidGroup g c := by
  rw [Bool.eq_iff_iff, isValidGroup_eq_true_iff, isValidGroup_eq_true_iff]
  constructor
  · intro hv i j a b hij hi hj
    rw [← h a]
    exact hv i j a b hij hi hj
  · intro hv i j a b hij hi hj
    rw [h a]
    exact hv i j a b hij hi hj

/-- A key that the map does not hold is read as the empty list. -/
theorem forbidden_of_get_none {c : Constraints} {p : String} (h : c.get p = none) :
    c.forbidden p = [] := by
  unfold Constraints.forbidden
  rw [h]
  rfl
/-- The loop of `tryIntegrateIntoExistingGroup` enlarges the group at the first visited index
that passes its test, and fails when no visited index passes. -/
theorem integrateLoop_eq_find (x : String) (t : Nat) (groups : List (List String))
    (c : Constraints) (idxs : List Nat) :
    integrateLoop x t groups c idxs
      = (idxs.find? (takesStudent x t groups c)).map
          (fun idx => groups.set idx ((groups[idx]?).getD [] ++ [x])) := by
  induction idxs with
  | nil => rfl
  | cons idx rest ih =>
    rw [integrateLoop]
    cases hg : groups[idx]? with
    | none =>
      have hf : ¬ takesStudent x t groups c idx = true := by simp [takesStudent, hg]
      rw [List.find?_cons_of_neg _ hf]
      exact ih
    | some group =>
      simp only []
      by_cases hlen : group.length = t
      · by_cases hv : isValidGroup (group ++ [x]) c = true
        · have hf : takesStudent x t groups c idx = true := by simp [takesStudent, hg, hlen, hv]
          rw [if_pos hlen, if_pos hv, List.find?_cons_of_pos _ hf]
          simp [hg]
        · have hf : ¬ takesStudent x t groups c idx = true := by
            simp [takesStudent, hg, hlen, hv]
          rw [if_pos hlen, if_neg hv, List.find?_cons_of_neg _ hf]
          exact ih
      · have hf : ¬ takesStudent x t groups c idx = true := by simp [takesStudent, hg, hlen]
        rw [if_neg hlen, List.find?_cons_of_neg _ hf]
        exact ih

/-- What the test of the loop of `tryIntegrateIntoExistingGroup` says about an index. -/
theorem takesStudent_iff (x : String) (t : Nat) (groups : List (List String))
    (c : Constraints) (idx : Nat) :
    takesStudent x t groups c idx = true ↔
      ∃ group, groups[idx]? = some group ∧ group.length = t ∧
        isValidGroup (group ++ [x]) c = true := by
  unfold takesStudent
  cases hg : groups[idx]? with
  | none => simp
  | some group => simp

/-- The function `tryIntegrateIntoExistingGroup` in terms of its loop. -/
theorem tryIntegrate_eq (x : String) (t n : Nat) (groups : List (List String))
    (used : UsedSet) (c : Constraints) (rand : Rand) :
    tryIntegrateIntoExistingGroup x t n groups used c rand
      = match integrateLoop x t groups c (rand.next.apply (List.range groups.length)) with
        | some groupsCopy => (true, ⟨groupsCopy, used.mark x, rand.advance⟩)
        | none => (false, ⟨groups, used, rand.advance⟩) := rfl

/-- A fold reports no integration exactly when its loop fails. -/
theorem tryIntegrate_fst_eq_false_iff (x : String) (t n : Nat) (groups : List (List String))
    (used : UsedSet) (c : Constraints) (rand : Rand) :
    (tryIntegrateIntoExistingGroup x t n groups used c rand).1 = false ↔
      integrateLoop x t groups c (rand.next.apply (List.range groups.length)) = none := by
  rw [tryIntegrate_eq]
  cases integrateLoop x t groups c (rand.next.apply (List.range groups.length)) <;> simp

/-- The loop of a fold fails exactly when no group of the size to match stays valid with the
student appended: the shuffled indices visit every group. -/
theorem integrateLoop_shuffled_eq_none_iff (x : String) (t : Nat)
    (groups : List (List String)) (c : Constraints) (rand : Rand) :
    integrateLoop x t groups c (rand.next.apply (List.range groups.length)) = none ↔
      ∀ g ∈ groups, g.length = t → isValidGroup (g ++ [x]) c = false := by
  rw [integrateLoop_eq_none_iff]
  have hperm := rand.next.perm (List.range groups.length)
  constructor
  · intro h g hg hlen
    obtain ⟨i, hi, hgi⟩ := List.getElem_of_mem hg
    have hmem : i ∈ rand.next.apply (List.range groups.length) :=
      hperm.mem_iff.2 (List.mem_range.2 hi)
    exact h i hmem g (hgi ▸ List.getElem?_eq_getElem hi) hlen
  · intro h idx _ group hgroup hlen
    exact h group (List.getElem?_mem hgroup) hlen
/-- The special case of two remaining students in `formFourPersonGroups`: the second fold is
only made after the first succeeded. -/
theorem formFour_two_remaining (allStudents : List String) (c : Constraints) (rand : Rand)
    (p1 p2 : String) (main : FormState) (r1 r2 : Bool × FormState)
    (hmain : mainFormation 4 (by decide) allStudents c rand = main)
    (hrem : currentlyUngrouped 4 (by decide) allStudents c rand = [p1, p2])
    (hr1 : tryIntegrateIntoExistingGroup p1 4 5 main.groups main.usedStudents c main.rand = r1)
    (hr2 : tryIntegrateIntoExistingGroup p2 4 5 r1.2.groups r1.2.usedStudents c r1.2.rand
      = r2) :
    formFourPersonGroups allStudents c rand
      = if r1.1 = true then
          if r2.1 = true then finalUngrouped allStudents r2.2
          else finalUngrouped allStudents ⟨r1.2.groups, r1.2.usedStudents, r2.2.rand⟩
        else finalUngrouped allStudents ⟨main.groups, main.usedStudents, r1.2.rand⟩ := by
  subst hr2 hr1 hmain
  unfold currentlyUngrouped mainFormation at hrem
  unfold formFourPersonGroups mainFormation
  simp only []
  rw [hrem]

/-- A fold that reports an integration returns the used set with the student marked. -/
theorem tryIntegrate_true_used (x : String) (t n : Nat) (groups : List (List String))
    (used : UsedSet) (c : Constraints) (rand : Rand)
    (h : (tryIntegrateIntoExistingGroup x t n groups used c rand).1 = true) :
    (tryIntegrateIntoExistingGroup x t n groups used c rand).2.usedStudents = used.mark x := by
  rw [tryIntegrate_eq] at h ⊢
  cases hl : integrateLoop x t groups c (rand.next.apply (List.range groups.length)) with
  | none => rw [hl] at h; simp at h
  | some gs => rfl

/-- Membership in the list the closing loop returns. -/
theorem mem_finalUngrouped (allStudents : List String) (st : FormState) (s : String) :
    s ∈ (finalUngrouped allStudents st).ungrouped ↔
      s ∈ allStudents ∧ st.usedStudents s = false := by
  unfold finalUngrouped
  simp

/-- The outcomes of the special case of two remaining students in `formFourPersonGroups` for a
duplicate-free roster: when the first fold fails the groups of main formation are returned and
both students are left over; when it succeeds the first student is not left over and the
second is left over exactly when the second fold fails. -/
theorem formFour_two_remaining_cases (allStudents : List String) (c : Constraints)
    (rand : Rand) (p1 p2 : String) (main : FormState) (r1 r2 : Bool × FormState)
    (hnodup : allStudents.Nodup)
    (hmain : mainFormation 4 (by decide) allStudents c rand = main)
    (hrem : currentlyUngrouped 4 (by decide) allStudents c rand = [p1, p2])
    (hr1 : tryIntegrateIntoExistingGroup p1 4 5 main.groups main.usedStudents c main.rand = r1)
    (hr2 : tryIntegrateIntoExistingGroup p2 4 5 r1.2.groups r1.2.usedStudents c r1.2.rand
      = r2) :
    (r1.1 = false →
      (formFourPersonGroups allStudents c rand).groups = main.groups ∧
      p1 ∈ (formFourPersonGroups allStudents c rand).ungrouped ∧
      p2 ∈ (formFourPersonGroups allStudents c rand).ungrouped) ∧
    (r1.1 = true →
      p1 ∉ (formFourPersonGroups allStudents c rand).ungrouped ∧
      (p2 ∈ (formFourPersonGroups allStudents c rand).ungrouped ↔ r2.1 = false)) := by
  have hp := rand.next.perm allStudents
  have hn : (rand.next.apply allStudents).Nodup := hp.nodup_iff.2 hnodup
  have hnd : [p1, p2].Nodup := by
    rw [← hrem]
    exact hn.filter _
  have h12 : p2 ≠ p1 := by
    intro e
    rw [e] at hnd
    simp at hnd
  have hm1 : p1 ∈ currentlyUngrouped 4 (by decide) allStudents c rand := by rw [hrem]; simp
  have hm2 : p2 ∈ currentlyUngrouped 4 (by decide) allStudents c rand := by rw [hrem]; simp
  unfold currentlyUngrouped at hm1 hm2
  rw [hmain] at hm1 hm2
  simp only [List.mem_filter, Bool.not_eq_true', hp.mem_iff] at hm1 hm2
  have hu1 : r1.1 = true → r1.2.usedStudents = main.usedStudents.mark p1 := by
    rw [← hr1]
    exact tryIntegrate_true_used _ _ _ _ _ _ _
  have hu2 : r2.1 = true → r2.2.usedStudents = r1.2.usedStudents.mark p2 := by
    rw [← hr2]
    exact tryIntegrate_true_used _ _ _ _ _ _ _
  rw [formFour_two_remaining allStudents c rand p1 p2 main r1 r2 hmain hrem hr1 hr2]
  constructor
  · intro h1
    rw [h1]
    simp only [Bool.false_eq_true, if_false]
    exact ⟨rfl, (mem_finalUngrouped _ _ _).2 hm1, (mem_finalUngrouped _ _ _).2 hm2⟩
  · intro h1
    rw [if_pos h1]
    cases h2 : r2.1 with
    | true =>
      rw [if_pos rfl, mem_finalUngrouped, mem_finalUngrouped, hu2 h2, hu1 h1]
      simp [mark_apply, h12]
    | false =>
      rw [if_neg (by simp), mem_finalUngrouped, mem_finalUngrouped]
      simp only [hu1 h1, mark_apply]
      simp [h12, hm2.1, hm2.2]
/-- One iteration of a retry loop whose attempt improves on the retained maximum and leaves
nobody over: the attempt is retained and the loop ends. -/
theorem retryLoop_succ_stop (form : List String → Constraints → Rand → Formation)
    (l : List String) (c : Constraints) (n : Nat) (st : RetryState)
    (himp : groupedCount l (form l c st.rand) > st.maxGroupedStudents)
    (hzero : (form l c st.rand).ungrouped.length = 0) :
    retryLoop form l c (n + 1) st
      = ⟨(form l c st.rand).groups, (form l c st.rand).ungrouped,
          groupedCount l (form l c st.rand), (form l c st.rand).rand,
          st.history ++ [form l c st.rand]⟩ := by
  rw [retryLoop, if_pos himp, if_pos hzero]

/-- One iteration of a retry loop whose attempt improves on the retained maximum and leaves
somebody over: the attempt is retained and the loop goes on. -/
theorem retryLoop_succ_improve (form : List String → Constraints → Rand → Formation)
    (l : List String) (c : Constraints) (n : Nat) (st : RetryState)
    (himp : groupedCount l (form l c st.rand) > st.maxGroupedStudents)
    (hzero : ¬ (form l c st.rand).ungrouped.length = 0) :
    retryLoop form l c (n + 1) st
      = retryLoop form l c n
          ⟨(form l c st.rand).groups, (form l c st.rand).ungrouped,
            groupedCount l (form l c st.rand), (form l c st.rand).rand,
            st.history ++ [form l c st.rand]⟩ := by
  rw [retryLoop, if_pos himp, if_neg hzero]

/-- One iteration of a retry loop whose attempt does not improve on the retained maximum: the
retained result stays and the loop goes on. -/
theorem retryLoop_succ_keep (form : List String → Constraints → Rand → Formation)
    (l : List String) (c : Constraints) (n : Nat) (st : RetryState)
    (himp : ¬ groupedCount l (form l c st.rand) > st.maxGroupedStudents) :
    retryLoop form l c (n + 1) st
      = retryLoop form l c n
          ⟨st.bestGroups, st.bestUngrouped, st.maxGroupedStudents, (form l c st.rand).rand,
            st.history ++ [form l c st.rand]⟩ := by
  rw [retryLoop, if_neg himp]

/-- The retained maximum never decreases along a retry loop. -/
theorem retryLoop_max_le (form : List String → Constraints → Rand → Formation)
    (l : List String) (c : Constraints) (n : Nat) (st : RetryState) :
    st.maxGroupedStudents ≤ (retryLoop form l c n st).maxGroupedStudents := by
  induction n generalizing st with
  | zero => exact Int.le_refl _
  | succ n ih =>
    by_cases himp : groupedCount l (form l c st.rand) > st.maxGroupedStudents
    · by_cases hzero : (form l c st.rand).ungrouped.length = 0
      · rw [retryLoop_succ_stop form l c n st himp hzero]
        exact Int.le_of_lt himp
      · rw [retryLoop_succ_improve form l c n st himp hzero]
        exact Int.le_trans (Int.le_of_lt himp) (ih _)
    · rw [retryLoop_succ_keep form l c n st himp]
      exact ih _

/-- A retry loop with one more iteration allowed ends in the same state, or makes one more
iteration from that state. -/
theorem retryLoop_succ_cases (form : List String → Constraints → Rand → Formation)
    (l : List String) (c : Constraints) (n : Nat) (st : RetryState) :
    retryLoop form l c (n + 1) st = retryLoop form l c n st ∨
    retryLoop form l c (n + 1) st = retryLoop form l c 1 (retryLoop form l c n st) := by
  induction n generalizing st with
  | zero => exact Or.inr rfl
  | succ n ih =>
    by_cases himp : groupedCount l (form l c st.rand) > st.maxGroupedStudents
    · by_cases hzero : (form l c st.rand).ungrouped.length = 0
      · rw [retryLoop_succ_stop form l c (n + 1) st himp hzero,
          retryLoop_succ_stop form l c n st himp hzero]
        exact Or.inl rfl
      · rw [retryLoop_succ_improve form l c (n + 1) st himp hzero,
          retryLoop_succ_improve form l c n st himp hzero]
        exact ih _
    · rw [retryLoop_succ_keep form l c (n + 1) st himp,
        retryLoop_succ_keep form l c n st himp]
      exact ih _

/-- The retained maximum is non-decreasing from one bound on the iterations to the next. -/
theorem retryLoop_max_mono (form : List String → Constraints → Rand → Formation)
    (l : List String) (c : Constraints) (n : Nat) (st : RetryState) :
    (retryLoop form l c n st).maxGroupedStudents
      ≤ (retryLoop form l c (n + 1) st).maxGroupedStudents := by
  rcases retryLoop_succ_cases form l c n st with h | h
  · rw [h]
  · rw [h]
    exact retryLoop_max_le form l c 1 _

/-- The attempts a retry loop runs from a state whose retained maximum is below the size of
the roster: they are the first `m` attempts of the chain that starts with the generator state
of that state; either the loop makes all its `n` iterations and every attempt leaves somebody
over, or the last attempt run is the first that leaves nobody over, and it is retained. -/
theorem retryLoop_history (form : List String → Constraints → Rand → Formation)
    (l : List String) (c : Constraints) (n : Nat) (st : RetryState)
    (hst : st.maxGroupedStudents < (l.length : Int)) :
    ∃ m, m ≤ n ∧
      (retryLoop form l c n st).history = st.history ++ attemptChain form l c m st.rand ∧
      ((m = n ∧ (∀ a ∈ attemptChain form l c m st.rand, a.ungrouped ≠ []) ∧
          (retryLoop form l c n st).maxGroupedStudents < (l.length : Int)) ∨
        ∃ (k : Nat) (a : Formation), m = k + 1 ∧
          attemptChain form l c m st.rand = attemptChain form l c k st.rand ++ [a] ∧
          (∀ b ∈ attemptChain form l c k st.rand, b.ungrouped ≠ []) ∧
          a.ungrouped = [] ∧
          (retryLoop form l c n st).bestGroups = a.groups ∧
          (retryLoop form l c n st).bestUngrouped = a.ungrouped) := by
  induction n generalizing st with
  | zero =>
    refine ⟨0, Nat.le_refl 0, ?_, Or.inl ⟨rfl, ?_, hst⟩⟩
    · simp [retryLoop, attemptChain]
    · simp [attemptChain]
  | succ n ih =>
    by_cases hzero : (form l c st.rand).ungrouped.length = 0
    · have himp : groupedCount l (form l c st.rand) > st.maxGroupedStudents := by
        unfold groupedCount
        rw [hzero]
        simpa using hst
      rw [retryLoop_succ_stop form l c n st himp hzero]
      refine ⟨1, by omega, by simp [attemptChain], Or.inr ⟨0, form l c st.rand, rfl, ?_, ?_,
        List.length_eq_zero.1 hzero, rfl, rfl⟩⟩
      · simp [attemptChain]
      · simp [attemptChain]
    · have hne : (form l c st.rand).ungrouped ≠ [] := fun h => hzero (by rw [h]; rfl)
      have hpos : 0 < (form l c st.rand).ungrouped.length := Nat.pos_of_ne_zero hzero
      have hlt : groupedCount l (form l c st.rand) < (l.length : Int) := by
        unfold groupedCount
        omega
      have key : ∀ st2 : RetryState, st2.maxGroupedStudents < (l.length : Int) →
          st2.history = st.history ++ [form l c st.rand] →
          st2.rand = (form l c st.rand).rand →
          retryLoop form l c (n + 1) st = retryLoop form l c n st2 →
          ∃ m, m ≤ n + 1 ∧
            (retryLoop form l c (n + 1) st).history
              = st.history ++ attemptChain form l c m st.rand ∧
            ((m = n + 1 ∧ (∀ a ∈ attemptChain form l c m st.rand, a.ungrouped ≠ []) ∧
                (retryLoop form l c (n + 1) st).maxGroupedStudents < (l.length : Int)) ∨
              ∃ (k : Nat) (a : Formation), m = k + 1 ∧
                attemptChain form l c m st.rand = attemptChain form l c k st.rand ++ [a] ∧
                (∀ b ∈ attemptChain form l c k st.rand, b.ungrouped ≠ []) ∧
                a.ungrouped = [] ∧
                (retryLoop form l c (n + 1) st).bestGroups = a.groups ∧
                (retryLoop form l c (n + 1) st).bestUngrouped = a.ungrouped) := by
        intro st2 hmax hhist hrand heq
        obtain ⟨m, hm, hh, hcase⟩ := ih st2 hmax
        rw [heq]
        rw [hhist, hrand] at hh
        refine ⟨m + 1, by omega, ?_, ?_⟩
        · rw [hh, List.append_assoc]
          rfl
        · rw [hrand] at hcase
          rcases hcase with ⟨hmn, hall, hmax2⟩ | ⟨k, a, hmk, hchain, hall, ha, hbg, hbu⟩
          · refine Or.inl ⟨by omega, ?_, hmax2⟩
            intro a ha
            rcases List.mem_cons.1 ha with h | h
            · rw [h]; exact hne
            · exact hall a h
          · refine Or.inr ⟨k + 1, a, by omega, ?_, ?_, ha, hbg, hbu⟩
            · show form l c st.rand :: attemptChain form l c m (form l c st.rand).rand = _
              rw [hchain]
              rfl
            · intro b hb
              rcases List.mem_cons.1 hb with h | h
              · rw [h]; exact hne
              · exact hall b h
      by_cases himp : groupedCount l (form l c st.rand) > st.maxGroupedStudents
      · exact key ⟨(form l c st.rand).groups, (form l c st.rand).ungrouped,
          groupedCount l (form l c st.rand), (form l c st.rand).rand,
          st.history ++ [form l c st.rand]⟩ hlt rfl rfl
          (retryLoop_succ_improve form l c n st himp hzero)
      · exact key ⟨st.bestGroups, st.bestUngrouped, st.maxGroupedStudents,
          (form l c st.rand).rand, st.history ++ [form l c st.rand]⟩ hst rfl rfl
          (retryLoop_succ_keep form l c n st himp)
/-- Before the first attempt, and as long as nothing is retained, no attempt of the history
exceeds the retained maximum. -/
theorem history_le_max {l : List String} {st : RetryState}
    (hst : RetainsFirstBest l st ∨ (st.history = [] ∧ st.maxGroupedStudents < 0)) :
    ∀ b ∈ st.history, groupedCount l b ≤ st.maxGroupedStudents := by
  rcases hst with ⟨_, _, _, _, _, _, _, h⟩ | ⟨h, _⟩
  · exact h
  · rw [h]
    intro b hb
    exact absurd hb (List.not_mem_nil b)

/-- Retaining an attempt that improves on the retained maximum keeps the earliest best. -/
theorem retains_improve {l : List String} {st : RetryState} (a : Formation) (rand : Rand)
    (hst : RetainsFirstBest l st ∨ (st.history = [] ∧ st.maxGroupedStudents < 0))
    (himp : groupedCount l a > st.maxGroupedStudents) :
    RetainsFirstBest l
      ⟨a.groups, a.ungrouped, groupedCount l a, rand, st.history ++ [a]⟩ := by
  have hle := history_le_max hst
  refine ⟨st.history.length, a, List.getElem?_concat_length _ _, rfl, rfl, rfl, ?_, ?_⟩
  · intro j b hj hb
    rw [List.getElem?_append_left hj] at hb
    exact Int.lt_of_le_of_lt (hle b (List.getElem?_mem hb)) himp
  · intro b hb
    rcases List.mem_append.1 hb with h | h
    · exact Int.le_of_lt (Int.lt_of_le_of_lt (hle b h) himp)
    · rw [List.mem_singleton] at h
      rw [h]

/-- Passing over an attempt that does not improve on the retained maximum keeps the earliest
best. -/
theorem retains_keep {l : List String} {st : RetryState} (a : Formation) (rand : Rand)
    (hst : RetainsFirstBest l st ∨ (st.history = [] ∧ st.maxGroupedStudents < 0))
    (hnon : 0 ≤ groupedCount l a) (hkeep : ¬ groupedCount l a > st.maxGroupedStudents) :
    RetainsFirstBest l
      ⟨st.bestGroups, st.bestUngrouped, st.maxGroupedStudents, rand, st.history ++ [a]⟩ := by
  have hle2 : groupedCount l a ≤ st.maxGroupedStudents := Int.not_lt.1 hkeep
  rcases hst with ⟨i, a0, hi, hbg, hbu, hcount, hbefore, hall⟩ | ⟨_, hneg⟩
  · have hlt : i < st.history.length := (List.getElem?_eq_some_iff.1 hi).1
    refine ⟨i, a0, ?_, hbg, hbu, hcount, ?_, ?_⟩
    · show (st.history ++ [a])[i]? = some a0
      rw [List.getElem?_append_left hlt]
      exact hi
    · intro j b hj hb
      have hb2 : (st.history ++ [a])[j]? = some b := hb
      rw [List.getElem?_append_left (Nat.lt_trans hj hlt)] at hb2
      exact hbefore j b hj hb2
    · intro b hb
      rcases List.mem_append.1 hb with h | h
      · exact hall b h
      · rw [List.mem_singleton] at h
        rw [h]
        exact hle2
  · omega

/-- A retry loop keeps retaining the earliest best of the attempts run, for a formation
function that never leaves more students over than the roster has. -/
theorem retryLoop_retains (form : List String → Constraints → Rand → Formation)
    (l : List String) (c : Constraints)
    (hform : ∀ rand, 0 ≤ groupedCount l (form l c rand)) (n : Nat) (st : RetryState)
    (hst : RetainsFirstBest l st ∨ (st.history = [] ∧ st.maxGroupedStudents < 0)) :
    RetainsFirstBest l (retryLoop form l c n st) ∨
      ((retryLoop form l c n st).history = [] ∧
        (retryLoop form l c n st).maxGroupedStudents < 0) := by
  induction n generalizing st with
  | zero => exact hst
  | succ n ih =>
    by_cases himp : groupedCount l (form l c st.rand) > st.maxGroupedStudents
    · by_cases hzero : (form l c st.rand).ungrouped.length = 0
      · rw [retryLoop_succ_stop form l c n st himp hzero]
        exact Or.inl (retains_improve _ _ hst himp)
      · rw [retryLoop_succ_improve form l c n st himp hzero]
        exact ih _ (Or.inl (retains_improve _ _ hst himp))
    · rw [retryLoop_succ_keep form l c n st himp]
      exact ih _ (Or.inl (retains_keep _ _ hst (hform _) himp))

/-- Every attempt of a chain is a result of the formation function. -/
theorem mem_attemptChain (form : List String → Constraints → Rand → Formation)
    (l : List String) (c : Constraints) (k : Nat) (rand : Rand) (a : Formation)
    (h : a ∈ attemptChain form l c k rand) : ∃ r, a = form l c r := by
  induction k generalizing rand with
  | zero => simp [attemptChain] at h
  | succ k ih =>
    rcases List.mem_cons.1 h with h | h
    · exact ⟨rand, h⟩
    · exact ih _ h

/-- A chain of `k` attempts has `k` results. -/
theorem length_attemptChain (form : List String → Constraints → Rand → Formation)
    (l : List String) (c : Constraints) (k : Nat) (rand : Rand) :
    (attemptChain form l c k rand).length = k := by
  induction k generalizing rand with
  | zero => rfl
  | succ k ih => simp [attemptChain, ih]

/-- What a whole retry loop of `main` leaves, for a formation function that never leaves more
students over than the roster has: the attempts run are the first ones of the chain that
starts with the generator state of the loop, at least one and at most `attempts`; the retained
result is that of the earliest best of them; and either all `attempts` attempts were run and
each left somebody over, or the last attempt run is the only one that left nobody over and it
is the retained one. -/
theorem bestFormation_spec (form : List String → Constraints → Rand → Formation)
    (l : List String) (c : Constraints) (rand : Rand)
    (hform : ∀ rand, 0 ≤ groupedCount l (form l c rand)) :
    ∃ m, 1 ≤ m ∧ m ≤ attempts ∧
      (bestFormation form l c rand).history = attemptChain form l c m rand ∧
      RetainsFirstBest l (bestFormation form l c rand) ∧
      ((m = attempts ∧ ∀ a ∈ attemptChain form l c m rand, a.ungrouped ≠ []) ∨
        ∃ (k : Nat) (a : Formation), m = k + 1 ∧
          attemptChain form l c m rand = attemptChain form l c k rand ++ [a] ∧
          (∀ b ∈ attemptChain form l c k rand, b.ungrouped ≠ []) ∧
          a.ungrouped = [] ∧
          (bestFormation form l c rand).bestGroups = a.groups ∧
          (bestFormation form l c rand).bestUngrouped = a.ungrouped) := by
  have hinit : (RetryState.initial rand).maxGroupedStudents < (l.length : Int) := by
    show (-1 : Int) < (l.length : Int)
    omega
  obtain ⟨m, hm, hh, hcase⟩ := retryLoop_history form l c attempts (RetryState.initial rand)
    hinit
  have hh2 : (bestFormation form l c rand).history = attemptChain form l c m rand := by
    unfold bestFormation
    rw [hh]
    rfl
  have hm1 : 1 ≤ m := by
    rcases hcase with ⟨h, _⟩ | ⟨k, _, h, _⟩
    · rw [h]; decide
    · omega
  have hret := retryLoop_retains form l c hform attempts (RetryState.initial rand)
    (Or.inr ⟨rfl, show (-1 : Int) < 0 by decide⟩)
  have hret2 : RetainsFirstBest l (bestFormation form l c rand) := by
    rcases hret with h | ⟨h, _⟩
    · exact h
    · exfalso
      have hlen := congrArg List.length hh2
      unfold bestFormation at hlen
      rw [h, length_attemptChain] at hlen
      simp at hlen
      omega
  refine ⟨m, hm1, hm, hh2, hret2, ?_⟩
  rcases hcase with ⟨h, hall, _⟩ | ⟨k, a, hmk, hchain, hall, ha, hbg, hbu⟩
  · exact Or.inl ⟨h, hall⟩
  · exact Or.inr ⟨k, a, hmk, hchain, hall, ha, hbg, hbu⟩
/-- A property of the sizes of all groups that also holds for the size to match plus one holds
for the sizes of the groups after a fold. -/
theorem tryIntegrate_forall_length (P : Nat → Prop) (x : String) (t n : Nat)
    (groups : List (List String)) (used : UsedSet) (c : Constraints) (rand : Rand)
    (hP : ∀ g ∈ groups, P g.length) (hnew : P (t + 1)) :
    ∀ g ∈ (tryIntegrateIntoExistingGroup x t n groups used c rand).2.groups, P g.length := by
  rw [tryIntegrate_eq]
  cases hl : integrateLoop x t groups c (rand.next.apply (List.range groups.length)) with
  | none => exact hP
  | some gs =>
    obtain ⟨idx, group, _, _, hlen, _, rfl⟩ := integrateLoop_eq_some hl
    intro g hg
    rcases List.mem_or_eq_of_mem_set hg with h | h
    · exact hP g h
    · rw [h, List.length_append, hlen]
      exact hnew

/-- Appending a group keeps a property of the sizes of all groups that holds for its size. -/
theorem forall_length_append (P : Nat → Prop) (groups : List (List String))
    (g0 : List String) (hP : ∀ g ∈ groups, P g.length) (hnew : P g0.length) :
    ∀ g ∈ groups ++ [g0], P g.length := by
  intro g hg
  rcases List.mem_append.1 hg with h | h
  · exact hP g h
  · rw [List.mem_singleton] at h
    rw [h]
    exact hnew

/-- Every group that `formTwoPersonGroups` returns has at least two members. -/
theorem formTwoPersonGroups_min_size (allStudents : List String) (c : Constraints)
    (rand : Rand) : ∀ g ∈ (formTwoPersonGroups allStudents c rand).groups, 2 ≤ g.length := by
  have hmain : ∀ g ∈ (attemptLoop 2 (by decide) (rand.next.apply allStudents) c []
      UsedSet.empty rand.advance).groups, 2 ≤ g.length := fun g hg =>
    Nat.le_of_eq (attemptLoop_sizes 2 (by decide) _ c [] UsedSet.empty _ (by simp) g hg).symm
  unfold formTwoPersonGroups attemptToFormGroupsOfSize
  simp only []
  split
  · split
    · exact tryIntegrate_forall_length (fun k => 2 ≤ k) _ _ _ _ _ _ _ hmain (by decide)
    · exact hmain
  · exact hmain

/-- Every group that `formThreePersonGroups` returns has at least two members. -/
theorem formThreePersonGroups_min_size (allStudents : List String) (c : Constraints)
    (rand : Rand) :
    ∀ g ∈ (formThreePersonGroups allStudents c rand).groups, 2 ≤ g.length := by
  have hmain : ∀ g ∈ (attemptLoop 3 (by decide) (rand.next.apply allStudents) c []
      UsedSet.empty rand.advance).groups, 2 ≤ g.length := fun g hg => by
    rw [attemptLoop_sizes 3 (by decide) _ c [] UsedSet.empty _ (by simp) g hg]
    decide
  unfold formThreePersonGroups attemptToFormGroupsOfSize
  simp only []
  split
  · split
    · exact tryIntegrate_forall_length (fun k => 2 ≤ k) _ _ _ _ _ _ _ hmain (by decide)
    · exact hmain
  · rename_i a b heq
    split
    · exact forall_length_append (fun k => 2 ≤ k) _ _ hmain (by rw [heq]; simp)
    · exact hmain
  · exact hmain

/-- Every group that `formFourPersonGroups` returns has at least two members. -/
theorem formFourPersonGroups_min_size (allStudents : List String) (c : Constraints)
    (rand : Rand) : ∀ g ∈ (formFourPersonGroups allStudents c rand).groups, 2 ≤ g.length := by
  have hmain : ∀ g ∈ (attemptLoop 4 (by decide) (rand.next.apply allStudents) c []
      UsedSet.empty rand.advance).groups, 2 ≤ g.length := fun g hg => by
    rw [attemptLoop_sizes 4 (by decide) _ c [] UsedSet.empty _ (by simp) g hg]
    decide
  unfold formFourPersonGroups attemptToFormGroupsOfSize
  simp only []
  split
  · split
    · exact tryIntegrate_forall_length (fun k => 2 ≤ k) _ _ _ _ _ _ _ hmain (by decide)
    · exact hmain
  · split
    · split
      · refine tryIntegrate_forall_length (fun k => 2 ≤ k) _ _ _ _ _ _ _ ?_ (by decide)
        exact tryIntegrate_forall_length (fun k => 2 ≤ k) _ _ _ _ _ _ _ hmain (by decide)
      · exact tryIntegrate_forall_length (fun k => 2 ≤ k) _ _ _ _ _ _ _ hmain (by decide)
    · exact hmain
  · rename_i a b d heq
    split
    · exact forall_length_append (fun k => 2 ≤ k) _ _ hmain (by rw [heq]; simp)
    · exact hmain
  · exact hmain

/-- What the retry loops use of the three formation functions: the result is well formed and
every group has at least two members. -/
theorem isFormationFunction_spec {form : List String → Constraints → Rand → Formation}
    (hform : IsFormationFunction form) (l : List String) (c : Constraints) (rand : Rand) :
    FormsWell l c (form l c rand) ∧ ∀ g ∈ (form l c rand).groups, 2 ≤ g.length := by
  rcases hform with h | h | h
  · rw [h]
    exact ⟨formTwoPersonGroups_formsWell l c rand, formTwoPersonGroups_min_size l c rand⟩
  · rw [h]
    exact ⟨formThreePersonGroups_formsWell l c rand, formThreePersonGroups_min_size l c rand⟩
  · rw [h]
    exact ⟨formFourPersonGroups_formsWell l c rand, formFourPersonGroups_min_size l c rand⟩

/-- A well-formed result never leaves more students over than the roster has. -/
theorem groupedCount_nonneg {l : List String} {c : Constraints} {r : Formation}
    (h : FormsWell l c r) : 0 ≤ groupedCount l r := by
  obtain ⟨used, _, hu⟩ := h
  unfold groupedCount
  have := List.length_filter_le (fun s => !used s) l
  rw [← hu] at this
  omega

/-- A well-formed result, with groups of at least two members, that groups nobody has no
group and leaves the whole roster over. -/
theorem formsWell_none_grouped {l : List String} {c : Constraints} {r : Formation}
    (h : FormsWell l c r) (hsize : ∀ g ∈ r.groups, 2 ≤ g.length)
    (hzero : groupedCount l r = 0) : r.groups = [] ∧ r.ungrouped = l := by
  obtain ⟨used, hg, hu⟩ := h
  have hlen : (l.filter (fun s => !used s)).length = l.length := by
    unfold groupedCount at hzero
    rw [hu] at hzero
    omega
  have hall := List.filter_length_eq_length.1 hlen
  refine ⟨?_, by rw [hu]; exact List.filter_eq_self.2 hall⟩
  cases hgr : r.groups with
  | nil => rfl
  | cons g rest =>
    exfalso
    have hg2 : 2 ≤ g.length := hsize g (by rw [hgr]; exact List.mem_cons_self g rest)
    cases g with
    | nil => simp at hg2
    | cons s tl =>
      have hmem : s ∈ r.groups.flatten := by
        rw [hgr]
        simp
      have hused := (hg.used_iff s).2 hmem
      have hnot := hall s (hg.sub s hmem)
      rw [hused] at hnot
      simp at hnot
/-- An iteration of the loop of `attemptToFormGroupsOfSize` that forms a group leaves fewer
unused students, when the target size is at least one. -/
theorem available_decreases (t : Nat) (hpos : 0 < t) (pool : List String) (used : UsedSet)
    (sh : List String) (hperm : sh.Perm (pool.filter (fun s => !used s)))
    (hlen : ¬ (pool.filter (fun s => !used s)).length < t) :
    (pool.filter (fun s => !used.markAll (sh.take t) s)).length
      < (pool.filter (fun s => !used s)).length := by
  have hlen2 : t ≤ sh.length := by rw [hperm.length_eq]; omega
  cases hsh : sh with
  | nil => rw [hsh] at hlen2; simp at hlen2; omega
  | cons x rest =>
    have hx : x ∈ pool.filter (fun s => !used s) := by
      apply hperm.subset
      rw [hsh]
      exact List.mem_cons_self x rest
    obtain ⟨k, hk⟩ : ∃ k, t = k + 1 := ⟨t - 1, by omega⟩
    have hxg : x ∈ List.take t (x :: rest) := by
      rw [hk, List.take_succ_cons]
      exact List.mem_cons_self x _
    have hsub : pool.filter (fun s => !used.markAll (List.take t (x :: rest)) s)
        = (pool.filter (fun s => !used s)).filter
          (fun s => !used.markAll (List.take t (x :: rest)) s) := by
      rw [List.filter_filter]
      apply List.filter_congr
      intro s _
      rw [markAll_apply]
      cases hu : used s <;> simp
    rw [hsub]
    apply List.length_filter_lt_length_iff_exists.2
    refine ⟨x, hx, ?_⟩
    rw [markAll_apply]
    simp [hxg]

/-- With a bound above the number of unused students the bounded loop ends, in the state the
loop of `attemptToFormGroupsOfSize` returns, when the target size is at least one. -/
theorem attemptLoopBounded_eq (t : Nat) (hpos : 0 < t) (pool : List String) (c : Constraints)
    (bound : Nat) (groups : List (List String)) (used : UsedSet) (rand : Rand)
    (hbound : (pool.filter (fun s => !used s)).length < bound) :
    attemptLoopBounded t pool c bound groups used rand
      = some (attemptLoop t hpos pool c groups used rand) := by
  induction bound generalizing groups used rand with
  | zero => omega
  | succ bound ih =>
    rw [attemptLoopBounded, attemptLoop]
    by_cases hlt : (pool.filter (fun s => !used s)).length < t
    · rw [if_pos hlt, if_pos hlt]
    · rw [if_neg hlt, if_neg hlt]
      simp only []
      by_cases hv : isValidGroup
          ((rand.next.apply (pool.filter (fun s => !used s))).take t) c = true
      · rw [if_pos hv, if_pos hv]
        apply ih
        have := available_decreases t hpos pool used _ (rand.next.perm _) hlt
        omega
      · rw [if_neg hv, if_neg hv]

/-- For the target size 0 the loop never ends: whatever the bound, the bounded loop reaches
it. -/
theorem attemptLoopBounded_zero (pool : List String) (c : Constraints) (bound : Nat)
    (groups : List (List String)) (used : UsedSet) (rand : Rand) :
    attemptLoopBounded 0 pool c bound groups used rand = none := by
  induction bound generalizing groups used rand with
  | zero => rfl
  | succ bound ih =>
    rw [attemptLoopBounded]
    simp only [Nat.not_lt_zero, if_false, List.take_zero]
    have hv : isValidGroup [] c = true := by
      rw [isValidGroup_eq_true_iff]
      intro i j a b _ hi
      simp at hi
    rw [if_pos hv]
    exact ih _ _ _

/-- A retry loop runs at most as many attempts as it has iterations to go. -/
theorem retryLoop_history_length (form : List String → Constraints → Rand → Formation)
    (l : List String) (c : Constraints) (n : Nat) (st : RetryState) :
    (retryLoop form l c n st).history.length ≤ st.history.length + n := by
  induction n generalizing st with
  | zero => exact Nat.le_refl _
  | succ n ih =>
    by_cases himp : groupedCount l (form l c st.rand) > st.maxGroupedStudents
    · by_cases hzero : (form l c st.rand).ungrouped.length = 0
      · rw [retryLoop_succ_stop form l c n st himp hzero]
        simp only [List.length_append, List.length_singleton]
        omega
      · rw [retryLoop_succ_improve form l c n st himp hzero]
        refine Nat.le_trans (ih _) ?_
        simp only [List.length_append, List.length_singleton]
        omega
    · rw [retryLoop_succ_keep form l c n st himp]
      refine Nat.le_trans (ih _) ?_
      simp only [List.length_append, List.length_singleton]
      omega

/-- The body of the inner loop of the simplified predicate returns `false` for the positions
`i`, `j` exactly when they differ and the student at `j` is in the list. -/
theorem conflictAtForward_iff (i j : Nat) (b : String) (la : List String) :
    conflictAtForward i la j b = true ↔ i ≠ j ∧ b ∈ la := by
  unfold conflictAtForward
  by_cases hij : i = j
  · simp [hij]
  · simp [hij, occursIn_iff]

/-- The body of the outer loop of the simplified predicate returns `false` at position `i`
exactly when `studentA` is a key whose list holds the student of some other position. -/
theorem conflictFromForward_iff (c : Constraints) (g : List String) (i : Nat) (a : String) :
    conflictFromForward c g i a = true ↔
      ∃ la, c.get a = some la ∧ ∃ j b, g[j]? = some b ∧ i ≠ j ∧ b ∈ la := by
  unfold conflictFromForward
  cases hg : c.get a with
  | none => simp
  | some la =>
    simp only [List.any_eq_true, Option.some.injEq, exists_eq_left', Prod.exists,
      List.mk_mem_enum_iff_getElem?, conflictAtForward_iff]

/-- The simplified predicate returns `false` exactly when two different positions hold
students `a`, `b` with `b` in `constraints[a]`. -/
theorem isValidGroupForward_eq_false_iff (g : List String) (c : Constraints) :
    isValidGroupForward g c = false ↔
      ∃ (i j : Nat) (a b : String),
        i ≠ j ∧ g[i]? = some a ∧ g[j]? = some b ∧ b ∈ c.forbidden a := by
  unfold isValidGroupForward
  simp only [Bool.not_eq_false', List.any_eq_true, Prod.exists, List.mk_mem_enum_iff_getElem?,
    conflictFromForward_iff]
  constructor
  · rintro ⟨i, a, hi, la, hla, j, b, hj, hij, h⟩
    exact ⟨i, j, a, b, hij, hi, hj, (mem_forbidden_iff c a b).2 ⟨la, hla, h⟩⟩
  · rintro ⟨i, j, a, b, hij, hi, hj, h⟩
    obtain ⟨la, hla, hb⟩ := (mem_forbidden_iff c a b).1 h
    exact ⟨i, a, hi, la, hla, j, b, hj, hij, hb⟩

/-- The function `isValidGroup` returns `true` exactly when no student of the group is in the
list of a student at another position, said for the pairs of positions in ascending order. -/
theorem isValidGroup_iff_pairwise (g : List String) (c : Constraints) :
    isValidGroup g c = true ↔
      g.Pairwise (fun a b => b ∉ c.forbidden a ∧ a ∉ c.forbidden b) := by
  rw [isValidGroup_eq_true_iff, List.pairwise_iff_getElem]
  constructor
  · intro h i j hi hj hij
    exact ⟨h i j g[i] g[j] (Nat.ne_of_lt hij) (List.getElem?_eq_getElem hi)
        (List.getElem?_eq_getElem hj),
      h j i g[j] g[i] (Nat.ne_of_gt hij) (List.getElem?_eq_getElem hj)
        (List.getElem?_eq_getElem hi)⟩
  · intro h i j a b hij hi hj
    obtain ⟨hi1, hi2⟩ := List.getElem?_eq_some_iff.1 hi
    obtain ⟨hj1, hj2⟩ := List.getElem?_eq_some_iff.1 hj
    rcases Nat.lt_or_gt_of_ne hij with hlt | hgt
    · have := (h i j hi1 hj1 hlt).1
      rwa [hi2, hj2] at this
    · have := (h j i hj1 hi1 hgt).2
      rwa [hi2, hj2] at this

/-- The result of `isValidGroup` does not depend on the order of the group. -/
theorem isValidGroup_of_perm {g1 g2 : List String} (h : g1.Perm g2) (c : Constraints) :
    isValidGroup g1 c = isValidGroup g2 c := by
  rw [Bool.eq_iff_iff, isValidGroup_iff_pairwise, isValidGroup_iff_pairwise]
  exact h.pairwise_iff (fun hxy => ⟨hxy.2, hxy.1⟩)

/-- The result of `isValidGroup` only depends on which students the lists `constraints[k]`
hold. -/
theorem isValidGroup_congr_mem (g : List String) (c c2 : Constraints)
    (h : ∀ k b, b ∈ c2.forbidden k ↔ b ∈ c.forbidden k) :
    isValidGroup g c2 = isValidGroup g c := by
  rw [Bool.eq_iff_iff, isValidGroup_eq_true_iff, isValidGroup_eq_true_iff]
  constructor
  · intro hv i j a b hij hi hj hb
    exact hv i j a b hij hi hj ((h a b).2 hb)
  · intro hv i j a b hij hi hj hb
    exact hv i j a b hij hi hj ((h a b).1 hb)

/-- Lookups in two maps that differ in the order of their lists only: both fail, or both give
a list and the two lists are permutations of each other. -/
theorem get_of_sameLists {c c2 : Constraints} (h : SameListsUpToOrder c c2) (k : String) :
    (c.get k = none ∧ c2.get k = none) ∨
      ∃ l l2, c.get k = some l ∧ c2.get k = some l2 ∧ l.Perm l2 := by
  unfold SameListsUpToOrder at h
  induction h with
  | nil => exact Or.inl ⟨rfl, rfl⟩
  | @cons e e2 rest rest2 he _ ih =>
    obtain ⟨a, la⟩ := e
    obtain ⟨a2, la2⟩ := e2
    obtain ⟨hk, hp⟩ := he
    simp only at hk hp
    subst hk
    rw [get_cons, get_cons]
    by_cases hka : k = a
    · rw [if_pos hka, if_pos hka]
      exact Or.inr ⟨la, la2, rfl, rfl, hp⟩
    · rw [if_neg hka, if_neg hka]
      exact ih

/-- The lists `constraints[k]` of two maps that differ in the order of their lists only hold
the same students. -/
theorem mem_forbidden_of_sameLists {c c2 : Constraints} (h : SameListsUpToOrder c c2)
    (k b : String) : b ∈ c2.forbidden k ↔ b ∈ c.forbidden k := by
  rcases get_of_sameLists h k with ⟨h1, h2⟩ | ⟨l, l2, h1, h2, hp⟩
  · rw [forbidden_of_get_none h1, forbidden_of_get_none h2]
  · unfold Constraints.forbidden
    rw [h1, h2]
    exact hp.mem_iff.symm

/-- What a fold that reports an integration returns: one group of the size to match took the
student and is valid with the student, the student is marked, one shuffle was taken. -/
theorem tryIntegrate_true_shape (x : String) (t n : Nat) (groups : List (List String))
    (used : UsedSet) (c : Constraints) (rand : Rand)
    (h : (tryIntegrateIntoExistingGroup x t n groups used c rand).1 = true) :
    ∃ idx group, groups[idx]? = some group ∧ group.length = t ∧
      isValidGroup (group ++ [x]) c = true ∧
      tryIntegrateIntoExistingGroup x t n groups used c rand
        = (true, ⟨groups.set idx (group ++ [x]), used.mark x, rand.advance⟩) := by
  rw [tryIntegrate_eq] at h ⊢
  cases hl : integrateLoop x t groups c (rand.next.apply (List.range groups.length)) with
  | none => rw [hl] at h; simp at h
  | some gs =>
    obtain ⟨idx, group, _, hidx, hlen, hv, rfl⟩ := integrateLoop_eq_some hl
    exact ⟨idx, group, hidx, hlen, hv, rfl⟩

/-- The call `sort.Strings` leaves the list in ascending order. -/
theorem sortStrings_sorted (l : List String) :
    (sortStrings l).Sorted (fun a b => a ≤ b) := by
  unfold sortStrings
  exact List.sorted_insertionSort _ l

/-- Sorting two lists that are permutations of each other gives the same list. -/
theorem sortStrings_eq_of_perm {l l2 : List String} (h : l.Perm l2) :
    sortStrings l = sortStrings l2 := by
  have hp : (sortStrings l).Perm (sortStrings l2) := by
    unfold sortStrings
    exact (List.perm_insertionSort _ l).trans (h.trans (List.perm_insertionSort _ l2).symm)
  exact List.eq_of_perm_of_sorted hp (sortStrings_sorted l) (sortStrings_sorted l2)

/-- The body of the loop over `studentB` appends nothing, or one entry about `studentA` and
`studentB`. -/
theorem issuesAt_cases (c : Constraints) (a b : String) :
    issuesAt c a b = [] ∨
      ∃ f, issuesAt c a b = [f] ∧ f.studentA = a ∧ f.studentB = b := by
  unfold issuesAt
  cases hg : c.get b with
  | none => exact Or.inr ⟨_, rfl, rfl, rfl⟩
  | some lb =>
    simp only []
    split
    · exact Or.inr ⟨_, rfl, rfl, rfl⟩
    · exact Or.inl rfl

/-- The partners of the entries appended for the students of a list, in the order of the
entries, are students of the list in the order of the list. -/
theorem studentB_sublist (c : Constraints) (a : String) (l : List String) :
    ((l.flatMap (fun b => issuesAt c a b)).map Asymmetry.studentB).Sublist l := by
  induction l with
  | nil => simp
  | cons b rest ih =>
    rw [List.flatMap_cons, List.map_append]
    rcases issuesAt_cases c a b with h | ⟨f, h, _, hb⟩
    · rw [h]
      exact ih.cons b
    · rw [h, List.map_singleton, hb]
      exact ih.cons₂ b

/-- The entries appended for the students of a list are all about `studentA`. -/
theorem studentA_of_mem (c : Constraints) (a : String) (l : List String) (f : Asymmetry)
    (hf : f ∈ l.flatMap (fun b => issuesAt c a b)) : f.studentA = a := by
  obtain ⟨b, _, hfb⟩ := List.mem_flatMap.1 hf
  rcases issuesAt_cases c a b with h | ⟨f2, h, ha, _⟩
  · rw [h] at hfb
    exact absurd hfb (List.not_mem_nil f)
  · rw [h, List.mem_singleton] at hfb
    rw [hfb]
    exact ha

/-- The body of the loop over `studentB` appends the same for two maps that differ in the
order of their lists only. -/
theorem issuesAt_of_sameLists {c c2 : Constraints} (h : SameListsUpToOrder c c2)
    (a b : String) : issuesAt c2 a b = issuesAt c a b := by
  rcases get_of_sameLists h b with ⟨h1, h2⟩ | ⟨l, l2, h1, h2, hp⟩
  · rw [issuesAt_none h1, issuesAt_none h2]
  · unfold issuesAt
    rw [h1, h2]
    simp only []
    have hany : l2.any (fun s => s == a) = l.any (fun s => s == a) := by
      rw [Bool.eq_iff_iff, List.any_eq_true, List.any_eq_true]
      constructor
      · rintro ⟨s, hs, hsa⟩
        exact ⟨s, hp.mem_iff.2 hs, hsa⟩
      · rintro ⟨s, hs, hsa⟩
        exact ⟨s, hp.mem_iff.1 hs, hsa⟩
    rw [hany]

/-- The body of the loop over `studentA, forbiddenByA` appends the same for two maps that
differ in the order of their lists only and two lists that are permutations of each other. -/
theorem issuesFrom_of_sameLists {c c2 : Constraints} (h : SameListsUpToOrder c c2)
    (a : String) {l l2 : List String} (hp : l.Perm l2) :
    issuesFrom c2 a l2 = issuesFrom c a l := by
  unfold issuesFrom
  simp only []
  rw [sortStrings_eq_of_perm hp]
  congr 1
  funext b
  exact issuesAt_of_sameLists h a b

/-- The slice `asymmetricIssues` is the same for two maps that differ in the order of their
lists only. -/
theorem asymmetricIssues_of_sameLists {c c2 : Constraints} (h : SameListsUpToOrder c c2) :
    asymmetricIssues c2 = asymmetricIssues c := by
  have key : ∀ (l l2 : Constraints), SameListsUpToOrder l l2 →
      l2.flatMap (fun entry => issuesFrom c2 entry.1 entry.2)
        = l.flatMap (fun entry => issuesFrom c entry.1 entry.2) := by
    intro l l2 hl
    unfold SameListsUpToOrder at hl
    induction hl with
    | nil => rfl
    | @cons e e2 rest rest2 he _ ih =>
      rw [List.flatMap_cons, List.flatMap_cons, ih, he.1, issuesFrom_of_sameLists h e2.1 he.2]
  exact key c c2 h

/-- How the loop of `attemptToFormGroupsOfSize` ends: after appending `k` groups, one shuffle
each, either fewer than `targetSize` students are unused, or one more shuffle of the unused
students gave an invalid candidate and the loop returned without another one. -/
theorem attemptLoop_stop (t : Nat) (hpos : 0 < t) (pool : List String) (c : Constraints)
    (groups : List (List String)) (used : UsedSet) (rand : Rand) :
    ∃ k : Nat, (attemptLoop t hpos pool c groups used rand).groups.length = groups.length + k ∧
      (((pool.filter (fun s =>
            !(attemptLoop t hpos pool c groups used rand).usedStudents s)).length < t ∧
          (attemptLoop t hpos pool c groups used rand).rand = Rand.advance^[k] rand) ∨
        (t ≤ (pool.filter (fun s =>
            !(attemptLoop t hpos pool c groups used rand).usedStudents s)).length ∧
          isValidGroup (((Rand.advance^[k] rand).next.apply (pool.filter (fun s =>
            !(attemptLoop t hpos pool c groups used rand).usedStudents s))).take t) c = false ∧
          (attemptLoop t hpos pool c groups used rand).rand = Rand.advance^[k + 1] rand)) := by
  induction groups, used, rand using attemptLoop.induct t hpos pool c with
  | case1 groups used rand av hlt =>
    rw [attemptLoop, if_pos hlt]
    exact ⟨0, rfl, Or.inl ⟨hlt, rfl⟩⟩
  | case2 groups used rand av hge sh pg hvalid ih =>
    rw [attemptLoop, if_neg hge]
    simp only []
    rw [if_pos hvalid]
    obtain ⟨k, hlen, hcases⟩ := ih
    refine ⟨k + 1, ?_, ?_⟩
    · rw [hlen, List.length_append, List.length_singleton, Nat.add_assoc, Nat.add_comm 1 k]
    · rw [Function.iterate_succ_apply, Function.iterate_succ_apply]
      exact hcases
  | case3 groups used rand av hge sh pg hinvalid =>
    rw [attemptLoop, if_neg hge]
    simp only []
    rw [if_neg hinvalid]
    refine ⟨0, rfl, Or.inr ⟨Nat.le_of_not_lt hge, ?_, rfl⟩⟩
    simpa using hinvalid

/-- Counting the groups that pass a test after the group at an index was replaced. -/
theorem countP_set_of_getElem (p : List String → Bool) (l : List (List String)) (idx : Nat)
    (g a : List String) (h : l[idx]? = some g) :
    (l.set idx a).countP p + (if p g = true then 1 else 0)
      = l.countP p + (if p a = true then 1 else 0) := by
  induction l generalizing idx with
  | nil => simp at h
  | cons g0 rest ih =>
    cases idx with
    | zero =>
      simp only [List.getElem?_cons_zero, Option.some.injEq] at h
      subst h
      simp only [List.set_cons_zero, List.countP_cons]
      omega
    | succ m =>
      simp only [List.getElem?_cons_succ] at h
      simp only [List.set_cons_succ, List.countP_cons]
      have := ih m h
      omega

/-- The sizes after a fold that reports an integration: as many groups as before, one group
of the size to match less, one group of that size plus one more, one member more in all. -/
theorem tryIntegrate_counts (x : String) (t n : Nat) (groups : List (List String))
    (used : UsedSet) (c : Constraints) (rand : Rand)
    (h : (tryIntegrateIntoExistingGroup x t n groups used c rand).1 = true) :
    (tryIntegrateIntoExistingGroup x t n groups used c rand).2.groups.length = groups.length ∧
    (tryIntegrateIntoExistingGroup x t n groups used c rand).2.groups.countP
        (fun g => g.length = t) + 1 = groups.countP (fun g => g.length = t) ∧
    (tryIntegrateIntoExistingGroup x t n groups used c rand).2.groups.countP
        (fun g => g.length = t + 1) = groups.countP (fun g => g.length = t + 1) + 1 ∧
    (tryIntegrateIntoExistingGroup x t n groups used c rand).2.groups.flatten.length
      = groups.flatten.length + 1 := by
  obtain ⟨idx, group, hidx, hlen, _, heq⟩ := tryIntegrate_true_shape x t n groups used c rand h
  rw [heq]
  have h1 := countP_set_of_getElem (fun g => g.length = t) groups idx group (group ++ [x]) hidx
  have h2 := countP_set_of_getElem (fun g => g.length = t + 1) groups idx group (group ++ [x])
    hidx
  simp only [List.length_append, List.length_singleton, hlen, decide_True, if_true,
    Nat.succ_ne_self, decide_False, Bool.false_eq_true, if_false, Nat.add_zero,
    Nat.self_eq_add_right, Nat.add_eq_left, (Nat.succ_ne_self t).symm] at h1 h2
  refine ⟨List.length_set _ _ _, ?_, ?_, ?_⟩
  · show (groups.set idx (group ++ [x])).countP (fun g => g.length = t) + 1 = _
    omega
  · show (groups.set idx (group ++ [x])).countP (fun g => g.length = t + 1) = _
    omega
  · exact (flatten_set_perm groups idx group x hidx).length_eq

/-- A fold reports an integration as soon as some group of the size to match stays valid with
the student appended. -/
theorem tryIntegrate_fst_true (x : String) (t n : Nat) (groups : List (List String))
    (used : UsedSet) (c : Constraints) (rand : Rand) (g : List String) (hg : g ∈ groups)
    (hlen : g.length = t) (hv : isValidGroup (g ++ [x]) c = true) :
    (tryIntegrateIntoExistingGroup x t n groups used c rand).1 = true := by
  cases h : (tryIntegrateIntoExistingGroup x t n groups used c rand).1 with
  | true => rfl
  | false =>
    rw [tryIntegrate_fst_eq_false_iff, integrateLoop_shuffled_eq_none_iff] at h
    rw [h g hg hlen] at hv
    exact Bool.noConfusion hv

/-- Groups of the size to match, of which at most `k` have one member more, stay so after a
fold, with at most `k + 1` of them having one member more. -/
theorem tryIntegrate_shape (x : String) (t n : Nat) (groups : List (List String))
    (used : UsedSet) (c : Constraints) (rand : Rand) (k : Nat)
    (h : ∀ g ∈ groups, g.length = t ∨ g.length = t + 1)
    (hk : groups.countP (fun g => g.length = t + 1) ≤ k) :
    (∀ g ∈ (tryIntegrateIntoExistingGroup x t n groups used c rand).2.groups,
      g.length = t ∨ g.length = t + 1) ∧
    (tryIntegrateIntoExistingGroup x t n groups used c rand).2.groups.countP
      (fun g => g.length = t + 1) ≤ k + 1 := by
  refine ⟨tryIntegrate_forall_length (fun m => m = t ∨ m = t + 1) x t n groups used c rand h
    (Or.inr rfl), ?_⟩
  cases hr : (tryIntegrateIntoExistingGroup x t n groups used c rand).1 with
  | true =>
    rw [(tryIntegrate_counts x t n groups used c rand hr).2.2.1]
    omega
  | false =>
    rw [(tryIntegrate_false x t n rand hr).1]
    omega

/-- Groups that all have the size `t` hold none of another size. -/
theorem countP_length_eq_zero {groups : List (List String)} {t : Nat} (s : Nat)
    (h : ∀ g ∈ groups, g.length = t) (hs : s ≠ t) :
    groups.countP (fun g => g.length = s) = 0 := by
  apply List.countP_eq_zero.2
  intro g hg
  rw [h g hg]
  simpa using fun e => hs e.symm

/-- Groups whose sizes are all equal to one of two sizes hold none of a third size. -/
theorem countP_length_eq_zero_of_or {groups : List (List String)} {t u : Nat} (s : Nat)
    (h : ∀ g ∈ groups, g.length = t ∨ g.length = u) (hs : s ≠ t) (hu : s ≠ u) :
    groups.countP (fun g => g.length = s) = 0 := by
  apply List.countP_eq_zero.2
  intro g hg
  rcases h g hg with e | e
  · rw [e]
    simpa using fun e => hs e.symm
  · rw [e]
    simpa using fun e => hu e.symm

/-- The special case of one remaining student in `formThreePersonGroups`. -/
theorem formThree_one_remaining (allStudents : List String) (c : Constraints) (rand : Rand)
    (x : String) (main : FormState) (r : Bool × FormState)
    (hmain : mainFormation 3 (by decide) allStudents c rand = main)
    (hrem : currentlyUngrouped 3 (by decide) allStudents c rand = [x])
    (hr : tryIntegrateIntoExistingGroup x 3 4 main.groups main.usedStudents c main.rand = r) :
    formThreePersonGroups allStudents c rand
      = if r.1 = true then finalUngrouped allStudents r.2
        else finalUngrouped allStudents ⟨main.groups, main.usedStudents, r.2.rand⟩ := by
  subst hr hmain
  unfold currentlyUngrouped mainFormation at hrem
  unfold formThreePersonGroups mainFormation
  simp only []
  rw [hrem]

/-- The special case of two remaining students in `formThreePersonGroups`: they become a
group when they are jointly valid, and nothing else is tried. -/
theorem formThree_two_remaining (allStudents : List String) (c : Constraints) (rand : Rand)
    (a b : String) (main : FormState)
    (hmain : mainFormation 3 (by decide) allStudents c rand = main)
    (hrem : currentlyUngrouped 3 (by decide) allStudents c rand = [a, b]) :
    formThreePersonGroups allStudents c rand
      = if isValidGroup [a, b] c = true then
          finalUngrouped allStudents
            ⟨main.groups ++ [[a, b]], main.usedStudents.markAll [a, b], main.rand⟩
        else finalUngrouped allStudents main := by
  subst hmain
  unfold currentlyUngrouped mainFormation at hrem
  unfold formThreePersonGroups mainFormation
  simp only []
  rw [hrem]

/-- The special case of three remaining students in `formFourPersonGroups`: they become a
group when they are jointly valid, and nothing else is tried. -/
theorem formFour_three_remaining (allStudents : List String) (c : Constraints) (rand : Rand)
    (a b d : String) (main : FormState)
    (hmain : mainFormation 4 (by decide) allStudents c rand = main)
    (hrem : currentlyUngrouped 4 (by decide) allStudents c rand = [a, b, d]) :
    formFourPersonGroups allStudents c rand
      = if isValidGroup [a, b, d] c = true then
          finalUngrouped allStudents
            ⟨main.groups ++ [[a, b, d]], main.usedStudents.markAll [a, b, d], main.rand⟩
        else finalUngrouped allStudents main := by
  subst hmain
  unfold currentlyUngrouped mainFormation at hrem
  unfold formFourPersonGroups mainFormation
  simp only []
  rw [hrem]

/-- The closing loop after the unused students of the shuffled roster were all marked: nobody
is left over. -/
theorem filter_markAll_remaining {pool allStudents : List String} (hp : pool.Perm allStudents)
    (used : UsedSet) :
    allStudents.filter (fun s => !used.markAll (pool.filter (fun s => !used s)) s) = [] := by
  apply List.filter_eq_nil_iff.2
  intro s hs
  rw [markAll_apply]
  cases hu : used s with
  | true => simp
  | false => simp [hp.mem_iff.2 hs, hu]

/-- The outcome of a standalone remainder group: when the remaining students are jointly
valid they are appended as a group and nobody is left over, otherwise the groups of main
formation are returned and the remaining students are the leftover; no shuffle is made. -/
theorem standalone_outcome (allStudents : List String) (c : Constraints) (rand : Rand)
    (t : Nat) (hpos : 0 < t) (rem : List String) (res : Formation)
    (hrem : currentlyUngrouped t hpos allStudents c rand = rem)
    (hres : res = if isValidGroup rem c = true then
        finalUngrouped allStudents
          ⟨(mainFormation t hpos allStudents c rand).groups ++ [rem],
            (mainFormation t hpos allStudents c rand).usedStudents.markAll rem,
            (mainFormation t hpos allStudents c rand).rand⟩
      else finalUngrouped allStudents (mainFormation t hpos allStudents c rand)) :
    (isValidGroup rem c = true →
      res.groups = (mainFormation t hpos allStudents c rand).groups ++ [rem] ∧
      res.ungrouped = [] ∧
      res.rand = (mainFormation t hpos allStudents c rand).rand) ∧
    (isValidGroup rem c = false →
      res.groups = (mainFormation t hpos allStudents c rand).groups ∧
      res.ungrouped.Perm rem ∧
      res.rand = (mainFormation t hpos allStudents c rand).rand) ∧
    (res.groups = (mainFormation t hpos allStudents c rand).groups ++ [rem] ↔
      isValidGroup rem c = true) := by
  have hp := rand.next.perm allStudents
  have hvalid : isValidGroup rem c = true →
      res.groups = (mainFormation t hpos allStudents c rand).groups ++ [rem] ∧
      res.ungrouped = [] ∧
      res.rand = (mainFormation t hpos allStudents c rand).rand := by
    intro hv
    rw [hres, if_pos hv]
    refine ⟨rfl, ?_, rfl⟩
    rw [← hrem]
    exact filter_markAll_remaining hp _
  have hinvalid : isValidGroup rem c = false →
      res.groups = (mainFormation t hpos allStudents c rand).groups ∧
      res.ungrouped.Perm rem ∧
      res.rand = (mainFormation t hpos allStudents c rand).rand := by
    intro hv
    rw [hres, if_neg (by rw [hv]; exact Bool.false_ne_true)]
    refine ⟨rfl, ?_, rfl⟩
    rw [← hrem]
    exact hp.symm.filter _
  refine ⟨hvalid, hinvalid, ?_⟩
  constructor
  · intro hg
    cases hv : isValidGroup rem c with
    | true => rfl
    | false =>
      rw [(hinvalid hv).1] at hg
      have := congrArg List.length hg
      simp at this
  · intro hv
    exact (hvalid hv).1

/-- When main formation of `formThreePersonGroups` leaves nobody, its groups are returned. -/
theorem formThree_none_remaining (allStudents : List String) (c : Constraints) (rand : Rand)
    (hrem : currentlyUngrouped 3 (by decide) allStudents c rand = []) :
    formThreePersonGroups allStudents c rand
      = finalUngrouped allStudents (mainFormation 3 (by decide) allStudents c rand) := by
  unfold currentlyUngrouped mainFormation at hrem
  unfold formThreePersonGroups mainFormation
  simp only []
  rw [hrem]

/-- The leftover of a well-formed result for a duplicate-free roster is empty as soon as the
groups have as many members as the roster has students. -/
theorem ungrouped_nil_of_length {allStudents : List String} {c : Constraints} {r : Formation}
    (h : FormsWell allStudents c r) (hn : allStudents.Nodup)
    (hlen : r.groups.flatten.length = allStudents.length) : r.ungrouped = [] := by
  have hpart := (formsWell_perm h hn).length_eq
  rw [List.length_append, hlen] at hpart
  apply List.length_eq_zero.1
  omega

/-! ## The claims -/

/-- C1 (validity invariant): every group returned by `formTwoPersonGroups`,
`formThreePersonGroups` and `formFourPersonGroups` passes `isValidGroup`, for every roster,
every constraint map and every outcome of the shuffles. -/
theorem returned_groups_valid (allStudents : List String) (constraints : Constraints)
    (rand : Rand) :
    (∀ g ∈ (formTwoPersonGroups allStudents constraints rand).groups,
      isValidGroup g constraints = true) ∧
    (∀ g ∈ (formThreePersonGroups allStudents constraints rand).groups,
      isValidGroup g constraints = true) ∧
    (∀ g ∈ (formFourPersonGroups allStudents constraints rand).groups,
      isValidGroup g constraints = true) := by
  obtain ⟨_, h2, _⟩ := formTwoPersonGroups_formsWell allStudents constraints rand
  obtain ⟨_, h3, _⟩ := formThreePersonGroups_formsWell allStudents constraints rand
  obtain ⟨_, h4, _⟩ := formFourPersonGroups_formsWell allStudents constraints rand
  exact ⟨h2.valid, h3.valid, h4.valid⟩

/-- C2 (partition invariant): for a duplicate-free roster the members of the returned groups
followed by the returned leftover list are a permutation of the roster, so every student of
the roster occurs exactly once in them, for each of the three formation functions. -/
theorem groups_and_leftover_partition (allStudents : List String) (constraints : Constraints)
    (rand : Rand) (hnodup : allStudents.Nodup) :
    (((formTwoPersonGroups allStudents constraints rand).groups.flatten
        ++ (formTwoPersonGroups allStudents constraints rand).ungrouped).Perm allStudents ∧
      ∀ s ∈ allStudents, ((formTwoPersonGroups allStudents constraints rand).groups.flatten
        ++ (formTwoPersonGroups allStudents constraints rand).ungrouped).count s = 1) ∧
    (((formThreePersonGroups allStudents constraints rand).groups.flatten
        ++ (formThreePersonGroups allStudents constraints rand).ungrouped).Perm allStudents ∧
      ∀ s ∈ allStudents, ((formThreePersonGroups allStudents constraints rand).groups.flatten
        ++ (formThreePersonGroups allStudents constraints rand).ungrouped).count s = 1) ∧
    (((formFourPersonGroups allStudents constraints rand).groups.flatten
        ++ (formFourPersonGroups allStudents constraints rand).ungrouped).Perm allStudents ∧
      ∀ s ∈ allStudents, ((formFourPersonGroups allStudents constraints rand).groups.flatten
        ++ (formFourPersonGroups allStudents constraints rand).ungrouped).count s = 1) := by
  have h2 := formTwoPersonGroups_formsWell allStudents constraints rand
  have h3 := formThreePersonGroups_formsWell allStudents constraints rand
  have h4 := formFourPersonGroups_formsWell allStudents constraints rand
  exact ⟨⟨formsWell_perm h2 hnodup, formsWell_count h2 hnodup⟩,
    ⟨formsWell_perm h3 hnodup, formsWell_count h3 hnodup⟩,
    ⟨formsWell_perm h4 hnodup, formsWell_count h4 hnodup⟩⟩

/-- The partition invariant at the roster `A, B, C, D, E` with `A` and `B` forbidden to each
other and the first shuffle reversing the roster. -/
theorem groups_and_leftover_partition_witness :
    ["A", "B", "C", "D", "E"].Nodup ∧
    ((formFourPersonGroups ["A", "B", "C", "D", "E"] [("A", ["B"]), ("B", ["A"])]
        (Rand.ofList [Shuffle.reverse])).groups.flatten
      ++ (formFourPersonGroups ["A", "B", "C", "D", "E"] [("A", ["B"]), ("B", ["A"])]
        (Rand.ofList [Shuffle.reverse])).ungrouped).Perm ["A", "B", "C", "D", "E"] :=
  ⟨by decide, (groups_and_leftover_partition ["A", "B", "C", "D", "E"]
    [("A", ["B"]), ("B", ["A"])] (Rand.ofList [Shuffle.reverse]) (by decide)).2.2.1⟩

/-- C3 (group validity): `isValidGroup` returns `true` exactly when no two different positions
`i`, `j` of the group have `group[j]` in the forbidden list `constraints[group[i]]`; a
constraint that only `a` declares against `b` (`b` is no key of the map) makes every group
holding both invalid; and a group of one person is valid whatever that person declares, since
a position is never paired with itself. -/
theorem isValidGroup_iff_no_forbidden_pair (group : List String) (constraints : Constraints) :
    (isValidGroup group constraints = true ↔
      ∀ (i j : Nat) (hi : i < group.length) (hj : j < group.length), i ≠ j →
        group[j] ∉ constraints.forbidden group[i]) ∧
    (∀ a b : String, b ∈ constraints.forbidden a → constraints.get b = none →
      a ∈ group → b ∈ group → isValidGroup group constraints = false) ∧
    (∀ a : String, isValidGroup [a] constraints = true) := by
  refine ⟨?_, ?_, ?_⟩
  · rw [isValidGroup_eq_true_iff]
    constructor
    · intro h i j hi hj hij
      exact h i j group[i] group[j] hij (List.getElem?_eq_getElem hi)
        (List.getElem?_eq_getElem hj)
    · intro h i j a b hij hi hj
      obtain ⟨hi1, hi2⟩ := List.getElem?_eq_some_iff.1 hi
      obtain ⟨hj1, hj2⟩ := List.getElem?_eq_some_iff.1 hj
      rw [← hi2, ← hj2]
      exact h i j hi1 hj1 hij
  · intro a b hb hnone ha hbg
    rw [isValidGroup_eq_false_iff]
    obtain ⟨i, hi⟩ := List.mem_iff_getElem?.1 ha
    obtain ⟨j, hj⟩ := List.mem_iff_getElem?.1 hbg
    refine ⟨i, j, a, b, ?_, hi, hj, hb⟩
    intro hij
    rw [hij, hj] at hi
    have hab : b = a := Option.some.inj hi
    rw [hab] at hnone
    obtain ⟨la, hla, _⟩ := (mem_forbidden_iff constraints a b).1 hb
    rw [hnone] at hla
    exact Option.noConfusion hla
  · intro a
    rw [isValidGroup_eq_true_iff]
    intro i j x y hij hi hj
    have hi0 : i = 0 := by
      have := (List.getElem?_eq_some_iff.1 hi).1
      simpa using this
    have hj0 : j = 0 := by
      have := (List.getElem?_eq_some_iff.1 hj).1
      simpa using this
    exact absurd (hi0.trans hj0.symm) hij

/-- The one-directed constraint `A` forbids `B` at the group `B, A`, and `A` forbidding itself
at the group `A`. -/
theorem isValidGroup_iff_no_forbidden_pair_witness :
    isValidGroup ["B", "A"] [("A", ["B"])] = false ∧
    isValidGroup ["A"] [("A", ["A"])] = true :=
  ⟨(isValidGroup_iff_no_forbidden_pair ["B", "A"] [("A", ["B"])]).2.1 "A" "B"
      (by decide) (by decide) (by decide) (by decide),
    (isValidGroup_iff_no_forbidden_pair ["A"] [("A", ["A"])]).2.2 "A"⟩

/-- C4 (symmetry round-trip): for a symmetric constraint relation the validator records no
finding and `checkSymmetricConstraints` returns `nil`. -/
theorem checkSymmetricConstraints_of_symmetric (constraints : Constraints)
    (hwf : WellFormed constraints) (hsym : SymmetricConstraints constraints) :
    asymmetricIssues constraints = [] ∧ checkSymmetricConstraints constraints = none := by
  have hnil : asymmetricIssues constraints = [] := by
    rw [asymmetricIssues_eq_nil_iff constraints hwf]
    intro a b hb
    obtain ⟨la, hla, hbla⟩ := (mem_forbidden_iff constraints a b).1 hb
    exact (mem_forbidden_iff constraints b a).2 (hsym a la hla b hbla)
  exact ⟨hnil, (checkSymmetricConstraints_eq_none_iff constraints).2 hnil⟩

/-- The symmetry round-trip at the relation in which `A` and `B` forbid each other. -/
theorem checkSymmetricConstraints_of_symmetric_witness :
    WellFormed [("A", ["B"]), ("B", ["A"])] ∧
    SymmetricConstraints [("A", ["B"]), ("B", ["A"])] ∧
    checkSymmetricConstraints [("A", ["B"]), ("B", ["A"])] = none := by
  have hwf : WellFormed [("A", ["B"]), ("B", ["A"])] := by decide
  have hsym : SymmetricConstraints [("A", ["B"]), ("B", ["A"])] := by
    intro a la hla b hb
    have hmem := mem_of_get hla
    simp only [List.mem_cons, Prod.mk.injEq, List.mem_singleton, List.not_mem_nil,
      or_false] at hmem
    rcases hmem with ⟨rfl, rfl⟩ | ⟨rfl, rfl⟩
    · rw [List.mem_singleton] at hb
      subst hb
      exact ⟨["A"], by decide, by decide⟩
    · rw [List.mem_singleton] at hb
      subst hb
      exact ⟨["B"], by decide, by decide⟩
  exact ⟨hwf, hsym, (checkSymmetricConstraints_of_symmetric _ hwf hsym).2⟩

/-- C5 (findings of the validator): for every `a` and `b` the validator records the finding
"`b` has no constraints" once for each occurrence of `b` in `constraints[a]` when `b` is no
key of the map and never otherwise, and the finding "`b` does not forbid `a`" once for each
occurrence of `b` in `constraints[a]` when `b` is a key whose list does not hold `a` and never
otherwise; so the result is not `nil` exactly when some declared pair lacks its reverse. -/
theorem asymmetricIssues_exact (constraints : Constraints) (hwf : WellFormed constraints) :
    (∀ a b : String, (asymmetricIssues constraints).count (Asymmetry.noConstraints a b)
      = if constraints.get b = none then (constraints.forbidden a).count b else 0) ∧
    (∀ a b : String, (asymmetricIssues constraints).count (Asymmetry.notForbidden a b)
      = if constraints.get b ≠ none ∧ a ∉ constraints.forbidden b
        then (constraints.forbidden a).count b else 0) ∧
    (checkSymmetricConstraints constraints ≠ none ↔
      ∃ a b : String, b ∈ constraints.forbidden a ∧ a ∉ constraints.forbidden b) := by
  refine ⟨?_, ?_, ?_⟩
  · intro a b
    exact count_entries constraints _ a b _
      (fun a2 b2 => count_noConstraints_issuesAt constraints a b a2 b2) constraints hwf
  · intro a b
    exact count_entries constraints _ a b _
      (fun a2 b2 => count_notForbidden_issuesAt constraints a b a2 b2) constraints hwf
  · rw [ne_eq, checkSymmetricConstraints_eq_none_iff, asymmetricIssues_eq_nil_iff _ hwf]
    push_neg
    rfl

/-- The findings for the relation in which `A` forbids `C` and `B`, and only `B` forbids `A`
back: one finding, that `C` has no constraints. -/
theorem asymmetricIssues_exact_witness :
    WellFormed [("A", ["C", "B"]), ("B", ["A"])] ∧
    (asymmetricIssues [("A", ["C", "B"]), ("B", ["A"])]).count
      (Asymmetry.noConstraints "A" "C") = 1 ∧
    (asymmetricIssues [("A", ["C", "B"]), ("B", ["A"])]).count
      (Asymmetry.notForbidden "A" "B") = 0 :=
  ⟨by decide,
    ((asymmetricIssues_exact [("A", ["C", "B"]), ("B", ["A"])] (by decide)).1 "A" "C").trans
      (by decide),
    ((asymmetricIssues_exact [("A", ["C", "B"]), ("B", ["A"])] (by decide)).2.1 "A" "B").trans
      (by decide)⟩

/-- C6 (leftover in roster order): the leftover list returned by each of the three formation
functions is the roster with the members of the returned groups filtered out, hence a
sublist of the unshuffled roster, whatever the shuffles were. -/
theorem leftover_in_roster_order (allStudents : List String) (constraints : Constraints)
    (rand : Rand) :
    ((formTwoPersonGroups allStudents constraints rand).ungrouped
        = allStudents.filter (fun s =>
          !decide (s ∈ (formTwoPersonGroups allStudents constraints rand).groups.flatten)) ∧
      ((formTwoPersonGroups allStudents constraints rand).ungrouped).Sublist allStudents) ∧
    ((formThreePersonGroups allStudents constraints rand).ungrouped
        = allStudents.filter (fun s =>
          !decide (s ∈ (formThreePersonGroups allStudents constraints rand).groups.flatten)) ∧
      ((formThreePersonGroups allStudents constraints rand).ungrouped).Sublist allStudents) ∧
    ((formFourPersonGroups allStudents constraints rand).ungrouped
        = allStudents.filter (fun s =>
          !decide (s ∈ (formFourPersonGroups allStudents constraints rand).groups.flatten)) ∧
      ((formFourPersonGroups allStudents constraints rand).ungrouped).Sublist allStudents) := by
  have h2 := formsWell_ungrouped (formTwoPersonGroups_formsWell allStudents constraints rand)
  have h3 := formsWell_ungrouped (formThreePersonGroups_formsWell allStudents constraints rand)
  have h4 := formsWell_ungrouped (formFourPersonGroups_formsWell allStudents constraints rand)
  refine ⟨⟨h2, ?_⟩, ⟨h3, ?_⟩, ⟨h4, ?_⟩⟩
  · rw [h2]; exact List.filter_sublist _
  · rw [h3]; exact List.filter_sublist _
  · rw [h4]; exact List.filter_sublist _

/-- C7 (scenario A, generalised): without constraints, `formTwoPersonGroups` splits a
duplicate-free roster of even size into `n / 2` groups of two and leaves nobody over, whatever
the shuffles are. -/
theorem even_roster_all_pairs (allStudents : List String) (constraints : Constraints)
    (rand : Rand) (hnodup : allStudents.Nodup) (hempty : NoConstraints constraints)
    (heven : allStudents.length % 2 = 0) :
    (formTwoPersonGroups allStudents constraints rand).groups.length
      = allStudents.length / 2 ∧
    (∀ g ∈ (formTwoPersonGroups allStudents constraints rand).groups, g.length = 2) ∧
    (formTwoPersonGroups allStudents constraints rand).ungrouped = [] := by
  have hp := rand.next.perm allStudents
  have hn : (rand.next.apply allStudents).Nodup := hp.nodup_iff.2 hnodup
  obtain ⟨hgood, hsizes, hcount, hrest⟩ := main_formation_no_constraints 2 (by decide)
    (rand.next.apply allStudents) constraints rand.advance hn hempty
  rw [hp.length_eq] at hcount hrest
  rw [heven] at hrest
  have hnil := List.length_eq_zero.1 hrest
  have hres : formTwoPersonGroups allStudents constraints rand = finalUngrouped allStudents
      (attemptLoop 2 (by decide) (rand.next.apply allStudents) constraints [] UsedSet.empty
        rand.advance) := by
    unfold formTwoPersonGroups attemptToFormGroupsOfSize
    simp only []
    rw [hnil]
  rw [hres]
  refine ⟨hcount, hsizes, ?_⟩
  apply List.length_eq_zero.1
  show (allStudents.filter _).length = 0
  rw [← filter_length_of_perm hp, hrest]

/-- Scenario A: the roster `A, B, C, D` without constraints gives two groups of two and no
leftover. -/
theorem even_roster_all_pairs_witness :
    (formTwoPersonGroups ["A", "B", "C", "D"] [] (Rand.ofList [])).groups.length = 2 ∧
    (∀ g ∈ (formTwoPersonGroups ["A", "B", "C", "D"] [] (Rand.ofList [])).groups,
      g.length = 2) ∧
    (formTwoPersonGroups ["A", "B", "C", "D"] [] (Rand.ofList [])).ungrouped = [] :=
  even_roster_all_pairs ["A", "B", "C", "D"] [] (Rand.ofList []) (by decide)
    (fun _ => rfl) (by decide)

/-- C8 (scenario C, generalised): without constraints and for a duplicate-free roster of odd
size `n ≥ 3`, the main formation of `formTwoPersonGroups` forms `(n - 1) / 2` pairs and leaves
one student, who is then folded into one pair: the function returns `(n - 3) / 2` groups of
two, exactly one group of three and no leftover, whatever the shuffles are. -/
theorem odd_roster_one_triple (allStudents : List String) (constraints : Constraints)
    (rand : Rand) (hnodup : allStudents.Nodup) (hempty : NoConstraints constraints)
    (hodd : allStudents.length % 2 = 1) (hthree : 3 ≤ allStudents.length) :
    ((attemptToFormGroupsOfSize 2 (by decide) (rand.next.apply allStudents) UsedSet.empty []
        constraints rand.advance).groups.length = (allStudents.length - 1) / 2 ∧
      ((rand.next.apply allStudents).filter (fun s =>
        !(attemptToFormGroupsOfSize 2 (by decide) (rand.next.apply allStudents) UsedSet.empty
          [] constraints rand.advance).usedStudents s)).length = 1 ∧
      (∀ g ∈ (attemptToFormGroupsOfSize 2 (by decide) (rand.next.apply allStudents)
        UsedSet.empty [] constraints rand.advance).groups, g.length = 2) ∧
      ∃ (idx : Nat) (group : List String) (x : String),
        (attemptToFormGroupsOfSize 2 (by decide) (rand.next.apply allStudents) UsedSet.empty
          [] constraints rand.advance).groups[idx]? = some group ∧
        (rand.next.apply allStudents).filter (fun s =>
          !(attemptToFormGroupsOfSize 2 (by decide) (rand.next.apply allStudents)
            UsedSet.empty [] constraints rand.advance).usedStudents s) = [x] ∧
        (formTwoPersonGroups allStudents constraints rand).groups
          = (attemptToFormGroupsOfSize 2 (by decide) (rand.next.apply allStudents)
            UsedSet.empty [] constraints rand.advance).groups.set idx (group ++ [x])) ∧
    (formTwoPersonGroups allStudents constraints rand).groups.length
      = (allStudents.length - 1) / 2 ∧
    (formTwoPersonGroups allStudents constraints rand).groups.countP (fun g => g.length = 2)
      = (allStudents.length - 3) / 2 ∧
    (formTwoPersonGroups allStudents constraints rand).groups.countP (fun g => g.length = 3)
      = 1 ∧
    (formTwoPersonGroups allStudents constraints rand).ungrouped = [] := by
  have hp := rand.next.perm allStudents
  have hn : (rand.next.apply allStudents).Nodup := hp.nodup_iff.2 hnodup
  obtain ⟨hgood, hsizes, hcount, hrest⟩ :=
    main_formation_no_constraints 2 (by decide) (rand.next.apply allStudents) constraints
      rand.advance hn hempty
  rw [hp.length_eq] at hcount hrest
  rw [hodd] at hrest
  obtain ⟨x, hx⟩ := List.length_eq_one.1 hrest
  have hne : (attemptLoop 2 (by decide) (rand.next.apply allStudents) constraints []
      UsedSet.empty rand.advance).groups ≠ [] := by
    intro h
    rw [h] at hcount
    simp only [List.length_nil] at hcount
    omega
  obtain ⟨idx, group, hidx, htry⟩ := tryIntegrate_success x 2 3 _
    (attemptLoop 2 (by decide) (rand.next.apply allStudents) constraints [] UsedSet.empty
      rand.advance).usedStudents constraints
    (attemptLoop 2 (by decide) (rand.next.apply allStudents) constraints [] UsedSet.empty
      rand.advance).rand hne hsizes
    (isValidGroup_of_noConstraints hempty)
  have hres : (formTwoPersonGroups allStudents constraints rand).groups
      = (attemptLoop 2 (by decide) (rand.next.apply allStudents) constraints [] UsedSet.empty
        rand.advance).groups.set idx (group ++ [x]) := by
    unfold formTwoPersonGroups attemptToFormGroupsOfSize
    simp only []
    rw [hx]
    simp only []
    rw [htry]
    rfl
  obtain ⟨hl, h2, h3⟩ := sizes_after_fold _ 2 idx group x hidx hsizes
  have hflat := (flatten_set_perm _ idx group x hidx).length_eq
  rw [List.length_cons, length_flatten_of_forall_length hsizes, hcount] at hflat
  have hpart := (formsWell_perm (formTwoPersonGroups_formsWell allStudents constraints rand)
    hnodup).length_eq
  rw [List.length_append, hres, hflat] at hpart
  refine ⟨⟨?_, hrest, hsizes, idx, group, x, hidx, hx, hres⟩, ?_, ?_, ?_, ?_⟩
  · show (attemptLoop 2 _ _ _ _ _ _).groups.length = _
    rw [hcount]; omega
  · rw [hres, hl, hcount]; omega
  · rw [hres, h2, hcount]; omega
  · rw [hres]; exact h3
  · apply List.length_eq_zero.1
    omega

/-- Scenario C: eleven students without constraints give four pairs and one group of three,
nobody left over. -/
theorem odd_roster_one_triple_witness :
    (formTwoPersonGroups ["a", "b", "c", "d", "e", "f", "g", "h", "i", "j", "k"] []
      (Rand.ofList [Shuffle.reverse, Shuffle.rotate])).groups.countP (fun g => g.length = 2)
        = 4 ∧
    (formTwoPersonGroups ["a", "b", "c", "d", "e", "f", "g", "h", "i", "j", "k"] []
      (Rand.ofList [Shuffle.reverse, Shuffle.rotate])).groups.countP (fun g => g.length = 3)
        = 1 ∧
    (formTwoPersonGroups ["a", "b", "c", "d", "e", "f", "g", "h", "i", "j", "k"] []
      (Rand.ofList [Shuffle.reverse, Shuffle.rotate])).ungrouped = [] :=
  ⟨(odd_roster_one_triple ["a", "b", "c", "d", "e", "f", "g", "h", "i", "j", "k"]
      [] (Rand.ofList [Shuffle.reverse, Shuffle.rotate]) (by decide) (fun _ => rfl)
      (by decide) (by decide)).2.2.1,
    (odd_roster_one_triple ["a", "b", "c", "d", "e", "f", "g", "h", "i", "j", "k"]
      [] (Rand.ofList [Shuffle.reverse, Shuffle.rotate]) (by decide) (fun _ => rfl)
      (by decide) (by decide)).2.2.2.1,
    (odd_roster_one_triple ["a", "b", "c", "d", "e", "f", "g", "h", "i", "j", "k"]
      [] (Rand.ofList [Shuffle.reverse, Shuffle.rotate]) (by decide) (fun _ => rfl)
      (by decide) (by decide)).2.2.2.2⟩

/-- C9 (scenario D, generalised): when every two different students of a duplicate-free
roster are forbidden to each other, each of the three formation functions returns no group
and the whole roster as leftover, whatever the shuffles are. -/
theorem all_forbidden_no_groups (allStudents : List String) (constraints : Constraints)
    (rand : Rand) (hnodup : allStudents.Nodup)
    (hforb : AllForbidden allStudents constraints) :
    ((formTwoPersonGroups allStudents constraints rand).groups = [] ∧
      (formTwoPersonGroups allStudents constraints rand).ungrouped = allStudents) ∧
    ((formThreePersonGroups allStudents constraints rand).groups = [] ∧
      (formThreePersonGroups allStudents constraints rand).ungrouped = allStudents) ∧
    ((formFourPersonGroups allStudents constraints rand).groups = [] ∧
      (formFourPersonGroups allStudents constraints rand).ungrouped = allStudents) := by
  have hp := rand.next.perm allStudents
  have hn : (rand.next.apply allStudents).Nodup := hp.nodup_iff.2 hnodup
  have hf := allForbidden_of_perm hforb hp
  have hinv : ∀ g : List String, rand.next.apply allStudents = g → 2 ≤ g.length →
      isValidGroup g constraints = false := by
    intro g hg hlen
    exact isValidGroup_false_of_allForbidden hf g (hg ▸ hn) hlen (fun s hs => hg ▸ hs)
  refine ⟨?_, ?_, ?_⟩
  · obtain ⟨r2, hmain⟩ := main_formation_allForbidden 2 (by decide) (by decide) _ constraints
      rand.advance hn hf
    unfold formTwoPersonGroups attemptToFormGroupsOfSize
    simp only []
    rw [hmain]
    simp only [filter_empty_used]
    split
    · rw [tryIntegrate_nil]
      exact finalUngrouped_empty _ _
    · exact finalUngrouped_empty _ _
  · obtain ⟨r2, hmain⟩ := main_formation_allForbidden 3 (by decide) (by decide) _ constraints
      rand.advance hn hf
    unfold formThreePersonGroups attemptToFormGroupsOfSize
    simp only []
    rw [hmain]
    simp only [filter_empty_used]
    split
    · rw [tryIntegrate_nil]
      exact finalUngrouped_empty _ _
    · rename_i a b heq
      rw [hinv _ rfl (by rw [heq]; simp)]
      exact finalUngrouped_empty _ _
    · exact finalUngrouped_empty _ _
  · obtain ⟨r2, hmain⟩ := main_formation_allForbidden 4 (by decide) (by decide) _ constraints
      rand.advance hn hf
    unfold formFourPersonGroups attemptToFormGroupsOfSize
    simp only []
    rw [hmain]
    simp only [filter_empty_used]
    split
    · rw [tryIntegrate_nil]
      exact finalUngrouped_empty _ _
    · rw [tryIntegrate_nil]
      exact finalUngrouped_empty _ _
    · rename_i a b d heq
      rw [hinv _ rfl (by rw [heq]; simp)]
      exact finalUngrouped_empty _ _
    · exact finalUngrouped_empty _ _

/-- Scenario D: `A` and `B` forbid each other; no group is formed and both are left over. -/
theorem all_forbidden_no_groups_witness :
    ["A", "B"].Nodup ∧
    (formTwoPersonGroups ["A", "B"] [("A", ["B"]), ("B", ["A"])] (Rand.ofList [])).groups = [] ∧
    (formTwoPersonGroups ["A", "B"] [("A", ["B"]), ("B", ["A"])] (Rand.ofList [])).ungrouped
      = ["A", "B"] :=
  ⟨by decide,
    (all_forbidden_no_groups ["A", "B"] [("A", ["B"]), ("B", ["A"])] (Rand.ofList [])
      (by decide) (by unfold AllForbidden; decide)).1⟩

/-- C10 (scenario B): for the roster `a, b, c` of three different students in which `a` and
`b` forbid each other, no group returned by `formTwoPersonGroups` holds both `a` and `b`,
whatever the shuffles are; and there are shuffles for which the result is the one pair of `c`
and `a` with `b` the only leftover, and shuffles for which it is the one pair of `c` and `b`
with `a` the only leftover. -/
theorem scenario_forbidden_pair (a b c : String) (hab : a ≠ b) (hac : a ≠ c) (hbc : b ≠ c) :
    (∀ rand : Rand, ∀ g ∈ (formTwoPersonGroups [a, b, c] [(a, [b]), (b, [a])] rand).groups,
      ¬(a ∈ g ∧ b ∈ g)) ∧
    (∃ rand : Rand,
      (formTwoPersonGroups [a, b, c] [(a, [b]), (b, [a])] rand).groups = [[c, a]] ∧
      (formTwoPersonGroups [a, b, c] [(a, [b]), (b, [a])] rand).ungrouped = [b]) ∧
    (∃ rand : Rand,
      (formTwoPersonGroups [a, b, c] [(a, [b]), (b, [a])] rand).groups = [[c, b]] ∧
      (formTwoPersonGroups [a, b, c] [(a, [b]), (b, [a])] rand).ungrouped = [a]) := by
  have hba : b ≠ a := fun e => hab e.symm
  have hca : c ≠ a := fun e => hac e.symm
  have hcb : c ≠ b := fun e => hbc e.symm
  have e1 : (a == b) = false := by simpa using hab
  have e2 : (a == c) = false := by simpa using hac
  have e3 : (b == c) = false := by simpa using hbc
  have e4 : (b == a) = false := by simpa using hba
  have e5 : (c == a) = false := by simpa using hca
  have e6 : (c == b) = false := by simpa using hcb
  refine ⟨?_, ?_, ?_⟩
  · intro rand g hg hmem
    obtain ⟨_, hgood, _⟩ := formTwoPersonGroups_formsWell [a, b, c] [(a, [b]), (b, [a])] rand
    have hv := hgood.valid g hg
    have hf : b ∈ Constraints.forbidden [(a, [b]), (b, [a])] a := by
      simp [Constraints.forbidden, Constraints.get, List.lookup]
    rw [isValidGroup_false_of_mem hmem.1 hmem.2 hab hf] at hv
    exact Bool.noConfusion hv
  · refine ⟨Rand.ofList [Shuffle.rotate, Shuffle.rotate], ?_, ?_⟩ <;>
    simp [formTwoPersonGroups, attemptToFormGroupsOfSize, attemptLoop,
      tryIntegrateIntoExistingGroup, integrateLoop, finalUngrouped, isValidGroup,
      UsedSet.empty, UsedSet.markAll, UsedSet.mark, Rand.next, Rand.ofList, Rand.advance,
      Shuffle.identity, Shuffle.rotate, conflictFrom, conflictAt, occursIn, Constraints.get,
      List.lookup, List.enum, List.enumFrom, List.rotate, hab, hac, hbc, hba, hca, hcb, e1, e2,
      e3, e4, e5, e6]
  · refine ⟨Rand.ofList [Shuffle.reverse], ?_, ?_⟩ <;>
    simp [formTwoPersonGroups, attemptToFormGroupsOfSize, attemptLoop,
      tryIntegrateIntoExistingGroup, integrateLoop, finalUngrouped, isValidGroup,
      UsedSet.empty, UsedSet.markAll, UsedSet.mark, Rand.next, Rand.ofList, Rand.advance,
      Shuffle.identity, Shuffle.reverse, conflictFrom, conflictAt, occursIn, Constraints.get,
      List.lookup, List.enum, List.enumFrom, hab, hac, hbc, hba, hca, hcb, e1, e2, e3, e4,
      e5, e6]

/-- Scenario B with the names `A`, `B`, `C`: some shuffles give the one pair of `C` and `A`
and leave `B` over. -/
theorem scenario_forbidden_pair_witness :
    ∃ rand : Rand,
      (formTwoPersonGroups ["A", "B", "C"] [("A", ["B"]), ("B", ["A"])] rand).groups
        = [["C", "A"]] ∧
      (formTwoPersonGroups ["A", "B", "C"] [("A", ["B"]), ("B", ["A"])] rand).ungrouped
        = ["B"] :=
  (scenario_forbidden_pair "A" "B" "C" (by decide) (by decide) (by decide)).2.1

/-- C11 as amended (roster smaller than the target size): main formation forms no group, and
the formation function returns no groups and the whole roster as leftover, except that
`formThreePersonGroups` on exactly two students who are jointly valid and
`formFourPersonGroups` on exactly three students who are jointly valid return these students,
in shuffled order, as one standalone group and leave nobody over. -/
theorem small_roster_result (allStudents : List String) (constraints : Constraints)
    (rand : Rand) :
    (allStudents.length < 2 →
      (formTwoPersonGroups allStudents constraints rand).groups = [] ∧
      (formTwoPersonGroups allStudents constraints rand).ungrouped = allStudents) ∧
    (allStudents.length < 3 →
      (attemptToFormGroupsOfSize 3 (by decide) (rand.next.apply allStudents) UsedSet.empty []
        constraints rand.advance).groups = [] ∧
      ((allStudents.length = 2 ∧
          isValidGroup (rand.next.apply allStudents) constraints = true) →
        (formThreePersonGroups allStudents constraints rand).groups
          = [rand.next.apply allStudents] ∧
        (formThreePersonGroups allStudents constraints rand).ungrouped = []) ∧
      (¬(allStudents.length = 2 ∧
          isValidGroup (rand.next.apply allStudents) constraints = true) →
        (formThreePersonGroups allStudents constraints rand).groups = [] ∧
        (formThreePersonGroups allStudents constraints rand).ungrouped = allStudents)) ∧
    (allStudents.length < 4 →
      (attemptToFormGroupsOfSize 4 (by decide) (rand.next.apply allStudents) UsedSet.empty []
        constraints rand.advance).groups = [] ∧
      ((allStudents.length = 3 ∧
          isValidGroup (rand.next.apply allStudents) constraints = true) →
        (formFourPersonGroups allStudents constraints rand).groups
          = [rand.next.apply allStudents] ∧
        (formFourPersonGroups allStudents constraints rand).ungrouped = []) ∧
      (¬(allStudents.length = 3 ∧
          isValidGroup (rand.next.apply allStudents) constraints = true) →
        (formFourPersonGroups allStudents constraints rand).groups = [] ∧
        (formFourPersonGroups allStudents constraints rand).ungrouped = allStudents)) := by
  have hp := rand.next.perm allStudents
  have hlen := hp.length_eq
  refine ⟨?_, ?_, ?_⟩
  · intro h
    have hmain := main_formation_small 2 (by decide) (rand.next.apply allStudents) constraints
      rand.advance (by omega)
    unfold formTwoPersonGroups attemptToFormGroupsOfSize
    simp only []
    rw [hmain]
    simp only [filter_empty_used]
    split
    · rw [tryIntegrate_nil]
      exact finalUngrouped_empty _ _
    · exact finalUngrouped_empty _ _
  · intro h
    have hmain := main_formation_small 3 (by decide) (rand.next.apply allStudents) constraints
      rand.advance (by omega)
    refine ⟨by unfold attemptToFormGroupsOfSize; rw [hmain], ?_, ?_⟩
    · rintro ⟨h2, hv⟩
      obtain ⟨a, b, hab⟩ := List.length_eq_two.1 (hlen.trans h2)
      unfold formThreePersonGroups attemptToFormGroupsOfSize
      simp only []
      rw [hmain]
      simp only [filter_empty_used]
      rw [hab] at hv ⊢
      simp only []
      rw [if_pos hv]
      refine ⟨rfl, ?_⟩
      show allStudents.filter _ = []
      exact filter_markAll_of_perm (hab ▸ hp) _
    · intro hnot
      unfold formThreePersonGroups attemptToFormGroupsOfSize
      simp only []
      rw [hmain]
      simp only [filter_empty_used]
      split
      · rw [tryIntegrate_nil]
        exact finalUngrouped_empty _ _
      · rename_i a b heq
        have hv : ¬ isValidGroup (rand.next.apply allStudents) constraints = true :=
          fun hv => hnot ⟨by rw [← hlen, heq]; rfl, hv⟩
        rw [if_neg hv]
        exact finalUngrouped_empty _ _
      · exact finalUngrouped_empty _ _
  · intro h
    have hmain := main_formation_small 4 (by decide) (rand.next.apply allStudents) constraints
      rand.advance (by omega)
    refine ⟨by unfold attemptToFormGroupsOfSize; rw [hmain], ?_, ?_⟩
    · rintro ⟨h3, hv⟩
      obtain ⟨a, b, d, hab⟩ := List.length_eq_three.1 (hlen.trans h3)
      unfold formFourPersonGroups attemptToFormGroupsOfSize
      simp only []
      rw [hmain]
      simp only [filter_empty_used]
      rw [hab] at hv ⊢
      simp only []
      rw [if_pos hv]
      refine ⟨rfl, ?_⟩
      show allStudents.filter _ = []
      exact filter_markAll_of_perm (hab ▸ hp) _
    · intro hnot
      unfold formFourPersonGroups attemptToFormGroupsOfSize
      simp only []
      rw [hmain]
      simp only [filter_empty_used]
      split
      · rw [tryIntegrate_nil]
        exact finalUngrouped_empty _ _
      · rw [tryIntegrate_nil]
        exact finalUngrouped_empty _ _
      · rename_i a b d heq
        have hv : ¬ isValidGroup (rand.next.apply allStudents) constraints = true :=
          fun hv => hnot ⟨by rw [← hlen, heq]; rfl, hv⟩
        rw [if_neg hv]
        exact finalUngrouped_empty _ _
      · exact finalUngrouped_empty _ _

/-- C11 as stated fails: the duplicate-free roster `A, B` is smaller than the target size 3,
yet `formThreePersonGroups` without constraints returns the group `A, B` and no leftover. -/
theorem small_roster_counterexample :
    ["A", "B"].Nodup ∧ ["A", "B"].length < 3 ∧
    (formThreePersonGroups ["A", "B"] [] (Rand.ofList [])).groups = [["A", "B"]] ∧
    (formThreePersonGroups ["A", "B"] [] (Rand.ofList [])).ungrouped = [] := by
  refine ⟨by decide, by decide, ?_, ?_⟩ <;>
  simp [formThreePersonGroups, attemptToFormGroupsOfSize, attemptLoop,
    tryIntegrateIntoExistingGroup, integrateLoop, finalUngrouped, isValidGroup,
    UsedSet.empty, UsedSet.markAll, UsedSet.mark, Rand.next, Rand.ofList, Rand.advance,
    Shuffle.identity, conflictFrom, conflictAt, occursIn, Constraints.get, List.lookup,
    List.enum, List.enumFrom]

/-- The amended C11 at the roster `A, B, C` for target size 4, without constraints and with
identity shuffles: the three students are returned as one group. -/
theorem small_roster_result_witness :
    (formFourPersonGroups ["A", "B", "C"] [] (Rand.ofList [])).groups = [["A", "B", "C"]] ∧
    (formFourPersonGroups ["A", "B", "C"] [] (Rand.ofList [])).ungrouped = [] :=
  ((small_roster_result ["A", "B", "C"] [] (Rand.ofList [])).2.2 (by decide)).2.1
    ⟨by decide, by decide⟩

/-- C12 (empty roster): for the empty roster each of the three formation functions returns no
groups and no leftover, whatever the constraints and the shuffles are. -/
theorem empty_roster_empty_result (constraints : Constraints) (rand : Rand) :
    ((formTwoPersonGroups [] constraints rand).groups = [] ∧
      (formTwoPersonGroups [] constraints rand).ungrouped = []) ∧
    ((formThreePersonGroups [] constraints rand).groups = [] ∧
      (formThreePersonGroups [] constraints rand).ungrouped = []) ∧
    ((formFourPersonGroups [] constraints rand).groups = [] ∧
      (formFourPersonGroups [] constraints rand).ungrouped = []) := by
  have hnil : rand.next.apply ([] : List String) = [] := List.perm_nil.1 (rand.next.perm _)
  refine ⟨?_, ?_, ?_⟩
  · unfold formTwoPersonGroups attemptToFormGroupsOfSize
    simp only []
    rw [hnil, main_formation_small 2 (by decide) [] constraints _ (by decide)]
    exact ⟨rfl, rfl⟩
  · unfold formThreePersonGroups attemptToFormGroupsOfSize
    simp only []
    rw [hnil, main_formation_small 3 (by decide) [] constraints _ (by decide)]
    exact ⟨rfl, rfl⟩
  · unfold formFourPersonGroups attemptToFormGroupsOfSize
    simp only []
    rw [hnil, main_formation_small 4 (by decide) [] constraints _ (by decide)]
    exact ⟨rfl, rfl⟩

/-- C13 (scenario E): `isValidGroup` gives a result for every group and every map, a missing
key being read as the empty list; a map that differs from `constraints` only by holding the
entry `p -> []` for a `p` that `constraints` does not hold gives the same result, in
particular the map with that entry put in front; a constraint that another student declares
against a missing `p` still makes a group holding both invalid, with or without the entry; a
group none of whose members is a key is valid; and with the empty map every group is valid. -/
theorem isValidGroup_absent_key (group : List String) (constraints : Constraints) :
    (isValidGroup group constraints = true ∨ isValidGroup group constraints = false) ∧
    (∀ p : String, constraints.get p = none → constraints.forbidden p = []) ∧
    (∀ (c2 : Constraints) (p : String), constraints.get p = none → c2.get p = some [] →
      (∀ k, k ≠ p → c2.get k = constraints.get k) →
      isValidGroup group c2 = isValidGroup group constraints) ∧
    (∀ p : String, constraints.get p = none →
      isValidGroup group ((p, []) :: constraints) = isValidGroup group constraints) ∧
    (∀ a p : String, constraints.get p = none → p ∈ constraints.forbidden a →
      a ∈ group → p ∈ group →
      isValidGroup group constraints = false ∧
      isValidGroup group ((p, []) :: constraints) = false) ∧
    ((∀ s ∈ group, constraints.get s = none) → isValidGroup group constraints = true) ∧
    isValidGroup group [] = true := by
  have hsame : ∀ (c2 : Constraints) (p : String), constraints.get p = none →
      c2.get p = some [] → (∀ k, k ≠ p → c2.get k = constraints.get k) →
      isValidGroup group c2 = isValidGroup group constraints := by
    intro c2 p hnone hsome hrest
    apply isValidGroup_congr
    intro k
    by_cases hk : k = p
    · subst hk
      rw [forbidden_of_get_none hnone]
      unfold Constraints.forbidden
      rw [hsome]
      rfl
    · unfold Constraints.forbidden
      rw [hrest k hk]
  have hfront : ∀ p : String, constraints.get p = none →
      isValidGroup group ((p, []) :: constraints) = isValidGroup group constraints := by
    intro p hnone
    apply hsame _ p hnone
    · rw [get_cons, if_pos rfl]
    · intro k hk
      rw [get_cons, if_neg hk]
  refine ⟨?_, fun p hp => forbidden_of_get_none hp, hsame, hfront, ?_, ?_, ?_⟩
  · cases isValidGroup group constraints
    · exact Or.inr rfl
    · exact Or.inl rfl
  · intro a p hnone hp ha hpg
    have hap : a ≠ p := by
      intro e
      rw [e, forbidden_of_get_none hnone] at hp
      exact List.not_mem_nil p hp
    have hfalse := isValidGroup_false_of_mem ha hpg hap hp
    exact ⟨hfalse, (hfront p hnone).trans hfalse⟩
  · intro hkeys
    rw [isValidGroup_eq_true_iff]
    intro i j a b _ hi _
    rw [forbidden_of_get_none (hkeys a (List.getElem?_mem hi))]
    exact List.not_mem_nil b
  · exact isValidGroup_of_noConstraints noConstraints_nil group

/-- Scenario E at the group `A, B`: `B` is no key and `A` forbids `B`, so the group is
invalid, also after the entry `B -> []` is added; the group `B, C` of two students that are
no keys is valid. -/
theorem isValidGroup_absent_key_witness :
    (isValidGroup ["A", "B"] [("A", ["B"])] = false ∧
      isValidGroup ["A", "B"] [("B", []), ("A", ["B"])] = false) ∧
    isValidGroup ["B", "C"] [("A", ["B"])] = true :=
  ⟨(isValidGroup_absent_key ["A", "B"] [("A", ["B"])]).2.2.2.2.1 "A" "B" (by decide)
      (by decide) (by decide) (by decide),
    (isValidGroup_absent_key ["B", "C"] [("A", ["B"])]).2.2.2.2.2.1 (by decide)⟩

/-- C14 (fold failure is atomic): when no group of exactly the size to match stays valid with
the student appended, `tryIntegrateIntoExistingGroup` returns `false` together with the group
list and the used set that were passed in, whatever the visiting order is. -/
theorem fold_failure_atomic (lonelyStudent : String) (targetGroupSize newGroupSize : Nat)
    (existingGroups : List (List String)) (usedStudents : UsedSet) (constraints : Constraints)
    (rand : Rand)
    (hnone : ∀ g ∈ existingGroups, g.length = targetGroupSize →
      isValidGroup (g ++ [lonelyStudent]) constraints = false) :
    (tryIntegrateIntoExistingGroup lonelyStudent targetGroupSize newGroupSize existingGroups
      usedStudents constraints rand).1 = false ∧
    (tryIntegrateIntoExistingGroup lonelyStudent targetGroupSize newGroupSize existingGroups
      usedStudents constraints rand).2.groups = existingGroups ∧
    (tryIntegrateIntoExistingGroup lonelyStudent targetGroupSize newGroupSize existingGroups
      usedStudents constraints rand).2.usedStudents = usedStudents := by
  have hloop := (integrateLoop_shuffled_eq_none_iff lonelyStudent targetGroupSize
    existingGroups constraints rand).2 hnone
  have hfalse := (tryIntegrate_fst_eq_false_iff lonelyStudent targetGroupSize newGroupSize
    existingGroups usedStudents constraints rand).2 hloop
  exact ⟨hfalse, tryIntegrate_false lonelyStudent targetGroupSize newGroupSize rand hfalse⟩

/-- Fold failure at the groups `A, B` and `D, E, F`, the student `C` whom `A` forbids, and
size 2 to match: nothing changes. -/
theorem fold_failure_atomic_witness :
    (tryIntegrateIntoExistingGroup "C" 2 3 [["A", "B"], ["D", "E", "F"]] UsedSet.empty
      [("A", ["C"])] (Rand.ofList [Shuffle.reverse])).1 = false ∧
    (tryIntegrateIntoExistingGroup "C" 2 3 [["A", "B"], ["D", "E", "F"]] UsedSet.empty
      [("A", ["C"])] (Rand.ofList [Shuffle.reverse])).2.groups
        = [["A", "B"], ["D", "E", "F"]] :=
  ⟨(fold_failure_atomic "C" 2 3 [["A", "B"], ["D", "E", "F"]] UsedSet.empty [("A", ["C"])]
      (Rand.ofList [Shuffle.reverse]) (by decide)).1,
    (fold_failure_atomic "C" 2 3 [["A", "B"], ["D", "E", "F"]] UsedSet.empty [("A", ["C"])]
      (Rand.ofList [Shuffle.reverse]) (by decide)).2.1⟩

/-- C15 (fold success): `tryIntegrateIntoExistingGroup` returns `true` exactly when some
group has `targetGroupSize` members and stays valid with the student appended.  When it
returns `true`, the visiting order splits into indices that fail the test, then an index `idx`
that passes it: the returned list has the length of the input, holds the old group followed by
the student at `idx`, which is not the old group, agrees with the input at every other index,
and the returned used set is the input used set with the student marked. -/
theorem fold_success (lonelyStudent : String) (targetGroupSize newGroupSize : Nat)
    (existingGroups : List (List String)) (usedStudents : UsedSet) (constraints : Constraints)
    (rand : Rand) :
    ((tryIntegrateIntoExistingGroup lonelyStudent targetGroupSize newGroupSize existingGroups
        usedStudents constraints rand).1 = true ↔
      ∃ g ∈ existingGroups, g.length = targetGroupSize ∧
        isValidGroup (g ++ [lonelyStudent]) constraints = true) ∧
    ((tryIntegrateIntoExistingGroup lonelyStudent targetGroupSize newGroupSize existingGroups
        usedStudents constraints rand).1 = true →
      ∃ (idx : Nat) (group : List String) (before after : List Nat),
        rand.next.apply (List.range existingGroups.length) = before ++ idx :: after ∧
        (∀ i ∈ before,
          takesStudent lonelyStudent targetGroupSize existingGroups constraints i = false) ∧
        existingGroups[idx]? = some group ∧ group.length = targetGroupSize ∧
        isValidGroup (group ++ [lonelyStudent]) constraints = true ∧
        (tryIntegrateIntoExistingGroup lonelyStudent targetGroupSize newGroupSize
          existingGroups usedStudents constraints rand).2.groups.length
            = existingGroups.length ∧
        (tryIntegrateIntoExistingGroup lonelyStudent targetGroupSize newGroupSize
          existingGroups usedStudents constraints rand).2.groups[idx]?
            = some (group ++ [lonelyStudent]) ∧
        group ++ [lonelyStudent] ≠ group ∧
        (∀ j : Nat, j ≠ idx →
          (tryIntegrateIntoExistingGroup lonelyStudent targetGroupSize newGroupSize
            existingGroups usedStudents constraints rand).2.groups[j]?
              = existingGroups[j]?) ∧
        (tryIntegrateIntoExistingGroup lonelyStudent targetGroupSize newGroupSize
          existingGroups usedStudents constraints rand).2.usedStudents
            = usedStudents.mark lonelyStudent) := by
  constructor
  · rw [← Bool.not_eq_false, tryIntegrate_fst_eq_false_iff,
      integrateLoop_shuffled_eq_none_iff]
    constructor
    · intro h
      by_contra hcon
      apply h
      intro g hg hlen
      cases hv : isValidGroup (g ++ [lonelyStudent]) constraints with
      | false => rfl
      | true => exact absurd ⟨g, hg, hlen, hv⟩ hcon
    · rintro ⟨g, hg, hlen, hv⟩ h
      rw [h g hg hlen] at hv
      exact Bool.noConfusion hv
  · intro htrue
    rw [tryIntegrate_eq, integrateLoop_eq_find] at htrue ⊢
    cases hfind : (rand.next.apply (List.range existingGroups.length)).find?
        (takesStudent lonelyStudent targetGroupSize existingGroups constraints) with
    | none =>
      rw [hfind] at htrue
      simp at htrue
    | some idx =>
      obtain ⟨htest, before, after, hsplit, hbefore⟩ := List.find?_eq_some.1 hfind
      obtain ⟨group, hgroup, hlen, hv⟩ := (takesStudent_iff _ _ _ _ _).1 htest
      have hlt : idx < existingGroups.length := (List.getElem?_eq_some_iff.1 hgroup).1
      refine ⟨idx, group, before, after, hsplit, ?_, hgroup, hlen, hv, ?_, ?_, ?_, ?_, ?_⟩
      · intro i hi
        simpa using hbefore i hi
      · simp [hgroup]
      · simp [hgroup, hlt]
      · intro he
        have := congrArg List.length he
        simp at this
      · intro j hj
        simp [hgroup, List.getElem?_set_ne (Ne.symm hj)]
      · simp

/-- Fold success at the groups `A, B` and `D, E`, the student `C` whom `A` forbids, and size 2
to match: the fold succeeds, since `D, E` takes `C`. -/
theorem fold_success_witness :
    (tryIntegrateIntoExistingGroup "C" 2 3 [["A", "B"], ["D", "E"]] UsedSet.empty
      [("A", ["C"])] (Rand.ofList [])).1 = true :=
  (fold_success "C" 2 3 [["A", "B"], ["D", "E"]] UsedSet.empty [("A", ["C"])]
    (Rand.ofList [])).1.2 ⟨["D", "E"], by decide, by decide, by decide⟩

/-- C16 as stated fails.  For the roster `A` to `F` where `E` forbids `A` and the shuffles
change nothing, main formation leaves `E` and `F`; `F` would be valid with the group of four,
but as `E` cannot be folded the function returns the group of four and leaves both over.  And
for no duplicate-free roster, constraints and shuffles is the second remaining student folded
while the first stays leftover. -/
theorem second_fold_counterexample :
    (["A", "B", "C", "D", "E", "F"].Nodup ∧
      currentlyUngrouped 4 (by decide) ["A", "B", "C", "D", "E", "F"] [("E", ["A"])]
        (Rand.ofList []) = ["E", "F"] ∧
      isValidGroup ["A", "B", "C", "D", "F"] [("E", ["A"])] = true ∧
      (formFourPersonGroups ["A", "B", "C", "D", "E", "F"] [("E", ["A"])]
        (Rand.ofList [])).groups = [["A", "B", "C", "D"]] ∧
      (formFourPersonGroups ["A", "B", "C", "D", "E", "F"] [("E", ["A"])]
        (Rand.ofList [])).ungrouped = ["E", "F"]) ∧
    ¬ ∃ (allStudents : List String) (constraints : Constraints) (rand : Rand)
        (p1 p2 : String),
      allStudents.Nodup ∧
      currentlyUngrouped 4 (by decide) allStudents constraints rand = [p1, p2] ∧
      p1 ∈ (formFourPersonGroups allStudents constraints rand).ungrouped ∧
      p2 ∉ (formFourPersonGroups allStudents constraints rand).ungrouped := by
  refine ⟨⟨by decide, ?_, by decide, ?_, ?_⟩, ?_⟩
  · simp [currentlyUngrouped, mainFormation, attemptToFormGroupsOfSize, attemptLoop,
      isValidGroup, UsedSet.empty, UsedSet.markAll, UsedSet.mark, Rand.next, Rand.ofList,
      Rand.advance, Shuffle.identity, conflictFrom, conflictAt, occursIn, Constraints.get,
      List.lookup, List.enum, List.enumFrom]
  · simp [formFourPersonGroups, attemptToFormGroupsOfSize, attemptLoop,
      tryIntegrateIntoExistingGroup, integrateLoop, finalUngrouped, isValidGroup,
      UsedSet.empty, UsedSet.markAll, UsedSet.mark, Rand.next, Rand.ofList, Rand.advance,
      Shuffle.identity, conflictFrom, conflictAt, occursIn, Constraints.get, List.lookup,
      List.enum, List.enumFrom]
  · simp [formFourPersonGroups, attemptToFormGroupsOfSize, attemptLoop,
      tryIntegrateIntoExistingGroup, integrateLoop, finalUngrouped, isValidGroup,
      UsedSet.empty, UsedSet.markAll, UsedSet.mark, Rand.next, Rand.ofList, Rand.advance,
      Shuffle.identity, conflictFrom, conflictAt, occursIn, Constraints.get, List.lookup,
      List.enum, List.enumFrom]
  · rintro ⟨allStudents, constraints, rand, p1, p2, hnodup, hrem, h1, h2⟩
    have hcases := formFour_two_remaining_cases allStudents constraints rand p1 p2 _ _ _
      hnodup rfl hrem rfl rfl
    cases hr : (tryIntegrateIntoExistingGroup p1 4 5
        (mainFormation 4 (by decide) allStudents constraints rand).groups
        (mainFormation 4 (by decide) allStudents constraints rand).usedStudents constraints
        (mainFormation 4 (by decide) allStudents constraints rand).rand).1 with
    | false => exact h2 (hcases.1 hr).2.2
    | true => exact (hcases.2 hr).1 h1

/-- C16 as amended: in `formFourPersonGroups`, when exactly two students of a duplicate-free
roster remain after main formation, the first is folded first and the second is only tried when
the first was folded.  When the first fold fails the groups of main formation are returned and
both stay leftover; when it succeeds the first is not leftover and the second is leftover
exactly when its own fold, into the updated groups, fails; so the second is never folded while
the first stays leftover.  The outcomes first alone, both (each into a group of four that ends
with five members) and neither all occur. -/
theorem two_remaining_fold_order :
    (∀ (allStudents : List String) (constraints : Constraints) (rand : Rand)
        (p1 p2 : String),
      allStudents.Nodup →
      currentlyUngrouped 4 (by decide) allStudents constraints rand = [p1, p2] →
      ((tryIntegrateIntoExistingGroup p1 4 5
          (mainFormation 4 (by decide) allStudents constraints rand).groups
          (mainFormation 4 (by decide) allStudents constraints rand).usedStudents constraints
          (mainFormation 4 (by decide) allStudents constraints rand).rand).1 = false →
        (formFourPersonGroups allStudents constraints rand).groups
          = (mainFormation 4 (by decide) allStudents constraints rand).groups ∧
        p1 ∈ (formFourPersonGroups allStudents constraints rand).ungrouped ∧
        p2 ∈ (formFourPersonGroups allStudents constraints rand).ungrouped) ∧
      ((tryIntegrateIntoExistingGroup p1 4 5
          (mainFormation 4 (by decide) allStudents constraints rand).groups
          (mainFormation 4 (by decide) allStudents constraints rand).usedStudents constraints
          (mainFormation 4 (by decide) allStudents constraints rand).rand).1 = true →
        p1 ∉ (formFourPersonGroups allStudents constraints rand).ungrouped ∧
        (p2 ∈ (formFourPersonGroups allStudents constraints rand).ungrouped ↔
          (tryIntegrateIntoExistingGroup p2 4 5
            (tryIntegrateIntoExistingGroup p1 4 5
              (mainFormation 4 (by decide) allStudents constraints rand).groups
              (mainFormation 4 (by decide) allStudents constraints rand).usedStudents
              constraints
              (mainFormation 4 (by decide) allStudents constraints rand).rand).2.groups
            (tryIntegrateIntoExistingGroup p1 4 5
              (mainFormation 4 (by decide) allStudents constraints rand).groups
              (mainFormation 4 (by decide) allStudents constraints rand).usedStudents
              constraints
              (mainFormation 4 (by decide) allStudents constraints rand).rand).2.usedStudents
            constraints
            (tryIntegrateIntoExistingGroup p1 4 5
              (mainFormation 4 (by decide) allStudents constraints rand).groups
              (mainFormation 4 (by decide) allStudents constraints rand).usedStudents
              constraints
              (mainFormation 4 (by decide) allStudents constraints rand).rand).2.rand).1
                = false)) ∧
      ¬(p1 ∈ (formFourPersonGroups allStudents constraints rand).ungrouped ∧
        p2 ∉ (formFourPersonGroups allStudents constraints rand).ungrouped)) ∧
    (currentlyUngrouped 4 (by decide) ["A", "B", "C", "D", "E", "F"] [] (Rand.ofList [])
        = ["E", "F"] ∧
      (formFourPersonGroups ["A", "B", "C", "D", "E", "F"] [] (Rand.ofList [])).groups
        = [["A", "B", "C", "D", "E"]] ∧
      (formFourPersonGroups ["A", "B", "C", "D", "E", "F"] [] (Rand.ofList [])).ungrouped
        = ["F"]) ∧
    (currentlyUngrouped 4 (by decide) ["A", "B", "C", "D", "E", "F", "G", "H", "I", "J"] []
        (Rand.ofList []) = ["I", "J"] ∧
      (formFourPersonGroups ["A", "B", "C", "D", "E", "F", "G", "H", "I", "J"] []
        (Rand.ofList [])).groups = [["A", "B", "C", "D", "I"], ["E", "F", "G", "H", "J"]] ∧
      (formFourPersonGroups ["A", "B", "C", "D", "E", "F", "G", "H", "I", "J"] []
        (Rand.ofList [])).ungrouped = []) ∧
    (currentlyUngrouped 4 (by decide) ["A", "B", "C", "D", "E", "F"] [("E", ["A"])]
        (Rand.ofList []) = ["E", "F"] ∧
      (formFourPersonGroups ["A", "B", "C", "D", "E", "F"] [("E", ["A"])]
        (Rand.ofList [])).groups = [["A", "B", "C", "D"]] ∧
      (formFourPersonGroups ["A", "B", "C", "D", "E", "F"] [("E", ["A"])]
        (Rand.ofList [])).ungrouped = ["E", "F"]) := by
  refine ⟨?_, ⟨?_, ?_, ?_⟩, ⟨?_, ?_, ?_⟩, ⟨?_, ?_, ?_⟩⟩
  · intro allStudents constraints rand p1 p2 hnodup hrem
    have hcases := formFour_two_remaining_cases allStudents constraints rand p1 p2 _ _ _
      hnodup rfl hrem rfl rfl
    refine ⟨hcases.1, hcases.2, ?_⟩
    rintro ⟨h1, h2⟩
    cases hr : (tryIntegrateIntoExistingGroup p1 4 5
        (mainFormation 4 (by decide) allStudents constraints rand).groups
        (mainFormation 4 (by decide) allStudents constraints rand).usedStudents constraints
        (mainFormation 4 (by decide) allStudents constraints rand).rand).1 with
    | false => exact h2 (hcases.1 hr).2.2
    | true => exact (hcases.2 hr).1 h1
  all_goals
    simp [currentlyUngrouped, mainFormation, formFourPersonGroups, attemptToFormGroupsOfSize,
      attemptLoop, tryIntegrateIntoExistingGroup, integrateLoop, finalUngrouped, isValidGroup,
      UsedSet.empty, UsedSet.markAll, UsedSet.mark, Rand.next, Rand.ofList, Rand.advance,
      Shuffle.identity, conflictFrom, conflictAt, occursIn, Constraints.get, List.lookup,
      List.enum, List.enumFrom]

/-- C17 (best of N): for each of the three retry loops of `main`, with the retained maximum
starting at -1, the retained grouped count is non-decreasing from one number of iterations to
the next; when the loop has ended, no attempt that was run has a greater grouped count than
the retained one, and the retained groups and leftover are those of an attempt that was run, a
result of the formation function, whose grouped count is the retained one; so when no attempt
that was run grouped anybody, the retained result is no groups and the whole roster left
over. -/
theorem best_of_attempts (form : List String → Constraints → Rand → Formation)
    (hform : IsFormationFunction form) (schuelerliste : List String)
    (constraints : Constraints) (rand : Rand) :
    (retryLoop form schuelerliste constraints 0
      (RetryState.initial rand)).maxGroupedStudents = -1 ∧
    (∀ k : Nat,
      (retryLoop form schuelerliste constraints k
        (RetryState.initial rand)).maxGroupedStudents
      ≤ (retryLoop form schuelerliste constraints (k + 1)
        (RetryState.initial rand)).maxGroupedStudents) ∧
    (∀ a ∈ (bestFormation form schuelerliste constraints rand).history,
      groupedCount schuelerliste a
        ≤ (bestFormation form schuelerliste constraints rand).maxGroupedStudents) ∧
    (∃ a ∈ (bestFormation form schuelerliste constraints rand).history,
      (∃ r, a = form schuelerliste constraints r) ∧
      groupedCount schuelerliste a
        = (bestFormation form schuelerliste constraints rand).maxGroupedStudents ∧
      (bestFormation form schuelerliste constraints rand).bestGroups = a.groups ∧
      (bestFormation form schuelerliste constraints rand).bestUngrouped = a.ungrouped) ∧
    ((∀ a ∈ (bestFormation form schuelerliste constraints rand).history,
        groupedCount schuelerliste a = 0) →
      (bestFormation form schuelerliste constraints rand).bestGroups = [] ∧
      (bestFormation form schuelerliste constraints rand).bestUngrouped = schuelerliste) := by
  have hnon : ∀ r, 0 ≤ groupedCount schuelerliste (form schuelerliste constraints r) :=
    fun r => groupedCount_nonneg (isFormationFunction_spec hform _ _ r).1
  obtain ⟨m, _, _, hh, ⟨i, a, hi, hbg, hbu, hcount, _, hall⟩, _⟩ :=
    bestFormation_spec form schuelerliste constraints rand hnon
  have ha : a ∈ (bestFormation form schuelerliste constraints rand).history :=
    List.getElem?_mem hi
  have hres : ∃ r, a = form schuelerliste constraints r :=
    mem_attemptChain form schuelerliste constraints m rand a (hh ▸ ha)
  refine ⟨rfl, fun k => retryLoop_max_mono form schuelerliste constraints k _, hall,
    ⟨a, ha, hres, hcount, hbg, hbu⟩, ?_⟩
  intro hzero
  obtain ⟨r, hr⟩ := hres
  have hspec := isFormationFunction_spec hform schuelerliste constraints r
  rw [← hr] at hspec
  rw [hbg, hbu]
  exact formsWell_none_grouped hspec.1 hspec.2 (hzero a ha)

/-- Best of N for the retry loop of `formTwoPersonGroups` on the roster `A, B` whose two
students forbid each other: the retained result is that of an attempt that was run. -/
theorem best_of_attempts_witness :
    ∃ a ∈ (bestFormation formTwoPersonGroups ["A", "B"] [("A", ["B"]), ("B", ["A"])]
        (Rand.ofList [])).history,
      (∃ r, a = formTwoPersonGroups ["A", "B"] [("A", ["B"]), ("B", ["A"])] r) ∧
      groupedCount ["A", "B"] a
        = (bestFormation formTwoPersonGroups ["A", "B"] [("A", ["B"]), ("B", ["A"])]
          (Rand.ofList [])).maxGroupedStudents ∧
      (bestFormation formTwoPersonGroups ["A", "B"] [("A", ["B"]), ("B", ["A"])]
        (Rand.ofList [])).bestGroups = a.groups ∧
      (bestFormation formTwoPersonGroups ["A", "B"] [("A", ["B"]), ("B", ["A"])]
        (Rand.ofList [])).bestUngrouped = a.ungrouped :=
  (best_of_attempts formTwoPersonGroups (Or.inl rfl) ["A", "B"] [("A", ["B"]), ("B", ["A"])]
    (Rand.ofList [])).2.2.2.1

/-- C18 (early exit): each of the three retry loops of `main` runs the first `m` attempts of
the chain of attempts, with `1 ≤ m ≤ attempts = 1000`; every attempt before the last one run
left somebody over, so no attempt is run after one that left nobody over; when the last attempt
run left nobody over, it is the retained one; and when every attempt run left somebody over,
exactly 1000 attempts were run. -/
theorem early_exit (form : List String → Constraints → Rand → Formation)
    (hform : IsFormationFunction form) (schuelerliste : List String)
    (constraints : Constraints) (rand : Rand) :
    attempts = 1000 ∧
    ∃ m : Nat, 1 ≤ m ∧ m ≤ attempts ∧
      (bestFormation form schuelerliste constraints rand).history
        = attemptChain form schuelerliste constraints m rand ∧
      (bestFormation form schuelerliste constraints rand).history.length = m ∧
      (∀ (i : Nat) (a : Formation), i + 1 < m →
        (bestFormation form schuelerliste constraints rand).history[i]? = some a →
        a.ungrouped ≠ []) ∧
      (∀ a : Formation,
        (bestFormation form schuelerliste constraints rand).history.getLast? = some a →
        a.ungrouped = [] →
        (bestFormation form schuelerliste constraints rand).bestGroups = a.groups ∧
        (bestFormation form schuelerliste constraints rand).bestUngrouped = []) ∧
      ((∀ a ∈ (bestFormation form schuelerliste constraints rand).history,
          a.ungrouped ≠ []) → m = attempts) := by
  have hnon : ∀ r, 0 ≤ groupedCount schuelerliste (form schuelerliste constraints r) :=
    fun r => groupedCount_nonneg (isFormationFunction_spec hform _ _ r).1
  obtain ⟨m, hm1, hm, hh, _, hcase⟩ :=
    bestFormation_spec form schuelerliste constraints rand hnon
  refine ⟨rfl, m, hm1, hm, hh, by rw [hh, length_attemptChain], ?_, ?_, ?_⟩
  · intro i a hi hia
    rw [hh] at hia
    rcases hcase with ⟨_, hall⟩ | ⟨k, a0, hmk, hchain, hall, _⟩
    · exact hall a (List.getElem?_mem hia)
    · rw [hchain, List.getElem?_append_left (by rw [length_attemptChain]; omega)] at hia
      exact hall a (List.getElem?_mem hia)
  · intro a hlast hnil
    rw [hh] at hlast
    rcases hcase with ⟨_, hall⟩ | ⟨k, a0, hmk, hchain, _, ha0, hbg, hbu⟩
    · obtain ⟨ys, hys⟩ := List.getLast?_eq_some_iff.1 hlast
      exact absurd hnil (hall a (by rw [hys]; simp))
    · rw [hchain, List.getLast?_concat] at hlast
      have ha : a0 = a := Option.some.inj hlast
      rw [← ha, hbg, hbu, ha0]
      exact ⟨rfl, rfl⟩
  · intro hall
    rcases hcase with ⟨h, _⟩ | ⟨k, a0, hmk, hchain, _, ha0, _⟩
    · exact h
    · exfalso
      apply hall a0 _ ha0
      rw [hh, hchain]
      simp

/-- Early exit for the retry loop of `formTwoPersonGroups` on the roster `A, B, C, D` without
constraints: between 1 and 1000 attempts are run, the first ones of the chain. -/
theorem early_exit_witness :
    ∃ m : Nat, 1 ≤ m ∧ m ≤ attempts ∧
      (bestFormation formTwoPersonGroups ["A", "B", "C", "D"] [] (Rand.ofList [])).history
        = attemptChain formTwoPersonGroups ["A", "B", "C", "D"] [] m (Rand.ofList []) :=
  match (early_exit formTwoPersonGroups (Or.inl rfl) ["A", "B", "C", "D"] []
    (Rand.ofList [])).2 with
  | ⟨m, h1, h2, h3, _⟩ => ⟨m, h1, h2, h3⟩

/-- C19 (ties keep the first best): when one of the three retry loops of `main` has ended, the
retained groups and leftover are those of the attempt at some index `i` of the attempts run;
its grouped count is the retained maximum, no attempt run has a greater grouped count, and
every attempt run before it has a smaller one.  In any iteration, an attempt whose grouped
count does not exceed the retained maximum leaves the retained result as it is. -/
theorem ties_keep_first (form : List String → Constraints → Rand → Formation)
    (hform : IsFormationFunction form) (schuelerliste : List String)
    (constraints : Constraints) (rand : Rand) :
    (∃ (i : Nat) (a : Formation),
      (bestFormation form schuelerliste constraints rand).history[i]? = some a ∧
      (bestFormation form schuelerliste constraints rand).bestGroups = a.groups ∧
      (bestFormation form schuelerliste constraints rand).bestUngrouped = a.ungrouped ∧
      (bestFormation form schuelerliste constraints rand).maxGroupedStudents
        = groupedCount schuelerliste a ∧
      (∀ b ∈ (bestFormation form schuelerliste constraints rand).history,
        groupedCount schuelerliste b ≤ groupedCount schuelerliste a) ∧
      (∀ (j : Nat) (b : Formation), j < i →
        (bestFormation form schuelerliste constraints rand).history[j]? = some b →
        groupedCount schuelerliste b < groupedCount schuelerliste a)) ∧
    (∀ (st : RetryState) (n : Nat),
      groupedCount schuelerliste (form schuelerliste constraints st.rand)
        ≤ st.maxGroupedStudents →
      retryLoop form schuelerliste constraints (n + 1) st
        = retryLoop form schuelerliste constraints n
          ⟨st.bestGroups, st.bestUngrouped, st.maxGroupedStudents,
            (form schuelerliste constraints st.rand).rand,
            st.history ++ [form schuelerliste constraints st.rand]⟩) := by
  have hnon : ∀ r, 0 ≤ groupedCount schuelerliste (form schuelerliste constraints r) :=
    fun r => groupedCount_nonneg (isFormationFunction_spec hform _ _ r).1
  obtain ⟨m, _, _, _, ⟨i, a, hi, hbg, hbu, hcount, hbefore, hall⟩, _⟩ :=
    bestFormation_spec form schuelerliste constraints rand hnon
  refine ⟨⟨i, a, hi, hbg, hbu, hcount.symm, ?_, ?_⟩, ?_⟩
  · intro b hb
    rw [hcount]
    exact hall b hb
  · intro j b hj hb
    rw [hcount]
    exact hbefore j b hj hb
  · intro st n hle
    exact retryLoop_succ_keep form schuelerliste constraints n st (Int.not_lt.2 hle)

/-- Ties for the retry loop of `formTwoPersonGroups` on the roster `A, B` whose two students
forbid each other: the retained result is that of an attempt that was run and that no attempt
run exceeds. -/
theorem ties_keep_first_witness :
    ∃ (i : Nat) (a : Formation),
      (bestFormation formTwoPersonGroups ["A", "B"] [("A", ["B"]), ("B", ["A"])]
        (Rand.ofList [])).history[i]? = some a ∧
      (bestFormation formTwoPersonGroups ["A", "B"] [("A", ["B"]), ("B", ["A"])]
        (Rand.ofList [])).bestGroups = a.groups ∧
      (bestFormation formTwoPersonGroups ["A", "B"] [("A", ["B"]), ("B", ["A"])]
        (Rand.ofList [])).bestUngrouped = a.ungrouped :=
  match (ties_keep_first formTwoPersonGroups (Or.inl rfl) ["A", "B"]
    [("A", ["B"]), ("B", ["A"])] (Rand.ofList [])).1 with
  | ⟨i, a, h1, h2, h3, _⟩ => ⟨i, a, h1, h2, h3⟩

/-- C20 (termination): for a target size of at least one, every pool, with or without
duplicates, every constraint map and every state, an iteration of the loop of
`attemptToFormGroupsOfSize` either stops, because fewer than `targetSize` students are unused
or because the candidate is invalid, or goes on with strictly fewer unused students; so the
loop ends before it has started more iterations than there are unused students plus one, and
main formation in a formation function before it has started more iterations than the roster
has students plus one.  The retry loop runs at most `attempts = 1000` attempts. -/
theorem formation_terminates (targetSize : Nat) (hpos : 0 < targetSize)
    (studentsPool : List String) (constraints : Constraints) (groups : List (List String))
    (used : UsedSet) (rand : Rand) :
    ((studentsPool.filter (fun s => !used s)).length < targetSize →
      attemptLoop targetSize hpos studentsPool constraints groups used rand
        = ⟨groups, used, rand⟩) ∧
    (¬ (studentsPool.filter (fun s => !used s)).length < targetSize →
      isValidGroup ((rand.next.apply (studentsPool.filter (fun s => !used s))).take
        targetSize) constraints = false →
      attemptLoop targetSize hpos studentsPool constraints groups used rand
        = ⟨groups, used, rand.advance⟩) ∧
    (¬ (studentsPool.filter (fun s => !used s)).length < targetSize →
      isValidGroup ((rand.next.apply (studentsPool.filter (fun s => !used s))).take
        targetSize) constraints = true →
      attemptLoop targetSize hpos studentsPool constraints groups used rand
        = attemptLoop targetSize hpos studentsPool constraints
          (groups ++ [(rand.next.apply (studentsPool.filter (fun s => !used s))).take
            targetSize])
          (used.markAll ((rand.next.apply (studentsPool.filter (fun s => !used s))).take
            targetSize))
          rand.advance ∧
      (studentsPool.filter (fun s =>
        !used.markAll ((rand.next.apply (studentsPool.filter (fun s => !used s))).take
          targetSize) s)).length
        < (studentsPool.filter (fun s => !used s)).length) ∧
    (∀ bound : Nat, (studentsPool.filter (fun s => !used s)).length < bound →
      attemptLoopBounded targetSize studentsPool constraints bound groups used rand
        = some (attemptLoop targetSize hpos studentsPool constraints groups used rand)) ∧
    (∀ (allStudents : List String) (rand0 : Rand),
      attemptLoopBounded targetSize (rand0.next.apply allStudents) constraints
          (allStudents.length + 1) [] UsedSet.empty rand0.advance
        = some (mainFormation targetSize hpos allStudents constraints rand0)) ∧
    (∀ (form : List String → Constraints → Rand → Formation) (schuelerliste : List String)
        (rand0 : Rand),
      (bestFormation form schuelerliste constraints rand0).history.length ≤ attempts) ∧
    attempts = 1000 := by
  refine ⟨?_, ?_, ?_, ?_, ?_, ?_, rfl⟩
  · intro h
    exact attemptLoop_short targetSize hpos studentsPool constraints groups used rand h
  · intro h hv
    rw [attemptLoop, if_neg h]
    simp only []
    rw [hv]
    rfl
  · intro h hv
    constructor
    · conv => lhs; rw [attemptLoop, if_neg h]
      simp only []
      rw [if_pos hv]
    · exact available_decreases targetSize hpos studentsPool used _ (rand.next.perm _) h
  · intro bound hbound
    exact attemptLoopBounded_eq targetSize hpos studentsPool constraints bound groups used
      rand hbound
  · intro allStudents rand0
    apply attemptLoopBounded_eq
    have h1 := List.length_filter_le (fun s => !UsedSet.empty s) (rand0.next.apply allStudents)
    have h2 := (rand0.next.perm allStudents).length_eq
    omega
  · intro form schuelerliste rand0
    have := retryLoop_history_length form schuelerliste constraints attempts
      (RetryState.initial rand0)
    unfold bestFormation
    simpa [RetryState.initial] using this

/-- Termination at the pool `A, B, A` with a duplicate, target size 2: four iterations are
enough for the loop to end. -/
theorem formation_terminates_witness :
    attemptLoopBounded 2 ["A", "B", "A"] [] 4 [] UsedSet.empty (Rand.ofList [])
      = some (attemptLoop 2 (by decide) ["A", "B", "A"] [] [] UsedSet.empty (Rand.ofList [])) :=
  (formation_terminates 2 (by decide) ["A", "B", "A"] [] [] UsedSet.empty
    (Rand.ofList [])).2.2.2.1 4 (by decide)

/-- C21 (main formation): called with no existing groups, the empty used set and a
duplicate-free pool, `attemptToFormGroupsOfSize` returns groups of exactly `targetSize` members
each that are pairwise disjoint, without a repeated member, and each valid; the returned used
set holds exactly the members of the groups, who all come from the pool; and with `k` the
number of returned groups, formed by the first `k` shuffles, either fewer than `targetSize`
students of the pool are unused and no further shuffle was made, or the candidate cut from the
next shuffle of the unused students, its first `targetSize` students, was invalid and the
function returned right after that one shuffle, without sampling another candidate. -/
theorem main_formation_result (targetSize : Nat) (hpos : 0 < targetSize)
    (studentsPool : List String) (constraints : Constraints) (rand : Rand) (r : FormState)
    (hnodup : studentsPool.Nodup)
    (hr : attemptToFormGroupsOfSize targetSize hpos studentsPool UsedSet.empty [] constraints
      rand = r) :
    (∀ g ∈ r.groups, g.length = targetSize) ∧
    r.groups.Pairwise List.Disjoint ∧
    (∀ g ∈ r.groups, g.Nodup) ∧
    (∀ g ∈ r.groups, isValidGroup g constraints = true) ∧
    (∀ s, r.usedStudents s = true ↔ ∃ g ∈ r.groups, s ∈ g) ∧
    (∀ g ∈ r.groups, ∀ s ∈ g, s ∈ studentsPool) ∧
    (((studentsPool.filter (fun s => !r.usedStudents s)).length < targetSize ∧
        r.rand = Rand.advance^[r.groups.length] rand) ∨
      (targetSize ≤ (studentsPool.filter (fun s => !r.usedStudents s)).length ∧
        isValidGroup (((Rand.advance^[r.groups.length] rand).next.apply
          (studentsPool.filter (fun s => !r.usedStudents s))).take targetSize) constraints
            = false ∧
        r.rand = Rand.advance^[r.groups.length + 1] rand)) := by
  subst hr
  unfold attemptToFormGroupsOfSize
  have hgood := attemptLoop_good targetSize hpos studentsPool constraints [] UsedSet.empty rand
    (good_init studentsPool constraints)
  have hsizes := attemptLoop_sizes targetSize hpos studentsPool constraints [] UsedSet.empty
    rand (by simp)
  obtain ⟨k, hk, hstop⟩ := attemptLoop_stop targetSize hpos studentsPool constraints []
    UsedSet.empty rand
  rw [List.length_nil, Nat.zero_add] at hk
  rw [← hk] at hstop
  have hflat := List.nodup_flatten.1 (hgood.nodup hnodup)
  refine ⟨hsizes, hflat.2, hflat.1, hgood.valid, ?_, ?_, hstop⟩
  · intro s
    rw [hgood.used_iff s, List.mem_flatten]
  · intro g hg s hs
    exact hgood.sub s (List.mem_flatten.2 ⟨g, hg, hs⟩)

/-- Main formation of pairs from Anna, Ben, Cem, Dora and Eva, of whom Cem and Dora are
forbidden to each other, with shuffles that leave every slice as it is: the pair of Anna and
Ben is formed, then the candidate of Cem and Dora is invalid and the function returns, with
three students unused. -/
theorem main_formation_result_witness :
    ["Anna", "Ben", "Cem", "Dora", "Eva"].Nodup ∧
    (attemptToFormGroupsOfSize 2 (by decide) ["Anna", "Ben", "Cem", "Dora", "Eva"]
      UsedSet.empty [] [("Cem", ["Dora"]), ("Dora", ["Cem"])] (Rand.ofList [])).groups
      = [["Anna", "Ben"]] ∧
    (∀ g ∈ (attemptToFormGroupsOfSize 2 (by decide) ["Anna", "Ben", "Cem", "Dora", "Eva"]
      UsedSet.empty [] [("Cem", ["Dora"]), ("Dora", ["Cem"])] (Rand.ofList [])).groups,
      g.length = 2) ∧
    (attemptToFormGroupsOfSize 2 (by decide) ["Anna", "Ben", "Cem", "Dora", "Eva"]
      UsedSet.empty [] [("Cem", ["Dora"]), ("Dora", ["Cem"])] (Rand.ofList [])).groups.Pairwise
        List.Disjoint :=
  ⟨by decide,
    by simp [attemptToFormGroupsOfSize, attemptLoop, isValidGroup, UsedSet.empty,
      UsedSet.markAll, UsedSet.mark, Rand.next, Rand.ofList, Rand.advance, Shuffle.identity,
      conflictFrom, conflictAt, occursIn, Constraints.get, List.lookup, List.enum,
      List.enumFrom],
    (main_formation_result 2 (by decide) ["Anna", "Ben", "Cem", "Dora", "Eva"]
      [("Cem", ["Dora"]), ("Dora", ["Cem"])] (Rand.ofList []) _ (by decide) rfl).1,
    (main_formation_result 2 (by decide) ["Anna", "Ben", "Cem", "Dora", "Eva"]
      [("Cem", ["Dora"]), ("Dora", ["Cem"])] (Rand.ofList []) _ (by decide) rfl).2.1⟩

/-- C22 (group sizes): for every roster, constraints and shuffle outcomes,
`formTwoPersonGroups` returns only groups of size 2 and at most one group of size 3;
`formThreePersonGroups` returns only groups of size 3, and besides them at most one group in
all, of size 4 or of size 2; `formFourPersonGroups` returns only groups of size 4, and besides
them at most two groups of size 5 or at most one group of size 3, never groups of both sizes.
So every group returned for the target size `t` has at least 2 and between `t - 1` and `t + 1`
members. -/
theorem group_sizes (allStudents : List String) (constraints : Constraints) (rand : Rand) :
    ((∀ g ∈ (formTwoPersonGroups allStudents constraints rand).groups,
        g.length = 2 ∨ g.length = 3) ∧
      (formTwoPersonGroups allStudents constraints rand).groups.countP
        (fun g => g.length = 3) ≤ 1) ∧
    ((∀ g ∈ (formThreePersonGroups allStudents constraints rand).groups,
        g.length = 3 ∨ g.length = 4 ∨ g.length = 2) ∧
      (formThreePersonGroups allStudents constraints rand).groups.countP
          (fun g => g.length = 4)
        + (formThreePersonGroups allStudents constraints rand).groups.countP
          (fun g => g.length = 2) ≤ 1) ∧
    ((∀ g ∈ (formFourPersonGroups allStudents constraints rand).groups,
        g.length = 4 ∨ g.length = 5 ∨ g.length = 3) ∧
      (formFourPersonGroups allStudents constraints rand).groups.countP
        (fun g => g.length = 5) ≤ 2 ∧
      (formFourPersonGroups allStudents constraints rand).groups.countP
        (fun g => g.length = 3) ≤ 1 ∧
      ((formFourPersonGroups allStudents constraints rand).groups.countP
          (fun g => g.length = 5) = 0 ∨
        (formFourPersonGroups allStudents constraints rand).groups.countP
          (fun g => g.length = 3) = 0)) := by
  -- what the groups satisfy when they have the target size, up to `k` of them one more
  have shape : ∀ (t k : Nat) (gs : List (List String)),
      (∀ g ∈ gs, g.length = t) → (∀ g ∈ gs, g.length = t ∨ g.length = t + 1) ∧
        gs.countP (fun g => g.length = t + 1) ≤ k := by
    intro t k gs h
    refine ⟨fun g hg => Or.inl (h g hg), ?_⟩
    rw [countP_length_eq_zero (t + 1) h (Nat.succ_ne_self t)]
    exact Nat.zero_le k
  -- the groups after a standalone remainder group of `s` members was appended
  have alone : ∀ (t s u : Nat) (gs : List (List String)) (rem : List String),
      s ≠ t → u ≠ t → u ≠ s → (∀ g ∈ gs, g.length = t) → rem.length = s →
        (∀ g ∈ gs ++ [rem], g.length = t ∨ g.length = u ∨ g.length = s) ∧
        (gs ++ [rem]).countP (fun g => g.length = u) = 0 ∧
        (gs ++ [rem]).countP (fun g => g.length = s) = 1 := by
    intro t s u gs rem hst hut hus h hrem
    refine ⟨?_, ?_, ?_⟩
    · intro g hg
      rcases List.mem_append.1 hg with hm | hm
      · exact Or.inl (h g hm)
      · rw [List.mem_singleton] at hm
        rw [hm]
        exact Or.inr (Or.inr hrem)
    · rw [List.countP_append, countP_length_eq_zero u h hut]
      have hsu : ¬ s = u := fun e => hus e.symm
      simp [hrem, hsu]
    · rw [List.countP_append, countP_length_eq_zero s h hst]
      simp [hrem]
  refine ⟨?_, ?_, ?_⟩
  · have hmain := attemptLoop_sizes 2 (by decide) (rand.next.apply allStudents) constraints []
      UsedSet.empty rand.advance (by simp)
    have h0 := shape 2 0 _ hmain
    unfold formTwoPersonGroups attemptToFormGroupsOfSize
    simp only []
    split
    · split
      · exact tryIntegrate_shape _ 2 3 _ _ constraints _ 0 h0.1 h0.2
      · exact shape 2 1 _ hmain
    · exact shape 2 1 _ hmain
  · have hmain := attemptLoop_sizes 3 (by decide) (rand.next.apply allStudents) constraints []
      UsedSet.empty rand.advance (by simp)
    have h0 := shape 3 0 _ hmain
    have fromShape : ∀ gs : List (List String),
        ((∀ g ∈ gs, g.length = 3 ∨ g.length = 3 + 1) ∧
          gs.countP (fun g => g.length = 3 + 1) ≤ 1) →
        (∀ g ∈ gs, g.length = 3 ∨ g.length = 4 ∨ g.length = 2) ∧
          gs.countP (fun g => g.length = 4) + gs.countP (fun g => g.length = 2) ≤ 1 := by
      intro gs hs
      refine ⟨fun g hg => (hs.1 g hg).elim Or.inl (fun e => Or.inr (Or.inl e)), ?_⟩
      rw [countP_length_eq_zero_of_or 2 hs.1 (by decide) (by decide)]
      exact hs.2
    have alone3 : ∀ (gs : List (List String)) (rem : List String),
        (∀ g ∈ gs, g.length = 3) → rem.length = 2 →
        (∀ g ∈ gs ++ [rem], g.length = 3 ∨ g.length = 4 ∨ g.length = 2) ∧
          (gs ++ [rem]).countP (fun g => g.length = 4)
            + (gs ++ [rem]).countP (fun g => g.length = 2) ≤ 1 := by
      intro gs rem h hrem
      obtain ⟨ha, hb, hc⟩ := alone 3 2 4 gs rem (by decide) (by decide) (by decide) h hrem
      refine ⟨ha, ?_⟩
      rw [hb, hc]
    unfold formThreePersonGroups attemptToFormGroupsOfSize
    simp only []
    split
    · split
      · exact fromShape _ (tryIntegrate_shape _ 3 4 _ _ constraints _ 0 h0.1 h0.2)
      · exact fromShape _ (shape 3 1 _ hmain)
    · rename_i a b heq
      split
      · exact alone3 _ _ hmain (by rw [heq]; rfl)
      · exact fromShape _ (shape 3 1 _ hmain)
    · exact fromShape _ (shape 3 1 _ hmain)
  · have hmain := attemptLoop_sizes 4 (by decide) (rand.next.apply allStudents) constraints []
      UsedSet.empty rand.advance (by simp)
    have h0 := shape 4 0 _ hmain
    have fromShape : ∀ gs : List (List String),
        ((∀ g ∈ gs, g.length = 4 ∨ g.length = 4 + 1) ∧
          gs.countP (fun g => g.length = 4 + 1) ≤ 2) →
        (∀ g ∈ gs, g.length = 4 ∨ g.length = 5 ∨ g.length = 3) ∧
          gs.countP (fun g => g.length = 5) ≤ 2 ∧ gs.countP (fun g => g.length = 3) ≤ 1 ∧
          (gs.countP (fun g => g.length = 5) = 0 ∨ gs.countP (fun g => g.length = 3) = 0) := by
      intro gs hs
      have h3 := countP_length_eq_zero_of_or 3 hs.1 (by decide) (by decide)
      refine ⟨fun g hg => (hs.1 g hg).elim Or.inl (fun e => Or.inr (Or.inl e)), hs.2, ?_,
        Or.inr h3⟩
      rw [h3]
      exact Nat.zero_le 1
    have one : ∀ gs : List (List String),
        ((∀ g ∈ gs, g.length = 4 ∨ g.length = 4 + 1) ∧
          gs.countP (fun g => g.length = 4 + 1) ≤ 1) →
        ((∀ g ∈ gs, g.length = 4 ∨ g.length = 4 + 1) ∧
          gs.countP (fun g => g.length = 4 + 1) ≤ 2) :=
      fun gs hs => ⟨hs.1, Nat.le_succ_of_le hs.2⟩
    have alone4 : ∀ (gs : List (List String)) (rem : List String),
        (∀ g ∈ gs, g.length = 4) → rem.length = 3 →
        (∀ g ∈ gs ++ [rem], g.length = 4 ∨ g.length = 5 ∨ g.length = 3) ∧
          (gs ++ [rem]).countP (fun g => g.length = 5) ≤ 2 ∧
          (gs ++ [rem]).countP (fun g => g.length = 3) ≤ 1 ∧
          ((gs ++ [rem]).countP (fun g => g.length = 5) = 0 ∨
            (gs ++ [rem]).countP (fun g => g.length = 3) = 0) := by
      intro gs rem h hrem
      obtain ⟨ha, hb, hc⟩ := alone 4 3 5 gs rem (by decide) (by decide) (by decide) h hrem
      refine ⟨ha, ?_, ?_, Or.inl hb⟩
      · rw [hb]
        exact Nat.zero_le 2
      · rw [hc]
    unfold formFourPersonGroups attemptToFormGroupsOfSize
    simp only []
    split
    · split
      · exact fromShape _ (one _ (tryIntegrate_shape _ 4 5 _ _ constraints _ 0 h0.1 h0.2))
      · exact fromShape _ (shape 4 2 _ hmain)
    · split
      · have h1 := fun (x : String) (used : UsedSet) (rnd : Rand) =>
          tryIntegrate_shape x 4 5 _ used constraints rnd 0 h0.1 h0.2
        split
        · exact fromShape _ (tryIntegrate_shape _ 4 5 _ _ constraints _ 1 (h1 _ _ _).1
            (h1 _ _ _).2)
        · exact fromShape _ (one _ (h1 _ _ _))
      · exact fromShape _ (shape 4 2 _ hmain)
    · rename_i a b d heq
      split
      · exact alone4 _ _ hmain (by rw [heq]; rfl)
      · exact fromShape _ (shape 4 2 _ hmain)
    · exact fromShape _ (shape 4 2 _ hmain)

/-- C23: in `formFourPersonGroups`, when exactly two students remain after main formation and
both folds report an integration, the two students are folded into two different groups of
main formation: each of the two groups had four members and ends with exactly five, the
second fold does not choose the group the first enlarged, every returned group has four or
five members, exactly two have five, and main formation produced at least two groups of
size 4. -/
theorem two_folds_different_groups (allStudents : List String) (constraints : Constraints)
    (rand : Rand) (p1 p2 : String) (main : FormState) (r1 r2 : Bool × FormState)
    (hmain : mainFormation 4 (by decide) allStudents constraints rand = main)
    (hrem : currentlyUngrouped 4 (by decide) allStudents constraints rand = [p1, p2])
    (hr1 : tryIntegrateIntoExistingGroup p1 4 5 main.groups main.usedStudents constraints
      main.rand = r1)
    (hr2 : tryIntegrateIntoExistingGroup p2 4 5 r1.2.groups r1.2.usedStudents constraints
      r1.2.rand = r2)
    (hfirst : r1.1 = true) (hsecond : r2.1 = true) :
    ∃ (i1 i2 : Nat) (g1 g2 : List String),
      i1 ≠ i2 ∧ main.groups[i1]? = some g1 ∧ main.groups[i2]? = some g2 ∧
      g1.length = 4 ∧ g2.length = 4 ∧
      r1.2.groups = main.groups.set i1 (g1 ++ [p1]) ∧
      r1.2.groups[i2]? = some g2 ∧
      (formFourPersonGroups allStudents constraints rand).groups
        = (main.groups.set i1 (g1 ++ [p1])).set i2 (g2 ++ [p2]) ∧
      (formFourPersonGroups allStudents constraints rand).groups[i1]? = some (g1 ++ [p1]) ∧
      (formFourPersonGroups allStudents constraints rand).groups[i2]? = some (g2 ++ [p2]) ∧
      (g1 ++ [p1]).length = 5 ∧ (g2 ++ [p2]).length = 5 ∧
      (∀ g ∈ (formFourPersonGroups allStudents constraints rand).groups,
        g.length = 4 ∨ g.length = 5) ∧
      (formFourPersonGroups allStudents constraints rand).groups.countP
        (fun g => g.length = 5) = 2 ∧
      (∀ g ∈ main.groups, g.length = 4) ∧
      2 ≤ main.groups.countP (fun g => g.length = 4) := by
  have hsizes : ∀ g ∈ main.groups, g.length = 4 := by
    rw [← hmain]
    exact attemptLoop_sizes 4 (by decide) (rand.next.apply allStudents) constraints []
      UsedSet.empty rand.advance (by simp)
  rw [formFour_two_remaining allStudents constraints rand p1 p2 main r1 r2 hmain hrem hr1 hr2,
    if_pos hfirst, if_pos hsecond]
  have hfirst2 := hfirst
  have hsecond2 := hsecond
  rw [← hr1] at hfirst2
  obtain ⟨i1, g1, hi1, hl1, _, heq1⟩ := tryIntegrate_true_shape p1 4 5 main.groups
    main.usedStudents constraints main.rand hfirst2
  have hc1 := tryIntegrate_counts p1 4 5 main.groups main.usedStudents constraints main.rand
    hfirst2
  rw [hr1] at heq1 hc1
  have hg1 : r1.2.groups = main.groups.set i1 (g1 ++ [p1]) := by rw [heq1]
  rw [← hr2] at hsecond2
  obtain ⟨i2, g2, hi2, hl2, _, heq2⟩ := tryIntegrate_true_shape p2 4 5 r1.2.groups
    r1.2.usedStudents constraints r1.2.rand hsecond2
  have hc2 := tryIntegrate_counts p2 4 5 r1.2.groups r1.2.usedStudents constraints r1.2.rand
    hsecond2
  rw [hr2] at heq2 hc2
  have hg2 : r2.2.groups = (main.groups.set i1 (g1 ++ [p1])).set i2 (g2 ++ [p2]) := by
    rw [heq2, hg1]
  have hlt1 : i1 < main.groups.length := (List.getElem?_eq_some_iff.1 hi1).1
  have hne : i1 ≠ i2 := by
    intro e
    rw [hg1, ← e] at hi2
    have hset : (main.groups.set i1 (g1 ++ [p1]))[i1]? = some (g1 ++ [p1]) := by simp [hlt1]
    rw [hset] at hi2
    rw [← Option.some.inj hi2, List.length_append, hl1, List.length_singleton] at hl2
    exact absurd hl2 (by decide)
  have hi2main : main.groups[i2]? = some g2 := by
    rw [hg1, List.getElem?_set_ne hne] at hi2
    exact hi2
  have hlt2 : i2 < main.groups.length := (List.getElem?_eq_some_iff.1 hi2main).1
  have hmain5 : main.groups.countP (fun g => g.length = 4 + 1) = 0 :=
    countP_length_eq_zero (4 + 1) hsizes (by decide)
  have hshape1 := tryIntegrate_shape p1 4 5 main.groups main.usedStudents constraints main.rand
    0 (fun g hg => Or.inl (hsizes g hg)) (Nat.le_of_eq hmain5)
  rw [hr1] at hshape1
  have hshape2 := tryIntegrate_shape p2 4 5 r1.2.groups r1.2.usedStudents constraints r1.2.rand
    1 hshape1.1 hshape1.2
  rw [hr2] at hshape2
  refine ⟨i1, i2, g1, g2, hne, hi1, hi2main, hl1, hl2, hg1, hi2, hg2, ?_, ?_, ?_, ?_,
    hshape2.1, ?_, hsizes, ?_⟩
  · show r2.2.groups[i1]? = _
    rw [hg2, List.getElem?_set_ne (Ne.symm hne)]
    simp [hlt1]
  · show r2.2.groups[i2]? = _
    rw [hg2]
    simp [hlt2]
  · rw [List.length_append, hl1, List.length_singleton]
  · rw [List.length_append, hl2, List.length_singleton]
  · show r2.2.groups.countP (fun g => g.length = 4 + 1) = 2
    rw [hc2.2.2.1, hc1.2.2.1, hmain5]
  · have h1 := hc1.2.1
    have h2 := hc2.2.1
    omega

/-- Ten students without constraints and shuffles that change nothing: main formation forms
two groups of four and leaves `I` and `J`, who are folded into the first and the second
group. -/
theorem two_folds_different_groups_witness :
    currentlyUngrouped 4 (by decide) ["A", "B", "C", "D", "E", "F", "G", "H", "I", "J"] []
      (Rand.ofList []) = ["I", "J"] ∧
    (formFourPersonGroups ["A", "B", "C", "D", "E", "F", "G", "H", "I", "J"] []
      (Rand.ofList [])).groups = [["A", "B", "C", "D", "I"], ["E", "F", "G", "H", "J"]] ∧
    (formFourPersonGroups ["A", "B", "C", "D", "E", "F", "G", "H", "I", "J"] []
      (Rand.ofList [])).groups.countP (fun g => g.length = 5) = 2 := by
  have hrem : currentlyUngrouped 4 (by decide)
      ["A", "B", "C", "D", "E", "F", "G", "H", "I", "J"] [] (Rand.ofList []) = ["I", "J"] := by
    simp [currentlyUngrouped, mainFormation, attemptToFormGroupsOfSize, attemptLoop,
      isValidGroup, UsedSet.empty, UsedSet.markAll, UsedSet.mark, Rand.next, Rand.ofList,
      Rand.advance, Shuffle.identity, conflictFrom, conflictAt, occursIn, Constraints.get,
      List.lookup, List.enum, List.enumFrom]
  have hgroups : (formFourPersonGroups ["A", "B", "C", "D", "E", "F", "G", "H", "I", "J"] []
      (Rand.ofList [])).groups = [["A", "B", "C", "D", "I"], ["E", "F", "G", "H", "J"]] := by
    simp [formFourPersonGroups, attemptToFormGroupsOfSize, attemptLoop,
      tryIntegrateIntoExistingGroup, integrateLoop, finalUngrouped, isValidGroup,
      UsedSet.empty, UsedSet.markAll, UsedSet.mark, Rand.next, Rand.ofList, Rand.advance,
      Shuffle.identity, conflictFrom, conflictAt, occursIn, Constraints.get, List.lookup,
      List.enum, List.enumFrom]
  have h := two_folds_different_groups ["A", "B", "C", "D", "E", "F", "G", "H", "I", "J"] []
    (Rand.ofList []) "I" "J" _ _ _ rfl hrem rfl rfl
    (by simp [mainFormation, attemptToFormGroupsOfSize, attemptLoop,
      tryIntegrateIntoExistingGroup, integrateLoop, isValidGroup,
      UsedSet.empty, UsedSet.markAll, UsedSet.mark, Rand.next, Rand.ofList, Rand.advance,
      Shuffle.identity, conflictFrom, conflictAt, occursIn, Constraints.get, List.lookup,
      List.enum, List.enumFrom])
    (by simp [mainFormation, attemptToFormGroupsOfSize, attemptLoop,
      tryIntegrateIntoExistingGroup, integrateLoop, isValidGroup,
      UsedSet.empty, UsedSet.markAll, UsedSet.mark, Rand.next, Rand.ofList, Rand.advance,
      Shuffle.identity, conflictFrom, conflictAt, occursIn, Constraints.get, List.lookup,
      List.enum, List.enumFrom])
  obtain ⟨_, _, _, _, _, _, _, _, _, _, _, _, _, _, _, _, _, hcount, _⟩ := h
  exact ⟨hrem, hgroups, hcount⟩

/-- C24 (standalone remainder groups): when main formation in `formThreePersonGroups` leaves
exactly two students, the function appends them as one extra group, of size 2, exactly when
the two are jointly valid under `isValidGroup`, and then nobody is left over; otherwise it
returns the groups of main formation unchanged and the two students are the leftover.
Likewise, when main formation in `formFourPersonGroups` leaves exactly three students, they
become one extra group, of size 3, exactly when they are jointly valid, and otherwise the
groups are unchanged and the three are the leftover.  In all these cases the function makes no
shuffle after main formation: no fold is attempted. -/
theorem standalone_remainder_groups (allStudents : List String) (constraints : Constraints)
    (rand : Rand) :
    (∀ a b : String,
      currentlyUngrouped 3 (by decide) allStudents constraints rand = [a, b] →
      (isValidGroup [a, b] constraints = true →
        (formThreePersonGroups allStudents constraints rand).groups
          = (mainFormation 3 (by decide) allStudents constraints rand).groups ++ [[a, b]] ∧
        (formThreePersonGroups allStudents constraints rand).ungrouped = [] ∧
        (formThreePersonGroups allStudents constraints rand).rand
          = (mainFormation 3 (by decide) allStudents constraints rand).rand) ∧
      (isValidGroup [a, b] constraints = false →
        (formThreePersonGroups allStudents constraints rand).groups
          = (mainFormation 3 (by decide) allStudents constraints rand).groups ∧
        (formThreePersonGroups allStudents constraints rand).ungrouped.Perm [a, b] ∧
        (formThreePersonGroups allStudents constraints rand).rand
          = (mainFormation 3 (by decide) allStudents constraints rand).rand) ∧
      ((formThreePersonGroups allStudents constraints rand).groups
          = (mainFormation 3 (by decide) allStudents constraints rand).groups ++ [[a, b]] ↔
        isValidGroup [a, b] constraints = true)) ∧
    (∀ a b d : String,
      currentlyUngrouped 4 (by decide) allStudents constraints rand = [a, b, d] →
      (isValidGroup [a, b, d] constraints = true →
        (formFourPersonGroups allStudents constraints rand).groups
          = (mainFormation 4 (by decide) allStudents constraints rand).groups ++ [[a, b, d]] ∧
        (formFourPersonGroups allStudents constraints rand).ungrouped = [] ∧
        (formFourPersonGroups allStudents constraints rand).rand
          = (mainFormation 4 (by decide) allStudents constraints rand).rand) ∧
      (isValidGroup [a, b, d] constraints = false →
        (formFourPersonGroups allStudents constraints rand).groups
          = (mainFormation 4 (by decide) allStudents constraints rand).groups ∧
        (formFourPersonGroups allStudents constraints rand).ungrouped.Perm [a, b, d] ∧
        (formFourPersonGroups allStudents constraints rand).rand
          = (mainFormation 4 (by decide) allStudents constraints rand).rand) ∧
      ((formFourPersonGroups allStudents constraints rand).groups
          = (mainFormation 4 (by decide) allStudents constraints rand).groups ++ [[a, b, d]] ↔
        isValidGroup [a, b, d] constraints = true)) := by
  constructor
  · intro a b hrem
    exact standalone_outcome allStudents constraints rand 3 (by decide) [a, b] _ hrem
      (formThree_two_remaining allStudents constraints rand a b _ rfl hrem)
  · intro a b d hrem
    exact standalone_outcome allStudents constraints rand 4 (by decide) [a, b, d] _ hrem
      (formFour_three_remaining allStudents constraints rand a b d _ rfl hrem)

/-- Five students for groups of three, with shuffles that change nothing: main formation
leaves `D` and `E`.  Without constraints they become the second group and nobody is left over;
when they are forbidden to each other the group of three is returned alone and both are left
over. -/
theorem standalone_remainder_groups_witness :
    currentlyUngrouped 3 (by decide) ["A", "B", "C", "D", "E"] [] (Rand.ofList [])
      = ["D", "E"] ∧
    ((formThreePersonGroups ["A", "B", "C", "D", "E"] [] (Rand.ofList [])).groups
        = (mainFormation 3 (by decide) ["A", "B", "C", "D", "E"] [] (Rand.ofList [])).groups
          ++ [["D", "E"]] ∧
      (formThreePersonGroups ["A", "B", "C", "D", "E"] [] (Rand.ofList [])).ungrouped = [] ∧
      (formThreePersonGroups ["A", "B", "C", "D", "E"] [] (Rand.ofList [])).rand
        = (mainFormation 3 (by decide) ["A", "B", "C", "D", "E"] [] (Rand.ofList [])).rand) ∧
    currentlyUngrouped 3 (by decide) ["A", "B", "C", "D", "E"] [("D", ["E"]), ("E", ["D"])]
      (Rand.ofList []) = ["D", "E"] ∧
    ((formThreePersonGroups ["A", "B", "C", "D", "E"] [("D", ["E"]), ("E", ["D"])]
        (Rand.ofList [])).groups
        = (mainFormation 3 (by decide) ["A", "B", "C", "D", "E"] [("D", ["E"]), ("E", ["D"])]
          (Rand.ofList [])).groups ∧
      (formThreePersonGroups ["A", "B", "C", "D", "E"] [("D", ["E"]), ("E", ["D"])]
        (Rand.ofList [])).ungrouped.Perm ["D", "E"] ∧
      (formThreePersonGroups ["A", "B", "C", "D", "E"] [("D", ["E"]), ("E", ["D"])]
        (Rand.ofList [])).rand
        = (mainFormation 3 (by decide) ["A", "B", "C", "D", "E"] [("D", ["E"]), ("E", ["D"])]
          (Rand.ofList [])).rand) := by
  have hrem1 : currentlyUngrouped 3 (by decide) ["A", "B", "C", "D", "E"] [] (Rand.ofList [])
      = ["D", "E"] := by
    simp [currentlyUngrouped, mainFormation, attemptToFormGroupsOfSize, attemptLoop,
      isValidGroup, UsedSet.empty, UsedSet.markAll, UsedSet.mark, Rand.next, Rand.ofList,
      Rand.advance, Shuffle.identity, conflictFrom, conflictAt, occursIn, Constraints.get,
      List.lookup, List.enum, List.enumFrom]
  have hrem2 : currentlyUngrouped 3 (by decide) ["A", "B", "C", "D", "E"]
      [("D", ["E"]), ("E", ["D"])] (Rand.ofList []) = ["D", "E"] := by
    simp [currentlyUngrouped, mainFormation, attemptToFormGroupsOfSize, attemptLoop,
      isValidGroup, UsedSet.empty, UsedSet.markAll, UsedSet.mark, Rand.next, Rand.ofList,
      Rand.advance, Shuffle.identity, conflictFrom, conflictAt, occursIn, Constraints.get,
      List.lookup, List.enum, List.enumFrom]
  exact ⟨hrem1,
    ((standalone_remainder_groups ["A", "B", "C", "D", "E"] [] (Rand.ofList [])).1 "D" "E"
      hrem1).1 (by decide),
    hrem2,
    ((standalone_remainder_groups ["A", "B", "C", "D", "E"] [("D", ["E"]), ("E", ["D"])]
      (Rand.ofList [])).1 "D" "E" hrem2).2.1 (by decide)⟩

/-- C25: for each key `A` of the map, `checkSymmetricConstraints` appends the findings about
`A` in ascending order of the forbidden partner `B`: the findings of the iteration for `A` are
all about `A`, and their partners are in ascending order, whatever the order of the list of
`A` is.  Consequently the findings, and with them the returned error, are the same for two
maps with the same keys in the same enumeration order whose lists are permutations of each
other.  The function sorts a copy of each list: the list itself is left as it is. -/
theorem sorted_diagnostics (constraints constraints2 : Constraints)
    (hlists : SameListsUpToOrder constraints constraints2) :
    (∀ entry ∈ constraints,
      ((issuesFrom constraints entry.1 entry.2).map Asymmetry.studentB).Sorted
        (fun a b => a ≤ b) ∧
      (∀ f ∈ issuesFrom constraints entry.1 entry.2, f.studentA = entry.1) ∧
      (sortedCopy entry.2).1 = entry.2 ∧
      issuesFrom constraints entry.1 entry.2
        = (sortedCopy entry.2).2.flatMap (fun b => issuesAt constraints entry.1 b)) ∧
    asymmetricIssues constraints
      = constraints.flatMap (fun entry => issuesFrom constraints entry.1 entry.2) ∧
    asymmetricIssues constraints2 = asymmetricIssues constraints ∧
    checkSymmetricConstraints constraints2 = checkSymmetricConstraints constraints := by
  refine ⟨?_, rfl, asymmetricIssues_of_sameLists hlists, ?_⟩
  · intro entry _
    refine ⟨?_, ?_, rfl, rfl⟩
    · exact (sortStrings_sorted entry.2).sublist (studentB_sublist constraints entry.1 _)
    · intro f hf
      exact studentA_of_mem constraints entry.1 _ f hf
  · unfold checkSymmetricConstraints
    rw [asymmetricIssues_of_sameLists hlists]

/-- Anna forbids Zoe, Ben and Mia, in this order or in another, and none of them has
constraints: the findings name Ben, Mia and Zoe in this order either way. -/
theorem sorted_diagnostics_witness :
    asymmetricIssues [("Anna", ["Zoe", "Ben", "Mia"])]
      = [Asymmetry.noConstraints "Anna" "Ben", Asymmetry.noConstraints "Anna" "Mia",
          Asymmetry.noConstraints "Anna" "Zoe"] ∧
    asymmetricIssues [("Anna", ["Mia", "Zoe", "Ben"])]
      = asymmetricIssues [("Anna", ["Zoe", "Ben", "Mia"])] ∧
    checkSymmetricConstraints [("Anna", ["Mia", "Zoe", "Ben"])]
      = checkSymmetricConstraints [("Anna", ["Zoe", "Ben", "Mia"])] :=
  ⟨by simp +decide [asymmetricIssues, issuesFrom, sortStrings, issuesAt, Constraints.get,
      List.lookup, List.insertionSort, List.orderedInsert, String.le_iff_toList_le],
    (sorted_diagnostics [("Anna", ["Zoe", "Ben", "Mia"])] [("Anna", ["Mia", "Zoe", "Ben"])]
      (List.Forall₂.cons ⟨rfl, by decide⟩ List.Forall₂.nil)).2.2⟩

/-- C26: the result of `isValidGroup` does not depend on the order of the group, nor on the
order of the forbidden lists: for two groups that are permutations of each other the function
returns the same boolean, and it returns the same boolean for two maps with the same keys
whose lists are permutations of each other, key by key. -/
theorem isValidGroup_order_irrelevant (g1 g2 : List String)
    (constraints constraints2 : Constraints) (hgroup : g1.Perm g2)
    (hlists : SameListsUpToOrder constraints constraints2) :
    isValidGroup g1 constraints = isValidGroup g2 constraints ∧
    isValidGroup g1 constraints2 = isValidGroup g1 constraints ∧
    isValidGroup g2 constraints2 = isValidGroup g1 constraints := by
  have h1 := isValidGroup_of_perm hgroup constraints
  have h2 := fun g => isValidGroup_congr_mem g constraints constraints2
    (mem_forbidden_of_sameLists hlists)
  exact ⟨h1, h2 g1, (h2 g2).trans h1.symm⟩

/-- The group of Anna, Ben and Cem with Cem in the list of Anna is invalid in either order and
with either order of the list of Anna. -/
theorem isValidGroup_order_irrelevant_witness :
    isValidGroup ["Anna", "Ben", "Cem"] [("Anna", ["Dora", "Cem"])] = false ∧
    isValidGroup ["Cem", "Ben", "Anna"] [("Anna", ["Cem", "Dora"])] = false ∧
    isValidGroup ["Anna", "Ben", "Cem"] [("Anna", ["Dora", "Cem"])]
      = isValidGroup ["Cem", "Ben", "Anna"] [("Anna", ["Dora", "Cem"])] ∧
    isValidGroup ["Anna", "Ben", "Cem"] [("Anna", ["Cem", "Dora"])]
      = isValidGroup ["Anna", "Ben", "Cem"] [("Anna", ["Dora", "Cem"])] ∧
    isValidGroup ["Cem", "Ben", "Anna"] [("Anna", ["Cem", "Dora"])]
      = isValidGroup ["Anna", "Ben", "Cem"] [("Anna", ["Dora", "Cem"])] :=
  ⟨by decide, by decide,
    isValidGroup_order_irrelevant ["Anna", "Ben", "Cem"] ["Cem", "Ben", "Anna"]
      [("Anna", ["Dora", "Cem"])] [("Anna", ["Cem", "Dora"])] (by decide)
      (List.Forall₂.cons ⟨rfl, by decide⟩ List.Forall₂.nil)⟩

/-- C27: the reverse-direction check of `isValidGroup` is redundant, for every map, symmetric
or not: the function returns the same boolean as the simplified predicate
`isValidGroupForward`, the code with the lines 283-291 removed, and that predicate returns
`true` exactly when for no ordered pair of different positions `(i, j)` the student at `j`
occurs in `constraints[group[i]]`. -/
theorem reverse_check_redundant (group : List String) (constraints : Constraints) :
    isValidGroup group constraints = isValidGroupForward group constraints ∧
    (isValidGroupForward group constraints = true ↔
      ∀ (i j : Nat) (a b : String),
        i ≠ j → group[i]? = some a → group[j]? = some b → b ∉ constraints.forbidden a) := by
  have hfwd : isValidGroupForward group constraints = true ↔
      ∀ (i j : Nat) (a b : String),
        i ≠ j → group[i]? = some a → group[j]? = some b → b ∉ constraints.forbidden a := by
    rw [← Bool.not_eq_false, isValidGroupForward_eq_false_iff]
    push_neg
    rfl
  refine ⟨?_, hfwd⟩
  rw [Bool.eq_iff_iff, hfwd, isValidGroup_eq_true_iff]

/-- C28: the argument `newGroupSize` of `tryIntegrateIntoExistingGroup` is ignored: for the
same student, size to match, groups, used set, constraints and generator state the function
returns the same flag, groups and used set (and leaves the same generator state) for any two
values of `newGroupSize`; and when it reports an integration, the enlarged group is a group of
size `targetGroupSize` with the student appended, so it has `targetGroupSize + 1` members
whatever `newGroupSize` is. -/
theorem newGroupSize_ignored (lonelyStudent : String) (targetGroupSize : Nat)
    (newGroupSize newGroupSize2 : Nat) (existingGroups : List (List String))
    (usedStudents : UsedSet) (constraints : Constraints) (rand : Rand) :
    tryIntegrateIntoExistingGroup lonelyStudent targetGroupSize newGroupSize existingGroups
        usedStudents constraints rand
      = tryIntegrateIntoExistingGroup lonelyStudent targetGroupSize newGroupSize2
          existingGroups usedStudents constraints rand ∧
    ((tryIntegrateIntoExistingGroup lonelyStudent targetGroupSize newGroupSize existingGroups
        usedStudents constraints rand).1 = true →
      ∃ (idx : Nat) (group : List String),
        existingGroups[idx]? = some group ∧ group.length = targetGroupSize ∧
        (tryIntegrateIntoExistingGroup lonelyStudent targetGroupSize newGroupSize
          existingGroups usedStudents constraints rand).2.groups
          = existingGroups.set idx (group ++ [lonelyStudent]) ∧
        (tryIntegrateIntoExistingGroup lonelyStudent targetGroupSize newGroupSize
          existingGroups usedStudents constraints rand).2.groups[idx]?
          = some (group ++ [lonelyStudent]) ∧
        (group ++ [lonelyStudent]).length = targetGroupSize + 1) := by
  refine ⟨rfl, ?_⟩
  intro h
  obtain ⟨idx, group, hidx, hlen, _, heq⟩ :=
    tryIntegrate_true_shape lonelyStudent targetGroupSize newGroupSize existingGroups
      usedStudents constraints rand h
  refine ⟨idx, group, hidx, hlen, ?_, ?_, ?_⟩
  · rw [heq]
  · rw [heq]
    have hlt : idx < existingGroups.length := (List.getElem?_eq_some_iff.1 hidx).1
    simp [hlt]
  · rw [List.length_append, hlen, List.length_singleton]

/-- A fold of Eva into the pairs of Anna and Ben and of Cem and Dora, called with the sizes 3
and 7 for `newGroupSize`: the same result, a group of three. -/
theorem newGroupSize_ignored_witness :
    tryIntegrateIntoExistingGroup "Eva" 2 3 [["Anna", "Ben"], ["Cem", "Dora"]] UsedSet.empty
        [] (Rand.ofList [])
      = tryIntegrateIntoExistingGroup "Eva" 2 7 [["Anna", "Ben"], ["Cem", "Dora"]]
          UsedSet.empty [] (Rand.ofList []) ∧
    (tryIntegrateIntoExistingGroup "Eva" 2 7 [["Anna", "Ben"], ["Cem", "Dora"]] UsedSet.empty
        [] (Rand.ofList [])).2.groups = [["Anna", "Ben", "Eva"], ["Cem", "Dora"]] :=
  ⟨(newGroupSize_ignored "Eva" 2 3 7 [["Anna", "Ben"], ["Cem", "Dora"]] UsedSet.empty []
      (Rand.ofList [])).1,
    by simp [tryIntegrateIntoExistingGroup, integrateLoop, isValidGroup, Rand.next,
      Rand.ofList, Shuffle.identity, conflictFrom, Constraints.get, List.lookup, List.enum,
      List.enumFrom, List.range, List.range.loop]⟩

/-- C29: without constraints and for a duplicate-free roster of `n ≥ 2` students,
`formThreePersonGroups` leaves nobody ungrouped, whatever the shuffles are: for `n = 3k` it
returns `k` groups, all of size 3; for `n = 3k + 1` it returns `k` groups, `k - 1` of size 3
and one of size 4; for `n = 3k + 2` it returns `k + 1` groups, `k` of size 3 and one of
size 2. -/
theorem formThree_no_constraints (allStudents : List String) (constraints : Constraints)
    (rand : Rand) (hnodup : allStudents.Nodup) (hempty : NoConstraints constraints)
    (hsize : 2 ≤ allStudents.length) :
    (formThreePersonGroups allStudents constraints rand).ungrouped = [] ∧
    (∀ k : Nat, allStudents.length = 3 * k →
      (formThreePersonGroups allStudents constraints rand).groups.length = k ∧
      ∀ g ∈ (formThreePersonGroups allStudents constraints rand).groups, g.length = 3) ∧
    (∀ k : Nat, allStudents.length = 3 * k + 1 →
      (formThreePersonGroups allStudents constraints rand).groups.length = k ∧
      (formThreePersonGroups allStudents constraints rand).groups.countP
        (fun g => g.length = 3) = k - 1 ∧
      (formThreePersonGroups allStudents constraints rand).groups.countP
        (fun g => g.length = 4) = 1) ∧
    (∀ k : Nat, allStudents.length = 3 * k + 2 →
      (formThreePersonGroups allStudents constraints rand).groups.length = k + 1 ∧
      (formThreePersonGroups allStudents constraints rand).groups.countP
        (fun g => g.length = 3) = k ∧
      (formThreePersonGroups allStudents constraints rand).groups.countP
        (fun g => g.length = 2) = 1) := by
  have hp := rand.next.perm allStudents
  have hn : (rand.next.apply allStudents).Nodup := hp.nodup_iff.2 hnodup
  obtain ⟨hgood, hsizes, hcount, hrest⟩ :=
    main_formation_no_constraints 3 (by decide) (rand.next.apply allStudents) constraints
      rand.advance hn hempty
  rw [hp.length_eq] at hcount hrest
  have hwell := formThreePersonGroups_formsWell allStudents constraints rand
  have hflat := length_flatten_of_forall_length hsizes
  rw [hcount] at hflat
  have hmod : allStudents.length % 3 = 0 ∨ allStudents.length % 3 = 1 ∨
      allStudents.length % 3 = 2 := by omega
  rcases hmod with h0 | h1 | h2
  · -- nobody remains
    rw [h0] at hrest
    have hrem : currentlyUngrouped 3 (by decide) allStudents constraints rand = [] :=
      List.length_eq_zero.1 hrest
    have hres := formThree_none_remaining allStudents constraints rand hrem
    have hgroups : (formThreePersonGroups allStudents constraints rand).groups
        = (attemptLoop 3 (by decide) (rand.next.apply allStudents) constraints []
          UsedSet.empty rand.advance).groups := by
      rw [hres]
      rfl
    refine ⟨?_, ?_, ?_, ?_⟩
    · apply ungrouped_nil_of_length hwell hnodup
      rw [hgroups, hflat]
      omega
    · intro k hk
      rw [hgroups]
      exact ⟨by rw [hcount]; omega, hsizes⟩
    · intro k hk
      omega
    · intro k hk
      omega
  · -- one student remains and is folded
    rw [h1] at hrest
    obtain ⟨x, hx⟩ := List.length_eq_one.1 hrest
    have hne : (attemptLoop 3 (by decide) (rand.next.apply allStudents) constraints []
        UsedSet.empty rand.advance).groups ≠ [] := by
      intro h
      rw [h] at hcount
      simp only [List.length_nil] at hcount
      omega
    obtain ⟨idx, group, hidx, htry⟩ := tryIntegrate_success x 3 4 _
      (attemptLoop 3 (by decide) (rand.next.apply allStudents) constraints [] UsedSet.empty
        rand.advance).usedStudents constraints
      (attemptLoop 3 (by decide) (rand.next.apply allStudents) constraints [] UsedSet.empty
        rand.advance).rand hne hsizes
      (isValidGroup_of_noConstraints hempty)
    have hres := formThree_one_remaining allStudents constraints rand x _ _ rfl hx rfl
    have hgroups : (formThreePersonGroups allStudents constraints rand).groups
        = (attemptLoop 3 (by decide) (rand.next.apply allStudents) constraints []
          UsedSet.empty rand.advance).groups.set idx (group ++ [x]) := by
      rw [hres]
      unfold mainFormation attemptToFormGroupsOfSize
      rw [htry]
      rfl
    obtain ⟨hl, hc3, hc4⟩ := sizes_after_fold _ 3 idx group x hidx hsizes
    have hfl := (flatten_set_perm _ idx group x hidx).length_eq
    rw [List.length_cons, hflat] at hfl
    refine ⟨?_, ?_, ?_, ?_⟩
    · apply ungrouped_nil_of_length hwell hnodup
      rw [hgroups, hfl]
      omega
    · intro k hk
      omega
    · intro k hk
      rw [hgroups, hl, hc3, hc4, hcount]
      refine ⟨?_, ?_, rfl⟩
      · omega
      · omega
    · intro k hk
      omega
  · -- two students remain and become a group
    rw [h2] at hrest
    obtain ⟨a, b, hab⟩ := List.length_eq_two.1 hrest
    have hres := formThree_two_remaining allStudents constraints rand a b _ rfl hab
    rw [if_pos (isValidGroup_of_noConstraints hempty _)] at hres
    have hgroups : (formThreePersonGroups allStudents constraints rand).groups
        = (attemptLoop 3 (by decide) (rand.next.apply allStudents) constraints []
          UsedSet.empty rand.advance).groups ++ [[a, b]] := by
      rw [hres]
      rfl
    refine ⟨?_, ?_, ?_, ?_⟩
    · apply ungrouped_nil_of_length hwell hnodup
      rw [hgroups, List.flatten_append, List.length_append, hflat]
      simp only [List.flatten_cons, List.flatten_nil, List.append_nil, List.length_cons,
        List.length_nil]
      omega
    · intro k hk
      omega
    · intro k hk
      omega
    · intro k hk
      rw [hgroups, List.length_append, List.countP_append, List.countP_append, hcount,
        List.countP_eq_length.2 (fun g hg => by simpa using hsizes g hg),
        countP_length_eq_zero 2 hsizes (by decide), hcount]
      refine ⟨?_, ?_, ?_⟩
      · simp only [List.length_singleton]
        omega
      · simp
        omega
      · simp

/-- Seven students without constraints: one group of three and one group of four, nobody left
over; eight students: two groups of three and one pair. -/
theorem formThree_no_constraints_witness :
    ((formThreePersonGroups ["A", "B", "C", "D", "E", "F", "G"] [] (Rand.ofList
        [Shuffle.reverse])).ungrouped = [] ∧
      (formThreePersonGroups ["A", "B", "C", "D", "E", "F", "G"] [] (Rand.ofList
        [Shuffle.reverse])).groups.countP (fun g => g.length = 3) = 1 ∧
      (formThreePersonGroups ["A", "B", "C", "D", "E", "F", "G"] [] (Rand.ofList
        [Shuffle.reverse])).groups.countP (fun g => g.length = 4) = 1) ∧
    (formThreePersonGroups ["A", "B", "C", "D", "E", "F", "G", "H"] [] (Rand.ofList
        [])).groups = [["A", "B", "C"], ["D", "E", "F"], ["G", "H"]] :=
  ⟨⟨(formThree_no_constraints ["A", "B", "C", "D", "E", "F", "G"] []
        (Rand.ofList [Shuffle.reverse]) (by decide) (fun _ => rfl) (by decide)).1,
      ((formThree_no_constraints ["A", "B", "C", "D", "E", "F", "G"] []
        (Rand.ofList [Shuffle.reverse]) (by decide) (fun _ => rfl) (by decide)).2.2.1 2
          (by decide)).2⟩,
    by simp [formThreePersonGroups, attemptToFormGroupsOfSize, attemptLoop, finalUngrouped,
      isValidGroup, UsedSet.empty, UsedSet.markAll, UsedSet.mark, Rand.next, Rand.ofList,
      Rand.advance, Shuffle.identity, conflictFrom, conflictAt, occursIn, Constraints.get,
      List.lookup, List.enum, List.enumFrom]⟩

/-- C30: without constraints and for a duplicate-free roster of `n` students with
`n mod 4 = 2`, main formation of `formFourPersonGroups` leaves two students, and whatever the
shuffles are: for `n = 2` the function returns no group and a leftover of length 2; for
`n = 6` it returns one group, of size 5, and a leftover of length exactly 1, as the second
fold finds no group of size 4; for `n ≥ 10` it returns `n / 4` groups, two of size 5 and the
others of size 4, and an empty leftover. -/
theorem formFour_remainder_two (allStudents : List String) (constraints : Constraints)
    (rand : Rand) (hnodup : allStudents.Nodup) (hempty : NoConstraints constraints)
    (hmod : allStudents.length % 4 = 2) :
    (currentlyUngrouped 4 (by decide) allStudents constraints rand).length = 2 ∧
    (allStudents.length = 2 →
      (formFourPersonGroups allStudents constraints rand).groups = [] ∧
      (formFourPersonGroups allStudents constraints rand).ungrouped.length = 2) ∧
    (allStudents.length = 6 →
      (formFourPersonGroups allStudents constraints rand).groups.length = 1 ∧
      (formFourPersonGroups allStudents constraints rand).groups.countP
        (fun g => g.length = 5) = 1 ∧
      (formFourPersonGroups allStudents constraints rand).groups.countP
        (fun g => g.length = 4) = 0 ∧
      (formFourPersonGroups allStudents constraints rand).ungrouped.length = 1) ∧
    (10 ≤ allStudents.length →
      (formFourPersonGroups allStudents constraints rand).groups.length
        = allStudents.length / 4 ∧
      (formFourPersonGroups allStudents constraints rand).groups.countP
        (fun g => g.length = 5) = 2 ∧
      (formFourPersonGroups allStudents constraints rand).groups.countP
        (fun g => g.length = 4) = allStudents.length / 4 - 2 ∧
      (formFourPersonGroups allStudents constraints rand).ungrouped.length = 0) := by
  have hp := rand.next.perm allStudents
  have hn : (rand.next.apply allStudents).Nodup := hp.nodup_iff.2 hnodup
  obtain ⟨hgood, hsizes, hcount, hrest⟩ :=
    main_formation_no_constraints 4 (by decide) (rand.next.apply allStudents) constraints
      rand.advance hn hempty
  rw [hp.length_eq] at hcount hrest
  rw [hmod] at hrest
  have hwell := formFourPersonGroups_formsWell allStudents constraints rand
  have hpart := (formsWell_perm hwell hnodup).length_eq
  rw [List.length_append] at hpart
  have hflat := length_flatten_of_forall_length hsizes
  rw [hcount] at hflat
  have hall := isValidGroup_of_noConstraints hempty
  have hmain4 : (attemptLoop 4 (by decide) (rand.next.apply allStudents) constraints []
      UsedSet.empty rand.advance).groups.countP (fun g => g.length = 4)
        = allStudents.length / 4 := by
    rw [List.countP_eq_length.2 (fun g hg => by simpa using hsizes g hg), hcount]
  have hmain5 : (attemptLoop 4 (by decide) (rand.next.apply allStudents) constraints []
      UsedSet.empty rand.advance).groups.countP (fun g => g.length = 4 + 1) = 0 :=
    countP_length_eq_zero (4 + 1) hsizes (by decide)
  obtain ⟨p1, p2, hrem⟩ := List.length_eq_two.1 hrest
  have hres := formFour_two_remaining allStudents constraints rand p1 p2 _ _ _ rfl hrem rfl rfl
  refine ⟨hrest, ?_, ?_, ?_⟩
  · -- no group to fold into
    intro h2
    have hnil : (mainFormation 4 (by decide) allStudents constraints rand).groups = [] := by
      apply List.length_eq_zero.1
      show (attemptLoop 4 _ _ _ _ _ _).groups.length = 0
      rw [hcount]
      omega
    have hr1 : (tryIntegrateIntoExistingGroup p1 4 5
        (mainFormation 4 (by decide) allStudents constraints rand).groups
        (mainFormation 4 (by decide) allStudents constraints rand).usedStudents constraints
        (mainFormation 4 (by decide) allStudents constraints rand).rand).1 = false := by
      rw [hnil, tryIntegrate_nil]
    rw [hr1] at hres
    simp only [Bool.false_eq_true, if_false] at hres
    rw [hres]
    refine ⟨hnil, ?_⟩
    show (allStudents.filter _).length = 2
    rw [← filter_length_of_perm hp]
    exact hrest
  · -- one group: the first fold enlarges it, the second finds no group of size 4
    intro h6
    obtain ⟨g, hg⟩ : ∃ g, g ∈ (mainFormation 4 (by decide) allStudents constraints
        rand).groups := by
      apply List.exists_mem_of_length_pos
      show 0 < (attemptLoop 4 _ _ _ _ _ _).groups.length
      rw [hcount]
      omega
    have hr1 := tryIntegrate_fst_true p1 4 5 _
      (mainFormation 4 (by decide) allStudents constraints rand).usedStudents constraints
      (mainFormation 4 (by decide) allStudents constraints rand).rand g hg (hsizes g hg)
      (hall _)
    have hc1 := tryIntegrate_counts p1 4 5 _ _ constraints _ hr1
    have hzero : (tryIntegrateIntoExistingGroup p1 4 5
        (mainFormation 4 (by decide) allStudents constraints rand).groups
        (mainFormation 4 (by decide) allStudents constraints rand).usedStudents constraints
        (mainFormation 4 (by decide) allStudents constraints rand).rand).2.groups.countP
          (fun g => g.length = 4) = 0 := by
      have h := hc1.2.1
      have hm : (mainFormation 4 (by decide) allStudents constraints rand).groups.countP
          (fun g => g.length = 4) = allStudents.length / 4 := hmain4
      omega
    rw [if_pos hr1] at hres
    cases hr2 : (tryIntegrateIntoExistingGroup p2 4 5
        (tryIntegrateIntoExistingGroup p1 4 5
          (mainFormation 4 (by decide) allStudents constraints rand).groups
          (mainFormation 4 (by decide) allStudents constraints rand).usedStudents constraints
          (mainFormation 4 (by decide) allStudents constraints rand).rand).2.groups
        (tryIntegrateIntoExistingGroup p1 4 5
          (mainFormation 4 (by decide) allStudents constraints rand).groups
          (mainFormation 4 (by decide) allStudents constraints rand).usedStudents constraints
          (mainFormation 4 (by decide) allStudents constraints rand).rand).2.usedStudents
        constraints
        (tryIntegrateIntoExistingGroup p1 4 5
          (mainFormation 4 (by decide) allStudents constraints rand).groups
          (mainFormation 4 (by decide) allStudents constraints rand).usedStudents constraints
          (mainFormation 4 (by decide) allStudents constraints rand).rand).2.rand).1 with
    | true =>
      obtain ⟨idx, group, hidx, hlen, _, _⟩ := tryIntegrate_true_shape p2 4 5 _ _ _ _ hr2
      have hmem := List.getElem?_mem hidx
      have := List.countP_eq_zero.1 hzero group hmem
      simp [hlen] at this
    | false =>
      rw [hr2] at hres
      simp only [Bool.false_eq_true, if_false] at hres
      have hgroups : (formFourPersonGroups allStudents constraints rand).groups
          = (tryIntegrateIntoExistingGroup p1 4 5
            (mainFormation 4 (by decide) allStudents constraints rand).groups
            (mainFormation 4 (by decide) allStudents constraints rand).usedStudents
            constraints
            (mainFormation 4 (by decide) allStudents constraints rand).rand).2.groups := by
        rw [hres]
        rfl
      have hl : (mainFormation 4 (by decide) allStudents constraints rand).groups.length
          = allStudents.length / 4 := hcount
      have hf : (mainFormation 4 (by decide) allStudents constraints rand).groups.flatten.length
          = 4 * (allStudents.length / 4) := hflat
      have h5 : (mainFormation 4 (by decide) allStudents constraints rand).groups.countP
          (fun g => g.length = 4 + 1) = 0 := hmain5
      rw [hgroups] at hpart ⊢
      rw [hc1.2.2.2, hf] at hpart
      refine ⟨?_, ?_, hzero, ?_⟩
      · rw [hc1.1, hl]
        omega
      · show List.countP (fun g : List String => decide (g.length = 4 + 1)) _ = 1
        rw [hc1.2.2.1, h5]
      · omega
  · -- two groups or more: both folds succeed
    intro h10
    obtain ⟨g, hg⟩ : ∃ g, g ∈ (mainFormation 4 (by decide) allStudents constraints
        rand).groups := by
      apply List.exists_mem_of_length_pos
      show 0 < (attemptLoop 4 _ _ _ _ _ _).groups.length
      rw [hcount]
      omega
    have hr1 := tryIntegrate_fst_true p1 4 5 _
      (mainFormation 4 (by decide) allStudents constraints rand).usedStudents constraints
      (mainFormation 4 (by decide) allStudents constraints rand).rand g hg (hsizes g hg)
      (hall _)
    have hc1 := tryIntegrate_counts p1 4 5 _ _ constraints _ hr1
    have hm : (mainFormation 4 (by decide) allStudents constraints rand).groups.countP
        (fun g => g.length = 4) = allStudents.length / 4 := hmain4
    have hpos : 0 < (tryIntegrateIntoExistingGroup p1 4 5
        (mainFormation 4 (by decide) allStudents constraints rand).groups
        (mainFormation 4 (by decide) allStudents constraints rand).usedStudents constraints
        (mainFormation 4 (by decide) allStudents constraints rand).rand).2.groups.countP
          (fun g => g.length = 4) := by
      have h := hc1.2.1
      omega
    obtain ⟨g2, hg2, hlen2⟩ := List.countP_pos_iff.1 hpos
    have hr2 := tryIntegrate_fst_true p2 4 5 _
      (tryIntegrateIntoExistingGroup p1 4 5
        (mainFormation 4 (by decide) allStudents constraints rand).groups
        (mainFormation 4 (by decide) allStudents constraints rand).usedStudents constraints
        (mainFormation 4 (by decide) allStudents constraints rand).rand).2.usedStudents
      constraints
      (tryIntegrateIntoExistingGroup p1 4 5
        (mainFormation 4 (by decide) allStudents constraints rand).groups
        (mainFormation 4 (by decide) allStudents constraints rand).usedStudents constraints
        (mainFormation 4 (by decide) allStudents constraints rand).rand).2.rand
      g2 hg2 (by simpa using hlen2) (hall _)
    have hc2 := tryIntegrate_counts p2 4 5 _ _ constraints _ hr2
    rw [if_pos hr1, if_pos hr2] at hres
    have hl : (mainFormation 4 (by decide) allStudents constraints rand).groups.length
        = allStudents.length / 4 := hcount
    have hf : (mainFormation 4 (by decide) allStudents constraints rand).groups.flatten.length
        = 4 * (allStudents.length / 4) := hflat
    have h5 : (mainFormation 4 (by decide) allStudents constraints rand).groups.countP
        (fun g => g.length = 4 + 1) = 0 := hmain5
    have hgroups : (formFourPersonGroups allStudents constraints rand).groups
        = (tryIntegrateIntoExistingGroup p2 4 5
          (tryIntegrateIntoExistingGroup p1 4 5
            (mainFormation 4 (by decide) allStudents constraints rand).groups
            (mainFormation 4 (by decide) allStudents constraints rand).usedStudents
            constraints
            (mainFormation 4 (by decide) allStudents constraints rand).rand).2.groups
          (tryIntegrateIntoExistingGroup p1 4 5
            (mainFormation 4 (by decide) allStudents constraints rand).groups
            (mainFormation 4 (by decide) allStudents constraints rand).usedStudents
            constraints
            (mainFormation 4 (by decide) allStudents constraints rand).rand).2.usedStudents
          constraints
          (tryIntegrateIntoExistingGroup p1 4 5
            (mainFormation 4 (by decide) allStudents constraints rand).groups
            (mainFormation 4 (by decide) allStudents constraints rand).usedStudents
            constraints
            (mainFormation 4 (by decide) allStudents constraints rand).rand).2.rand).2.groups
        := by
      rw [hres]
      rfl
    rw [hgroups] at hpart ⊢
    rw [hc2.2.2.2, hc1.2.2.2, hf] at hpart
    refine ⟨?_, ?_, ?_, ?_⟩
    · rw [hc2.1, hc1.1, hl]
    · show List.countP (fun g : List String => decide (g.length = 4 + 1)) _ = 2
      rw [hc2.2.2.1, hc1.2.2.1, h5]
    · have h1 := hc1.2.1
      have h2 := hc2.2.1
      omega
    · omega

/-- Six students without constraints, with shuffles that change nothing: the first of the two
remaining students is folded into the one group of four, the second is left over. -/
theorem formFour_remainder_two_witness :
    ["A", "B", "C", "D", "E", "F"].Nodup ∧
    (formFourPersonGroups ["A", "B", "C", "D", "E", "F"] [] (Rand.ofList [])).groups
      = [["A", "B", "C", "D", "E"]] ∧
    (formFourPersonGroups ["A", "B", "C", "D", "E", "F"] [] (Rand.ofList [])).ungrouped
      = ["F"] ∧
    (formFourPersonGroups ["A", "B", "C", "D", "E", "F"] [] (Rand.ofList
      [Shuffle.reverse, Shuffle.rotate])).ungrouped.length = 1 := by
  refine ⟨by decide, ?_, ?_,
    ((formFour_remainder_two ["A", "B", "C", "D", "E", "F"] []
      (Rand.ofList [Shuffle.reverse, Shuffle.rotate]) (by decide) (fun _ => rfl)
      (by decide)).2.2.1 (by decide)).2.2.2⟩
  all_goals
    simp [formFourPersonGroups, attemptToFormGroupsOfSize, attemptLoop,
      tryIntegrateIntoExistingGroup, integrateLoop, finalUngrouped, isValidGroup,
      UsedSet.empty, UsedSet.markAll, UsedSet.mark, Rand.next, Rand.ofList, Rand.advance,
      Shuffle.identity, conflictFrom, conflictAt, occursIn, Constraints.get, List.lookup,
      List.enum, List.enumFrom]

end Klassenmischer
